import Mathlib

/-!
Verification of the graph construction, inference and query core of the
neo-command healthcare knowledge-graph system.

The development is a shallow embedding of the Python sources:
  * `src/graph/schema.py`          — node/edge type constants and id helpers
  * `src/graph/medical_requirements.py` — the static capability → equipment table
  * `src/graph/inference.py`       — `add_lacks_edges`, `add_could_support_edges`
  * `src/graph/desert.py`          — `_find_nearest_with_service`, `add_desert_edges`
  * `src/graph/build_graph.py`     — parsing, deduplication, graph assembly
  * `src/graph/queries.py`         — `get_facility_mismatches`,
                                     `_facility_matches_filters`, `search_facilities_multi`

Modelling conventions:
  * `networkx.MultiDiGraph` is modelled as a list of (node id × attributes)
    plus a flat list of edges in insertion order.  `G.edges(n)` on a
    MultiDiGraph yields the out-edges of `n` grouped by neighbour (in order of
    first edge insertion per neighbour); every property proved below is
    insensitive to that grouping, so the flat insertion order is used.
  * Python dicts preserve insertion order; they are modelled as association
    lists.  Python sets have unspecified iteration order; code that iterates a
    set is modelled by first-seen-order deduplicated lists, and only
    order-insensitive facts are proved about those iterations.
  * Numbers are exact rationals.  The Python floats appearing in the claims
    (0.6, 0.9, fractions with denominator ≤ 6 compared against 0.6, and
    `round(x, n)` at non-tie points) behave identically in IEEE double and in
    exact arithmetic at every point used in a theorem below.
  * Node ids such as `"equipment::xray_machine"` are modelled by the inductive
    `NodeId`; the rendering to the Python string is `idString`.  String
    operations of the source (`startswith("equipment::")`,
    `split("::", 1)[1]`) become pattern matches / `nodeKey`, which is faithful
    because the namespace tag determines the constructor.
-/

namespace NeoCommand

/-- Truthiness of an optional string, as Python evaluates it
(`None` and `""` are falsy). -/
def optTruthy : Option String → Bool
  | none => false
  | some s => s ≠ ""

/-- ASCII lower-casing of one character.  Python's `str.lower()` also folds
non-ASCII letters; every string the system lower-cases (canonical keys,
region labels, facility types) is ASCII, and every theorem below evaluates it
on ASCII only. -/
def charLower (c : Char) : Char :=
  match c with
  | 'A' => 'a' | 'B' => 'b' | 'C' => 'c' | 'D' => 'd' | 'E' => 'e' | 'F' => 'f'
  | 'G' => 'g' | 'H' => 'h' | 'I' => 'i' | 'J' => 'j' | 'K' => 'k' | 'L' => 'l'
  | 'M' => 'm' | 'N' => 'n' | 'O' => 'o' | 'P' => 'p' | 'Q' => 'q' | 'R' => 'r'
  | 'S' => 's' | 'T' => 't' | 'U' => 'u' | 'V' => 'v' | 'W' => 'w' | 'X' => 'x'
  | 'Y' => 'y' | 'Z' => 'z' | other => other

/-- Python `s.lower()` (ASCII). -/
def pyLower (s : String) : String := ⟨s.data.map charLower⟩

/-- Python whitespace for `str.strip()`. -/
def isPySpace (c : Char) : Bool :=
  c = ' ' ∨ c = '\t' ∨ c = '\n' ∨ c = '\r' ∨ c = '\x0b' ∨ c = '\x0c'

/-- Python `s.strip()`. -/
def pyStrip (s : String) : String :=
  ⟨((s.data.dropWhile isPySpace).reverse.dropWhile isPySpace).reverse⟩

/-- Python `round` to an integer: round half to even (banker's rounding).
Stated on the numerator/denominator so that it evaluates by kernel
reduction: `f` is `⌊q⌋` (`den` is positive) and `num2 / den` is twice the
fractional part. -/
def roundHalfEven (q : ℚ) : ℤ :=
  let f : ℤ := Int.fdiv q.num (q.den : ℤ)
  let num2 : ℤ := 2 * (q.num - f * (q.den : ℤ))
  if num2 < (q.den : ℤ) then f
  else if (q.den : ℤ) < num2 then f + 1
  else if f % 2 = 0 then f else f + 1

/-- Powers of ten, as integers. -/
def pow10 : ℕ → ℤ
  | 0 => 1
  | n + 1 => 10 * pow10 n

/-- Python `round(q, n)`: round to `n` decimal places, half to even.  The
scaling `q * 10^n` is written `Rat.divInt (q.num * 10^n) q.den` (the same
rational) so that concrete instances reduce in the kernel.  (The Python call
operates on IEEE doubles; at every rational point evaluated in a theorem
below the double result coincides with the exact result.) -/
def pyRound (q : ℚ) (n : ℕ) : ℚ :=
  Rat.divInt (roundHalfEven (Rat.divInt (q.num * pow10 n) (q.den : ℤ))) (pow10 n)

/-- Node identifiers, mirroring the `<namespace>::<key>` id helpers of
`graph/schema.py`. -/
inductive NodeId where
  | region (key : String)
  | facility (pk : String)
  | ngo (pk : String)
  | capability (key : String)
  | equipment (key : String)
  | specialty (name : String)
deriving DecidableEq, Repr

/-- Rendering of a node id to its Python string form, e.g.
`"equipment::xray_machine"`. -/
def idString : NodeId → String
  | .region k => "region::" ++ k
  | .facility pk => "facility::" ++ pk
  | .ngo pk => "ngo::" ++ pk
  | .capability k => "capability::" ++ k
  | .equipment k => "equipment::" ++ k
  | .specialty n => "specialty::" ++ n

/-- Python `target.split("::", 1)[1]` on a node id (every id constructed by
the system contains `"::"`). -/
def nodeKey : NodeId → String
  | .region k => k
  | .facility pk => pk
  | .ngo pk => pk
  | .capability k => k
  | .equipment k => k
  | .specialty n => n

/-- `region_id` from `graph/schema.py` (lower-cases and strips the key). -/
def region_id (name : String) : NodeId := .region (pyStrip (pyLower name))

/-- `facility_id` from `graph/schema.py`. -/
def facility_id (pk : String) : NodeId := .facility pk

/-- `ngo_id` from `graph/schema.py`. -/
def ngo_id (pk : String) : NodeId := .ngo pk

/-- `capability_id` from `graph/schema.py`. -/
def capability_id (canonical : String) : NodeId := .capability canonical

/-- `equipment_id` from `graph/schema.py`. -/
def equipment_id (canonical : String) : NodeId := .equipment canonical

/-- `specialty_id` from `graph/schema.py` (no case normalization). -/
def specialty_id (name : String) : NodeId := .specialty name

/-- Node attribute dictionary.  Fields not read by any modelled operation
(raw text fields, contact fields, provenance counters) are omitted; absent
attributes are `none` (Python `dict.get` returning `None`), except
`node_type`, where the sources compare `d.get("node_type")` against string
constants and `""` models the absent key (the comparison is `False` either
way). -/
structure NodeData where
  node_type : String := ""
  name : Option String := none
  display_name : Option String := none
  region : Option String := none
  city : Option String := none
  facility_type : Option String := none
  capacity : Option Int := none
  number_beds : Option Int := none
  population : Option Int := none
  capital : Option String := none
  lat : Option ℚ := none
  lng : Option ℚ := none
deriving DecidableEq, Repr

/-- Edge attribute dictionaries, one constructor per `edge_type` constant of
`graph/schema.py`. -/
inductive EdgeData where
  | locatedIn (city : Option String)
  | operatesIn (source : String)
  | hasSpecialty (source : String) (confidence : ℚ)
  | hasCapability (confidence : ℚ) (raw_text : String) (source_field : String)
  | hasEquipment (confidence : ℚ) (raw_text : String)
  | lacks (reason : String) (required_by : List String) (evidence_status : String)
  | couldSupport (existing_equipment : List String) (missing_equipment : List String)
      (readiness_score : ℚ)
  | desertFor (facility_count : ℕ) (population : ℤ)
      (nearest_region_with_service : Option String) (severity : ℚ)
deriving DecidableEq, Repr

/-- Recognizer for `edge_type == EDGE_LACKS`. -/
def EdgeData.isLacks : EdgeData → Bool
  | .lacks _ _ _ => true
  | _ => false

/-- Recognizer for `edge_type == EDGE_COULD_SUPPORT`. -/
def EdgeData.isCouldSupport : EdgeData → Bool
  | .couldSupport _ _ _ => true
  | _ => false

/-- Recognizer for `edge_type == EDGE_HAS_EQUIPMENT`. -/
def EdgeData.isHasEquipment : EdgeData → Bool
  | .hasEquipment _ _ => true
  | _ => false

/-- Recognizer for `edge_type == EDGE_HAS_CAPABILITY`. -/
def EdgeData.isHasCapability : EdgeData → Bool
  | .hasCapability _ _ _ => true
  | _ => false

/-- The `required_by` attribute of a `LACKS` edge (`[]` elsewhere, matching
`edata.get("required_by", [])`). -/
def EdgeData.requiredBy : EdgeData → List String
  | .lacks _ rb _ => rb
  | _ => []

/-- A directed edge instance of the MultiDiGraph. -/
structure Edge where
  src : NodeId
  tgt : NodeId
  data : EdgeData
deriving DecidableEq, Repr

/-- The knowledge graph: insertion-ordered node and edge lists. -/
structure Graph where
  nodes : List (NodeId × NodeData)
  edges : List Edge
deriving DecidableEq, Repr

/-- `G.has_node(n)`. -/
def Graph.hasNode (G : Graph) (n : NodeId) : Bool :=
  G.nodes.any fun p => p.1 = n

/-- Attribute dictionary of a node auto-created by `networkx.add_edge`
(empty dict: every `get` returns its default). -/
def emptyNodeData : NodeData := {}

/-- `networkx` `G.add_edge(u, v, ...)`: missing endpoints are silently added
as attribute-less nodes, then the edge instance is appended. -/
def Graph.addEdge (G : Graph) (u v : NodeId) (d : EdgeData) : Graph :=
  let ns1 := if G.hasNode u then G.nodes else G.nodes ++ [(u, emptyNodeData)]
  let G1 : Graph := { nodes := ns1, edges := G.edges }
  let ns2 := if G1.hasNode v then G1.nodes else G1.nodes ++ [(v, emptyNodeData)]
  { nodes := ns2, edges := G.edges ++ [⟨u, v, d⟩] }

/-- The facility node ids of the graph, in node insertion order
(`[n for n, d in G.nodes(data=True) if d.get("node_type") == NODE_FACILITY]`). -/
def facilityNodes (G : Graph) : List NodeId :=
  (G.nodes.filter fun p => p.2.node_type = "Facility").map Prod.fst

/-- First-seen-order deduplication with an accumulator of already-seen keys:
the model of building up a Python `set` by iteration. -/
def dedupFSAux [DecidableEq α] (seen : List α) : List α → List α
  | [] => []
  | x :: xs => if x ∈ seen then dedupFSAux seen xs else x :: dedupFSAux (x :: seen) xs

/-- First-seen-order deduplication. -/
def dedupFS [DecidableEq α] (l : List α) : List α := dedupFSAux [] l

/-- Projection used by `_get_facility_equipment` of `graph/inference.py`: an
out-edge of `fid` of type `HAS_EQUIPMENT` whose target id starts with
`"equipment::"` contributes its canonical key. -/
def eqProj (fid : NodeId) (e : Edge) : Option String :=
  if e.src = fid then
    match e.data, e.tgt with
    | .hasEquipment _ _, .equipment k => some k
    | _, _ => none
  else none

/-- Projection used by `_get_facility_capabilities` of `graph/inference.py`. -/
def capProj (fid : NodeId) (e : Edge) : Option String :=
  if e.src = fid then
    match e.data, e.tgt with
    | .hasCapability _ _ _, .capability k => some k
    | _, _ => none
  else none

/-- `_get_facility_equipment(G, fid)` — the set of canonical equipment keys a
facility has, as a first-seen-order list. -/
def facilityEquipment (G : Graph) (fid : NodeId) : List String :=
  dedupFS (G.edges.filterMap (eqProj fid))

/-- `_get_facility_capabilities(G, fid)` — the set of canonical capability
keys a facility claims, as a first-seen-order list. -/
def facilityCapabilities (G : Graph) (fid : NodeId) : List String :=
  dedupFS (G.edges.filterMap (capProj fid))

/-- One entry of the `CAPABILITY_REQUIREMENTS` table of
`graph/medical_requirements.py`. -/
structure Reqs where
  required : List String
  recommended : List String
deriving DecidableEq, Repr

/-- `CAPABILITY_REQUIREMENTS` of `graph/medical_requirements.py`, in source
(= Python dict insertion) order. -/
def CAPABILITY_REQUIREMENTS : List (String × Reqs) := [
  ("cataract_surgery",
    ⟨["operating_theatre", "operating_microscope", "autoclave", "anesthesia_machine"],
     ["phacoemulsification_machine", "a_scan_biometry", "slit_lamp", "keratometer"]⟩),
  ("general_surgery",
    ⟨["operating_theatre", "autoclave", "anesthesia_machine", "patient_monitor"],
     ["electrosurgical_unit", "suction_machine", "ventilator", "blood_bank", "oxygen_supply"]⟩),
  ("cesarean_section",
    ⟨["operating_theatre", "anesthesia_machine", "autoclave", "blood_bank", "patient_monitor"],
     ["ventilator", "oxygen_supply", "incubator", "suction_machine"]⟩),
  ("orthopedic_surgery",
    ⟨["operating_theatre", "anesthesia_machine", "autoclave", "xray_machine"],
     ["fluoroscopy", "patient_monitor", "electrosurgical_unit", "blood_bank"]⟩),
  ("eye_surgery",
    ⟨["operating_theatre", "operating_microscope", "autoclave", "anesthesia_machine"],
     ["slit_lamp", "oct_machine", "visual_field_tester", "laser_machine"]⟩),
  ("dental_services",
    ⟨["dental_chair"], ["dental_xray", "autoclave"]⟩),
  ("laparoscopic_surgery",
    ⟨["operating_theatre", "endoscope", "anesthesia_machine", "autoclave", "patient_monitor"],
     ["electrosurgical_unit", "suction_machine", "ventilator"]⟩),
  ("cardiac_surgery",
    ⟨["operating_theatre", "anesthesia_machine", "ventilator", "patient_monitor",
      "blood_bank", "defibrillator"],
     ["cath_lab", "ecg_machine", "oxygen_supply", "ultrasound"]⟩),
  ("neurosurgery",
    ⟨["operating_theatre", "operating_microscope", "anesthesia_machine", "ventilator",
      "patient_monitor", "ct_scanner"],
     ["mri_scanner", "electrosurgical_unit", "blood_bank"]⟩),
  ("plastic_surgery",
    ⟨["operating_theatre", "anesthesia_machine", "autoclave", "operating_microscope"],
     ["electrosurgical_unit", "suction_machine"]⟩),
  ("urology_surgery",
    ⟨["operating_theatre", "anesthesia_machine", "autoclave", "endoscope"],
     ["ultrasound", "xray_machine", "fluoroscopy"]⟩),
  ("endoscopy",
    ⟨["endoscope", "patient_monitor"],
     ["suction_machine", "anesthesia_machine", "autoclave"]⟩),
  ("laboratory_services",
    ⟨["laboratory"], ["microscope", "hematology_analyzer", "chemistry_analyzer"]⟩),
  ("xray_imaging", ⟨["xray_machine"], []⟩),
  ("ultrasound_imaging", ⟨["ultrasound"], []⟩),
  ("ct_imaging", ⟨["ct_scanner"], []⟩),
  ("mri_imaging", ⟨["mri_scanner"], []⟩),
  ("ecg_services", ⟨["ecg_machine"], []⟩),
  ("eye_examination",
    ⟨["slit_lamp"], ["visual_field_tester", "oct_machine", "fundus_camera", "keratometer"]⟩),
  ("emergency_services",
    ⟨["defibrillator", "patient_monitor", "oxygen_supply"],
     ["ventilator", "suction_machine", "xray_machine", "ambulance"]⟩),
  ("icu_services",
    ⟨["ventilator", "patient_monitor", "oxygen_supply", "infusion_pump"],
     ["defibrillator", "suction_machine", "ecg_machine"]⟩),
  ("nicu_services",
    ⟨["incubator", "patient_monitor", "oxygen_supply"],
     ["ventilator", "infusion_pump", "pulse_oximeter"]⟩),
  ("maternity_services",
    ⟨["ultrasound"], ["patient_monitor", "incubator", "oxygen_supply"]⟩),
  ("family_planning", ⟨[], ["ultrasound"]⟩),
  ("dialysis",
    ⟨["dialysis_machine", "patient_monitor"], ["laboratory", "oxygen_supply"]⟩),
  ("chemotherapy",
    ⟨["infusion_pump", "patient_monitor", "laboratory"], ["pharmacy"]⟩),
  ("radiotherapy",
    ⟨["radiation_therapy"], ["ct_scanner", "patient_monitor"]⟩),
  ("physiotherapy", ⟨["physiotherapy_equipment"], []⟩),
  ("hiv_treatment", ⟨["laboratory"], ["pharmacy"]⟩),
  ("mental_health", ⟨[], ["pharmacy"]⟩),
  ("vaccination", ⟨[], ["pharmacy"]⟩),
  ("outpatient_services", ⟨[], ["pharmacy", "laboratory"]⟩),
  ("inpatient_services",
    ⟨["patient_monitor"], ["pharmacy", "laboratory", "oxygen_supply"]⟩),
  ("pediatric_care", ⟨[], ["patient_monitor", "incubator", "pharmacy"]⟩),
  ("pharmacy_services", ⟨["pharmacy"], []⟩)]

/-- `CAPABILITY_REQUIREMENTS.get(cap_key)` (each table value is a non-empty
dict, so Python's `if not reqs` is exactly the `none` case). -/
def reqsGet? (cap : String) : Option Reqs :=
  (CAPABILITY_REQUIREMENTS.find? fun p => p.1 = cap).map Prod.snd

/-! ### Inference engine (`graph/inference.py`) -/

/-- First `LACKS` out-edge of `fid` pointing at `t` — the edge the
`for _, t, d in G.edges(fid, ...)` scan of `add_lacks_edges` stops at. -/
def findLacks (es : List Edge) (fid t : NodeId) : Option Edge :=
  es.find? fun e => e.src = fid ∧ e.tgt = t ∧ e.data.isLacks

/-- The in-place `required_by` update of `add_lacks_edges`
(`if cap_key not in d["required_by"]: d["required_by"].append(cap_key)`). -/
def EdgeData.appendRequiredBy : EdgeData → String → EdgeData
  | .lacks r rb ev, cap => .lacks r (if cap ∈ rb then rb else rb ++ [cap]) ev
  | d, _ => d

/-- Rewrites the edge list with the first `LACKS` edge `fid → t` updated via
`appendRequiredBy`. -/
def updateLacks : List Edge → NodeId → NodeId → String → List Edge
  | [], _, _, _ => []
  | e :: es, fid, t, cap =>
    if e.src = fid ∧ e.tgt = t ∧ e.data.isLacks then
      { e with data := e.data.appendRequiredBy cap } :: es
    else e :: updateLacks es fid t cap

/-- The fresh `LACKS` edge added by `add_lacks_edges`. -/
def newLacksEdge (fid : NodeId) (cap req : String) : Edge :=
  ⟨fid, equipment_id req,
   .lacks ("Required for " ++ cap ++ " but no evidence found") [cap] "no_evidence"⟩

/-- Body of the innermost loop of `add_lacks_edges`: one
(facility, capability, required-equipment) triple.  (The source's `G.add_edge`
cannot auto-create nodes here: both endpoints are known to exist, so the edge
is a plain append.) -/
def lacksStep (fid : NodeId) (owned : List String) (cap : String)
    (G : Graph) (req : String) : Graph :=
  if req ∈ owned then G
  else
    let eid := equipment_id req
    if G.hasNode eid = false then G
    else
      match findLacks G.edges fid eid with
      | some _ => { G with edges := updateLacks G.edges fid eid cap }
      | none => { G with edges := G.edges ++ [newLacksEdge fid cap req] }

/-- One claimed capability of one facility in `add_lacks_edges`. -/
def lacksForCap (fid : NodeId) (owned : List String) (G : Graph) (cap : String) : Graph :=
  match reqsGet? cap with
  | none => G
  | some r => r.required.foldl (lacksStep fid owned cap) G

/-- One facility in `add_lacks_edges` (its equipment and capability sets are
read from the graph state at the start of its turn). -/
def lacksForFacility (G : Graph) (fid : NodeId) : Graph :=
  let owned := facilityEquipment G fid
  let claimed := facilityCapabilities G fid
  claimed.foldl (lacksForCap fid owned) G

/-- `add_lacks_edges(G)` of `graph/inference.py`.  The `int` return value
(count of edges added) is not modelled; no claim reads it. -/
def add_lacks_edges (G : Graph) : Graph :=
  (facilityNodes G).foldl lacksForFacility G

/-- Body of the capability loop of `add_could_support_edges` for one
facility. -/
def couldStep (min_readiness : ℚ) (fid : NodeId) (owned claimed : List String)
    (G : Graph) (entry : String × Reqs) : Graph :=
  if entry.1 ∈ claimed then G
  else if entry.2.required = [] then G
  else
    let has_required := entry.2.required.filter (· ∈ owned)
    let readiness : ℚ := Rat.divInt has_required.length entry.2.required.length
    if min_readiness ≤ readiness then
      let missing := entry.2.required.filter (· ∉ owned)
      let cid := capability_id entry.1
      if G.hasNode cid = false then G
      else { G with edges := G.edges ++ [⟨fid, cid,
               .couldSupport has_required missing (pyRound readiness 2)⟩] }
    else G

/-- One facility in `add_could_support_edges`; facilities with an empty
equipment set are skipped outright. -/
def couldForFacility (min_readiness : ℚ) (G : Graph) (fid : NodeId) : Graph :=
  let owned := facilityEquipment G fid
  let claimed := facilityCapabilities G fid
  if owned = [] then G
  else CAPABILITY_REQUIREMENTS.foldl (couldStep min_readiness fid owned claimed) G

/-- `add_could_support_edges(G, min_readiness)` of `graph/inference.py`
(count return value not modelled). -/
def add_could_support_edges (G : Graph) (min_readiness : ℚ) : Graph :=
  (facilityNodes G).foldl (couldForFacility min_readiness) G

/-- Default `min_readiness = 0.6` of `add_could_support_edges`, written as
`Rat.divInt 3 5` (= 3/5 = 0.6) for kernel reducibility. -/
def defaultMinReadiness : ℚ := Rat.divInt 3 5

/-- One run of the Inference Engine as `build_graph` performs it:
`add_lacks_edges(G)` then `add_could_support_edges(G)` at the default
threshold 0.6. -/
def inferenceOnce (G : Graph) : Graph :=
  add_could_support_edges (add_lacks_edges G) defaultMinReadiness

/-! ### Desert detector (`graph/desert.py`) -/

/-- `adjacency.get(k, [])` on the region-adjacency dict. -/
def adjGet (adj : List (String × List String)) (k : String) : List String :=
  ((adj.find? fun p => p.1 = k).map Prod.snd).getD []

/-- Total length of the neighbour lists of the not-yet-visited keys of the
adjacency map; used only to bound the number of iterations of the BFS loop. -/
def sumAdj (adj : List (String × List String)) (visited : List String) : ℕ :=
  ((adj.filter fun p => p.1 ∉ visited).map fun p => p.2.length).sum

/-- Upper bound on the number of remaining iterations of the BFS while-loop:
every future enqueue consumes neighbour-list budget of a newly visited key. -/
def bfsMeasure (adj : List (String × List String))
    (visited queue : List String) : ℕ :=
  queue.length + sumAdj adj visited

/-- The `while queue:` loop of `_find_nearest_with_service`, with an explicit
fuel argument so the recursion is structural.  `bfsLoop_fuel_stable` below
shows the result is independent of the fuel once it is at least
`bfsMeasure adj visited queue`, so running it at exactly that fuel is the
unbounded Python loop.  `visited` is a Python set, modelled by a list with
membership semantics. -/
def bfsLoop (adj : List (String × List String)) (service : List String) :
    ℕ → List String → List String → Option String
  | _, _, [] => none
  | 0, _, _ :: _ => none
  | fuel + 1, visited, current :: rest =>
    if current ∈ visited then bfsLoop adj service fuel visited rest
    else
      let visited' := current :: visited
      if current ∈ service then some current
      else bfsLoop adj service fuel visited'
        (rest ++ (adjGet adj current).filter (· ∉ visited'))

/-- `_find_nearest_with_service(region_key, regions_with_service, adjacency)`
of `graph/desert.py`: BFS outward from `region_key` for the first region in
`regions_with_service`. -/
def findNearestWithService (region_key : String) (regions_with_service : List String)
    (adj : List (String × List String)) : Option String :=
  if region_key ∈ regions_with_service then some region_key
  else
    let queue0 := adjGet adj region_key
    bfsLoop adj regions_with_service
      (bfsMeasure adj [region_key] queue0) [region_key] queue0

/-- Region metadata entry of a country configuration
(`REGION_METADATA[key]`). -/
structure RegionMeta where
  display_name : String
  population : ℤ
  capital : String
  lat : ℚ
  lng : ℚ
deriving DecidableEq, Repr

/-- The country configuration module (e.g. `graph/config/ghana.py`) as far as
the modelled passes read it. -/
structure CountryConfig where
  REGION_METADATA : List (String × RegionMeta)
  REGION_ADJACENCY : List (String × List String)
  REGION_NORMALIZATION : List (String × String)
  CITY_TO_REGION : List (String × String)

/-- The distinct truthy `region` attributes of the facility nodes, in node
order.  For `min_facilities ≥ 1` (the only value used; it is the default),
filtering this list by the count test below yields exactly the key set of the
`region_specialty_counts` dict of `add_desert_edges`. -/
def facilityRegions (G : Graph) : List String :=
  dedupFS (G.nodes.filterMap fun p =>
    if p.2.node_type = "Facility" ∧ optTruthy p.2.region then p.2.region else none)

/-- `region_specialty_counts[region][spec]` of `add_desert_edges`: the number
of `HAS_SPECIALTY` edge instances at confidence ≥ threshold from facilities
whose truthy `region` attribute equals `region`, to `specialty::spec`. -/
def specialtyCount (G : Graph) (thr : ℚ) (region spec : String) : ℕ :=
  ((G.nodes.filter fun p =>
      p.2.node_type = "Facility" ∧ optTruthy p.2.region ∧ p.2.region = some region).map
    fun p => (G.edges.filter fun e =>
      decide (e.src = p.1) &&
      (match e.data with
       | .hasSpecialty _ c => decide (thr ≤ c)
       | _ => false) &&
      decide (e.tgt = .specialty spec)).length).sum

/-- The set `regions_with` of `add_desert_edges`: regions whose facility
count for `spec` clears `min_fac` (as a list; only membership is used). -/
def regionsWithService (G : Graph) (thr : ℚ) (min_fac : ℕ) (spec : String) :
    List String :=
  (facilityRegions G).filter fun r => min_fac ≤ specialtyCount G thr r spec

/-- `all_specialties` of `add_desert_edges`: the key of every Specialty node
(a Python set; modelled in first-seen order, and only order-insensitive facts
are proved about the iteration over it). -/
def allSpecialties (G : Graph) : List String :=
  dedupFS (G.nodes.filterMap fun p =>
    if p.2.node_type = "Specialty" then some (nodeKey p.1) else none)

/-- The `DESERT_FOR` edge recorded for one qualifying (region, specialty)
pair. -/
def desertEdge (G : Graph) (conf : CountryConfig) (min_fac : ℕ) (thr : ℚ)
    (rkey : String) (pop : ℤ) (spec : String) : Edge :=
  ⟨region_id rkey, specialty_id spec,
   .desertFor (specialtyCount G thr rkey spec) pop
     (findNearestWithService rkey (regionsWithService G thr min_fac spec)
        conf.REGION_ADJACENCY)
     (pyRound (Rat.divInt pop ((specialtyCount G thr rkey spec : ℤ) + 1)) 1)⟩

/-- `add_desert_edges(G, country_config, min_facilities, confidence_threshold)`
of `graph/desert.py` (count return value not modelled).  The specialty counts
and `regions_with` sets are read from `G`; the pass only appends `DESERT_FOR`
edges, which none of those reads observe, so reading them from the initial
graph is the source's behaviour. -/
def add_desert_edges (G : Graph) (conf : CountryConfig) (min_fac : ℕ) (thr : ℚ) :
    Graph :=
  conf.REGION_METADATA.foldl (fun g entry =>
    if g.hasNode (region_id entry.1) = false then g
    else
      (allSpecialties G).foldl (fun g2 spec =>
        if min_fac ≤ specialtyCount G thr entry.1 spec then g2
        else if g2.hasNode (specialty_id spec) = false then g2
        else { g2 with edges := g2.edges ++
                 [desertEdge G conf min_fac thr entry.1 entry.2.population spec] }) g) G

/-! ### Ingestion and deduplication (`graph/build_graph.py`) -/

/-- JSON values, as `json.loads` produces them. -/
inductive Json where
  | null
  | bool (b : Bool)
  | num (q : ℚ)
  | str (s : String)
  | arr (items : List Json)
  | obj (fields : List (String × Json))

/-- Python truthiness of a JSON value. -/
def Json.truthy : Json → Bool
  | .null => false
  | .bool b => b
  | .num q => q ≠ 0
  | .str s => s ≠ ""
  | .arr l => !l.isEmpty
  | .obj l => !l.isEmpty

/-- Python `str(item)` on a JSON value.  String items — the only kind that
occurs in the list columns, and the only kind a theorem below evaluates —
render as themselves; the renderings of the other constructors are
approximations of the Python `repr`-style output and are never relied on. -/
def Json.pyStr : Json → String
  | .null => "None"
  | .bool true => "True"
  | .bool false => "False"
  | .num q => toString q.num
  | .str s => s
  | .arr _ => "[...]"
  | .obj _ => "{...}"

/-- `_parse_json_list(value)` of `graph/build_graph.py`.  `value` is the raw
CSV cell; `parsed` is the outcome of `json.loads(value)` on it (`none`
models `JSONDecodeError`/`TypeError`).  Non-list parses and all failures
degrade to `[]`; list items are stringified, stripped, and dropped when falsy
or blank. -/
def parseJsonList (value : String) (parsed : Option Json) : List String :=
  if value = "" ∨ value = "null" ∨ value = "[]" then []
  else
    match parsed with
    | some (.arr items) =>
        items.filterMap fun it =>
          if it.truthy ∧ pyStrip it.pyStr ≠ "" then some (pyStrip it.pyStr) else none
    | some _ => []
    | none => []

/-- Python `int(x)` on a float: truncation toward zero, on exact rationals. -/
def pyTrunc (q : ℚ) : ℤ :=
  if 0 ≤ q then Int.fdiv q.num (q.den : ℤ) else -(Int.fdiv (-q).num ((-q).den : ℤ))

/-- `_parse_int(value)` of `graph/build_graph.py`; `asFloat` is the outcome
of Python `float(value)` (`none` models `ValueError`/`TypeError`). -/
def parseIntField (value : String) (asFloat : Option ℚ) : Option ℤ :=
  if value = "" ∨ value = "null" then none
  else match asFloat with
    | none => none
    | some q => some (pyTrunc q)

/-- `_parse_float(value)` of `graph/build_graph.py`; `asFloat` is the
outcome of Python `float(value)`. -/
def parseFloatField (value : String) (asFloat : Option ℚ) : Option ℚ :=
  if value = "" ∨ value = "null" then none
  else asFloat

/-- Dict lookup in a string-keyed mapping table (`d.get(k)`). -/
def tblGet (tbl : List (String × String)) (k : String) : Option String :=
  ((tbl.find? fun p => p.1 = k).map Prod.snd)

/-- The region-resolution step of `normalize_regions` for one row: normalize
`address_stateOrRegion` through `REGION_NORMALIZATION`, falling back to
`CITY_TO_REGION` on the city when the result is falsy. -/
def normalizeRegionOf (conf : CountryConfig) (rawRegion rawCity : Option String) :
    Option String :=
  let n1 : Option String :=
    match rawRegion with
    | some s => if s ≠ "" then tblGet conf.REGION_NORMALIZATION (pyStrip (pyLower s)) else none
    | none => none
  if optTruthy n1 then n1
  else match rawCity with
    | some c => if c ≠ "" then tblGet conf.CITY_TO_REGION (pyStrip (pyLower c)) else n1
    | none => n1

/-- A cleaned CSV row after `load_csv` / `normalize_regions` — the fields the
modelled pipeline reads.  The eight `JSON_LIST_COLUMNS` are lists; scalar
string columns are `Option String` (with `none` for `""`/`"null"`/missing,
as `load_csv` nulls them); parsed numerics are options. -/
structure Row where
  pk_unique_id : Option String := none
  source_url : Option String := none
  organization_type : Option String := none
  name : Option String := none
  facilityTypeId : Option String := none
  operatorTypeId : Option String := none
  address_city : Option String := none
  address_stateOrRegion : Option String := none
  description : Option String := none
  email : Option String := none
  capacity : Option ℤ := none
  numberDoctors : Option ℤ := none
  area : Option ℚ := none
  yearEstablished : Option ℤ := none
  normalized_region : Option String := none
  specialties : List String := []
  procedure : List String := []
  equipment : List String := []
  capability : List String := []
  phone_numbers : List String := []
  websites : List String := []
  affiliationTypeIds : List String := []
  countries : List String := []
deriving DecidableEq, Repr

/-- Truthiness of a row's `pk_unique_id` (`if not pk: continue` skips rows
whose key is missing, `None`, or empty). -/
def truthyPk (r : Row) : Option String :=
  match r.pk_unique_id with
  | some s => if s = "" then none else some s
  | none => none

/-- Loop body of `_merge_list_fields`: iterate `existing + new`, keeping an
item when its lower-cased form has not been seen. -/
def mergeListAux (seen : List String) : List String → List String
  | [] => []
  | x :: xs =>
    if pyLower x ∈ seen then mergeListAux seen xs
    else x :: mergeListAux (pyLower x :: seen) xs

/-- `_merge_list_fields(existing, new)` of `graph/build_graph.py`:
case-insensitive union preserving order of first appearance. -/
def mergeListFields (existing new : List String) : List String :=
  mergeListAux [] (existing ++ new)

/-- The generic scalar-merge rule of `deduplicate_rows`
(`if existing.get(key) is None and row.get(key) is not None`). -/
def mergeScalar (existing new : Option α) : Option α :=
  match existing with
  | none => new
  | some v => some v

/-- The `_normalized_region` merge of `deduplicate_rows`: the generic rule,
then the preference for a duplicate that resolved a truthy region. -/
def mergeRegionField (existing new : Option String) : Option String :=
  let e1 := mergeScalar existing new
  if optTruthy new ∧ ¬ optTruthy e1 then new else e1

/-- The in-place merge of a duplicate `row` into the stored entity of its
`pk_unique_id`. -/
def mergeRow (e r : Row) : Row :=
  { pk_unique_id := e.pk_unique_id
    source_url := mergeScalar e.source_url r.source_url
    organization_type := mergeScalar e.organization_type r.organization_type
    name := mergeScalar e.name r.name
    facilityTypeId := mergeScalar e.facilityTypeId r.facilityTypeId
    operatorTypeId := mergeScalar e.operatorTypeId r.operatorTypeId
    address_city := mergeScalar e.address_city r.address_city
    address_stateOrRegion := mergeScalar e.address_stateOrRegion r.address_stateOrRegion
    description := mergeScalar e.description r.description
    email := mergeScalar e.email r.email
    capacity := mergeScalar e.capacity r.capacity
    numberDoctors := mergeScalar e.numberDoctors r.numberDoctors
    area := mergeScalar e.area r.area
    yearEstablished := mergeScalar e.yearEstablished r.yearEstablished
    normalized_region := mergeRegionField e.normalized_region r.normalized_region
    specialties := mergeListFields e.specialties r.specialties
    procedure := mergeListFields e.procedure r.procedure
    equipment := mergeListFields e.equipment r.equipment
    capability := mergeListFields e.capability r.capability
    phone_numbers := mergeListFields e.phone_numbers r.phone_numbers
    websites := mergeListFields e.websites r.websites
    affiliationTypeIds := mergeListFields e.affiliationTypeIds r.affiliationTypeIds
    countries := mergeListFields e.countries r.countries }

/-- Entry of the `by_pk` insertion-ordered dict: key, merged row, and the
`source_counts` set of source urls (insertion-ordered list with set
membership). -/
abbrev PkEntry := String × Row × List String

/-- Python `set.add` on the insertion-ordered list model of a set. -/
def setAdd (s : List String) (x : String) : List String :=
  if x ∈ s then s else s ++ [x]

/-- `row.get("source_url", "")`. -/
def sourceUrlOf (r : Row) : String := r.source_url.getD ""

/-- One iteration of the `for row in rows:` loop of `deduplicate_rows`. -/
def dedupStep (acc : List PkEntry) (r : Row) : List PkEntry :=
  match truthyPk r with
  | none => acc
  | some pk =>
    match acc.find? fun p => p.1 = pk with
    | none =>
        acc ++ [(pk, r, if sourceUrlOf r ≠ "" then [sourceUrlOf r] else [])]
    | some _ =>
        acc.map fun p =>
          if p.1 = pk then (pk, mergeRow p.2.1 r, setAdd p.2.2 (sourceUrlOf r))
          else p

/-- `deduplicate_rows(rows)` of `graph/build_graph.py`: returns the merged
entities (in first-appearance order of their keys) paired with their
`_source_count`. -/
def deduplicate_rows (rows : List Row) : List (Row × ℕ) :=
  (rows.foldl dedupStep []).map fun p => (p.2.1, p.2.2.length)

/-! ### Graph assembly (`_add_facility`, `_add_ngo` of `graph/build_graph.py`)

The vocabulary normalizer (`graph/normalize.py`) is regex matching plus a
cached external classifier; the assembly pass is modelled as a function of
the three normalizer entry points it calls, so every theorem about it
quantifies over their behaviour. -/

/-- The three entry points of `graph/normalize.py` used by `_add_facility`:
`normalize_equipment_list` returns `(canonical_key, confidence, raw_text)`
triples, `match_equipment` returns `(canonical_key, confidence)` pairs, and
`normalize_capability_list` takes the `source_field` and returns
`(canonical_key, confidence, raw_text, source_field)` tuples. -/
structure Normalizers where
  normalize_equipment_list : List String → List (String × ℚ × String)
  match_equipment : String → List (String × ℚ)
  normalize_capability_list : List String → String → List (String × ℚ × String × String)

/-- Exact rational multiplication stated via `Rat.divInt` so concrete
instances reduce in the kernel; agrees with `*` (`qMul_eq_mul`). -/
def qMul (a b : ℚ) : ℚ := Rat.divInt (a.num * b.num) ((a.den : ℤ) * (b.den : ℤ))

/-- `networkx` `G.add_node(n, **attrs)`: appends the node, or updates the
attributes of an existing one.  The modelled callers always set every
attribute field a previous version of the node could carry, so the update is
a replacement. -/
def Graph.addNode (G : Graph) (n : NodeId) (d : NodeData) : Graph :=
  if G.hasNode n then
    { nodes := G.nodes.map fun p => if p.1 = n then (n, d) else p, edges := G.edges }
  else { nodes := G.nodes ++ [(n, d)], edges := G.edges }

/-- The `HAS_SPECIALTY` block of `_add_facility`: create the Specialty node
on first sight, then link at confidence 0.9. -/
def addSpecialtyEdges (G : Graph) (fid : NodeId) (specs : List String) : Graph :=
  specs.foldl (fun g spec =>
    if spec = "" then g
    else
      let sid := specialty_id spec
      let g1 := if g.hasNode sid = false then
                  g.addNode sid { node_type := "Specialty", display_name := some spec }
                else g
      g1.addEdge fid sid (.hasSpecialty "structured" (Rat.divInt 9 10))) G

/-- The `HAS_EQUIPMENT` block of `_add_facility` that normalizes the raw
equipment list. -/
def addEquipmentEdges (N : Normalizers) (G : Graph) (fid : NodeId) (raw : List String) :
    Graph :=
  if raw = [] then G
  else (N.normalize_equipment_list raw).foldl
    (fun g m => g.addEdge fid (equipment_id m.1) (.hasEquipment m.2.1 m.2.2)) G

/-- The `equipment_id(t)` set the text-extraction pass of `_add_facility`
builds from the current `HAS_EQUIPMENT` targets `t`.  Because `t` is already
a full node id, `equipment_id(t)` double-prefixes it, so the membership test
below never fires; the model preserves this faithfully. -/
def textPassExistingKeys (G : Graph) (fid : NodeId) : List NodeId :=
  (G.edges.filter fun e => decide (e.src = fid) && e.data.isHasEquipment).map
    fun e => NodeId.equipment (idString e.tgt)

/-- The second `HAS_EQUIPMENT` pass of `_add_facility`: equipment mentions
extracted from the capability list and description at 0.8× confidence. -/
def addTextEquipmentEdges (N : Normalizers) (G : Graph) (fid : NodeId)
    (capabilityList : List String) (desc : Option String) : Graph :=
  let sources := capabilityList.filter (· ≠ "") ++
    (match desc with
     | some d => if d ≠ "" then [d] else []
     | none => [])
  if sources = [] then G
  else
    let combined := String.intercalate " " sources
    (N.match_equipment combined).foldl (fun g m =>
      if equipment_id m.1 ∈ textPassExistingKeys g fid then g
      else g.addEdge fid (equipment_id m.1)
        (.hasEquipment (qMul m.2 (Rat.divInt 4 5)) "[extracted from description/capability]")) G

/-- One `HAS_CAPABILITY` batch of `_add_facility` (the procedure list, the
capability list, or the description), with an optional confidence discount
factor. -/
def addCapabilityEdges (N : Normalizers) (G : Graph) (fid : NodeId)
    (texts : List String) (source_field : String) (discount : Option ℚ) : Graph :=
  if texts = [] then G
  else (N.normalize_capability_list texts source_field).foldl
    (fun g m =>
      let conf := match discount with
        | some f => qMul m.2.1 f
        | none => m.2.1
      g.addEdge fid (capability_id m.1) (.hasCapability conf m.2.2.1 m.2.2.2)) G

/-- `_add_facility(G, entity, country_config)` of `graph/build_graph.py`.
Node attributes no modelled query reads (raw text fields, contact fields)
are left at their defaults. -/
def add_facility (N : Normalizers) (G : Graph) (er : Row × ℕ) : Graph :=
  let r := er.1
  -- the source indexes `entity["pk_unique_id"]` directly; `deduplicate_rows`
  -- only emits entities with a truthy key, so the default is never taken
  let fid := facility_id (r.pk_unique_id.getD "")
  let G1 := G.addNode fid
    { node_type := "Facility", name := r.name, facility_type := r.facilityTypeId,
      capacity := r.capacity, city := r.address_city, region := r.normalized_region }
  let G2 :=
    match r.normalized_region with
    | some reg =>
        if reg ≠ "" ∧ G1.hasNode (region_id reg) then
          G1.addEdge fid (region_id reg) (.locatedIn r.address_city)
        else G1
    | none => G1
  let G3 := addSpecialtyEdges G2 fid r.specialties
  let G4 := addEquipmentEdges N G3 fid r.equipment
  let G5 := addTextEquipmentEdges N G4 fid r.capability r.description
  let G6 := addCapabilityEdges N G5 fid r.procedure "procedure" none
  let G7 := addCapabilityEdges N G6 fid r.capability "capability" none
  let G8 :=
    match r.description with
    | some d => if d ≠ "" then addCapabilityEdges N G7 fid [d] "description"
                  (some (Rat.divInt 7 10))
                else G7
    | none => G7
  G8

/-- `_add_ngo(G, entity, country_config)` of `graph/build_graph.py`. -/
def add_ngo (G : Graph) (er : Row × ℕ) : Graph :=
  let r := er.1
  let nid := ngo_id (r.pk_unique_id.getD "")
  let G1 := G.addNode nid { node_type := "NGO", name := r.name }
  match r.normalized_region with
  | some reg =>
      if reg ≠ "" ∧ G1.hasNode (region_id reg) then
        G1.addEdge nid (region_id reg) (.operatesIn "address")
      else G1
  | none => G1

/-- The entity loop of `build_graph`: NGOs go through `_add_ngo`, everything
else through `_add_facility`. -/
def processEntities (N : Normalizers) (G : Graph) (entities : List (Row × ℕ)) : Graph :=
  entities.foldl (fun g er =>
    if pyLower (er.1.organization_type.getD "") = "ngo" then add_ngo g er
    else add_facility N g er) G

/-! ### Query engine (`graph/queries.py`) -/

/-- Lookup of a node's attribute dict. -/
def getNode? (G : Graph) (n : NodeId) : Option NodeData :=
  (G.nodes.find? fun p => p.1 = n).map Prod.snd

/-- One element of the `lacks` list of `get_facility_mismatches`. -/
structure LacksItem where
  equipment : String
  equipment_display : String
  required_by : List String
  evidence_status : String
deriving DecidableEq, Repr

/-- Return value of `get_facility_mismatches` (the `mismatch_ratio` key is
the field `mismatch_value`). -/
structure MismatchReport where
  facility_id : NodeId
  facility_name : Option String
  region : Option String
  lacks : List LacksItem
  claimed_capabilities : List String
  confirmed_equipment : List String
  mismatch_value : ℚ
deriving DecidableEq, Repr

/-- One element of the `lacks` list built by the edge scan of
`get_facility_mismatches` (`get_facility_mismatches` itself is below; `none`
for a non-`LACKS` edge). -/
def lacksItemOf (G : Graph) (e : Edge) : Option LacksItem :=
  match e.data with
  | .lacks _ rb ev =>
      some { equipment := nodeKey e.tgt
             equipment_display :=
               if G.hasNode e.tgt then
                 (((getNode? G e.tgt).getD {}).display_name).getD (nodeKey e.tgt)
               else nodeKey e.tgt
             required_by := rb
             evidence_status := ev }
  | _ => none

/-- The `confirmed_equipment` projection of the edge scan of
`get_facility_mismatches`. -/
def confirmedKeyOf (e : Edge) : Option String :=
  if e.data.isHasEquipment then some (nodeKey e.tgt) else none

/-- The `claimed_capabilities` projection of the edge scan of
`get_facility_mismatches`. -/
def claimedKeyOf (e : Edge) : Option String :=
  if e.data.isHasCapability then some (nodeKey e.tgt) else none

/-- `get_facility_mismatches(G, fid)` of `graph/queries.py`; `none` models
the `{"error": ...}` return for an unknown facility id.  `claimed` and
`confirmed` pass through `list(set(...))` in the source (arbitrary order);
they are modelled in first-seen order and no order-sensitive fact is proved
about them. -/
def get_facility_mismatches (G : Graph) (fid : NodeId) : Option MismatchReport :=
  if G.hasNode fid = false then none
  else
    let fdata := (getNode? G fid).getD {}
    let outE := G.edges.filter fun e => e.src = fid
    let lacksList := outE.filterMap (lacksItemOf G)
    let confirmed := outE.filterMap confirmedKeyOf
    let claimed := outE.filterMap claimedKeyOf
    let total := lacksList.length + confirmed.length
    let ratioQ : ℚ := if 0 < total then Rat.divInt lacksList.length total else 0
    some { facility_id := fid, facility_name := fdata.name, region := fdata.region,
           lacks := lacksList, claimed_capabilities := dedupFS claimed,
           confirmed_equipment := dedupFS confirmed,
           mismatch_value := pyRound ratioQ 3 }

/-- Python substring containment `needle in hay` on strings. -/
def strContainsSub (hay needle : String) : Bool :=
  (List.range (hay.length + 1)).any fun i => needle.isPrefixOf (hay.drop i)

/-- The region filter of `_facility_matches_filters`
(`if region and fdata.get("region") != region: return False, []`). -/
def regionPass (fdata : NodeData) (region : Option String) : Bool :=
  !(optTruthy region && !(decide (fdata.region = region)))

/-- The facility-type filter of `_facility_matches_filters`: with a truthy
filter, a facility passes iff its `facility_type` is truthy and contains the
filter string case-insensitively. -/
def facilityTypePass (fdata : NodeData) (facility_type : Option String) : Bool :=
  if optTruthy facility_type then
    match fdata.facility_type with
    | some ft => ft ≠ "" && strContainsSub (pyLower ft) (pyLower (facility_type.getD ""))
    | none => false
  else true

/-- The Python `fdata.get("capacity") or fdata.get("number_beds") or 0`
chain (`None` and `0` are both falsy).  The `isinstance(cap, str)` repair
branch of the source is unreachable here: the modelled builder only stores
parsed integers. -/
def capacityValue (fdata : NodeData) : ℤ :=
  if fdata.capacity.getD 0 ≠ 0 then fdata.capacity.getD 0
  else if fdata.number_beds.getD 0 ≠ 0 then fdata.number_beds.getD 0
  else 0

/-- The minimum-capacity filter of `_facility_matches_filters`
(applied whenever `min_capacity is not None`). -/
def minCapacityPass (fdata : NodeData) (min_capacity : Option ℤ) : Bool :=
  match min_capacity with
  | none => true
  | some m => decide (m ≤ capacityValue fdata)

/-- The capability filter of `_facility_matches_filters`: any out-edge of
type `HAS_CAPABILITY` to `capability_id(capability)`. -/
def capabilityPass (G : Graph) (fid : NodeId) (capability : Option String) : Bool :=
  if optTruthy capability then
    G.edges.any fun e =>
      decide (e.src = fid) && e.data.isHasCapability &&
        decide (e.tgt = capability_id (capability.getD ""))
  else true

/-- The equipment filter of `_facility_matches_filters`. -/
def equipmentPass (G : Graph) (fid : NodeId) (equipment : Option String) : Bool :=
  if optTruthy equipment then
    G.edges.any fun e =>
      decide (e.src = fid) && e.data.isHasEquipment &&
        decide (e.tgt = equipment_id (equipment.getD ""))
  else true

/-- The specialty filter of `_facility_matches_filters`. -/
def specialtyPass (G : Graph) (fid : NodeId) (specialty : Option String) : Bool :=
  if optTruthy specialty then
    G.edges.any fun e =>
      decide (e.src = fid) &&
        (match e.data with
         | .hasSpecialty _ _ => true
         | _ => false) &&
        decide (e.tgt = specialty_id (specialty.getD ""))
  else true

/-- The `matched_criteria` list returned on success. -/
def matchedCriteria (capability equipment specialty region facility_type : Option String)
    (min_capacity : Option ℤ) : List String :=
  (if optTruthy region then ["region=" ++ region.getD ""] else []) ++
  (if optTruthy facility_type then ["facility_type=" ++ facility_type.getD ""] else []) ++
  (match min_capacity with
   | some m => ["capacity>=" ++ toString m]
   | none => []) ++
  (if optTruthy capability then ["capability=" ++ capability.getD ""] else []) ++
  (if optTruthy equipment then ["equipment=" ++ equipment.getD ""] else []) ++
  (if optTruthy specialty then ["specialty=" ++ specialty.getD ""] else [])

/-- `_facility_matches_filters(G, fid, fdata, ...)` of `graph/queries.py`:
the source's sequence of early `return False, []` exits, one per filter, with
the accumulated `matched` list returned on success. -/
def facility_matches_filters (G : Graph) (fid : NodeId) (fdata : NodeData)
    (capability equipment specialty region facility_type : Option String)
    (min_capacity : Option ℤ) : Bool × List String :=
  if regionPass fdata region = false then (false, [])
  else if facilityTypePass fdata facility_type = false then (false, [])
  else if minCapacityPass fdata min_capacity = false then (false, [])
  else if capabilityPass G fid capability = false then (false, [])
  else if equipmentPass G fid equipment = false then (false, [])
  else if specialtyPass G fid specialty = false then (false, [])
  else (true, matchedCriteria capability equipment specialty region facility_type min_capacity)

/-- One entry of the `facilities` list returned by
`search_facilities_multi`. -/
structure SearchEntry where
  facility_id : NodeId
  name : Option String
  region : Option String
  city : Option String
  facility_type : Option String
  capacity : Option ℤ
  matched_criteria : List String
  distance_km : Option ℚ
deriving DecidableEq, Repr

/-- One iteration of the facility loop of `search_facilities_multi`. -/
def searchLoopBody (G : Graph)
    (capability equipment specialty region facility_type : Option String)
    (min_capacity : Option ℤ) (near_lat near_lng radius_km : Option ℚ)
    (dist : ℚ → ℚ → ℚ → ℚ → ℚ) (acc : List SearchEntry)
    (p : NodeId × NodeData) : List SearchEntry :=
  if p.2.node_type ≠ "Facility" then acc
  else
    let fm := facility_matches_filters G p.1 p.2 capability equipment specialty
      region facility_type min_capacity
    if fm.1 = false then acc
    else
      let mkEntry : Option ℚ → SearchEntry := fun dkm =>
        { facility_id := p.1, name := p.2.name, region := p.2.region,
          city := p.2.city, facility_type := p.2.facility_type,
          capacity := p.2.capacity, matched_criteria := fm.2, distance_km := dkm }
      match near_lat, near_lng with
      | some la, some ln =>
        (match p.2.lat, p.2.lng with
         | some fla, some fln =>
           let d := pyRound (dist la ln fla fln) 2
           (match radius_km with
            | some rk => if rk < d then acc else acc ++ [mkEntry (some d)]
            | none => acc ++ [mkEntry (some d)])
         | _, _ => acc)
      | _, _ => acc ++ [mkEntry none]

/-- The filtered (pre-sort, pre-limit) result list of
`search_facilities_multi`.  The haversine distance is a float computation on
trigonometric functions; it enters every modelled statement only through the
abstract parameter `dist`, which no claim constrains. -/
def searchResults (G : Graph)
    (capability equipment specialty region facility_type : Option String)
    (min_capacity : Option ℤ) (near_lat near_lng radius_km : Option ℚ)
    (dist : ℚ → ℚ → ℚ → ℚ → ℚ) : List SearchEntry :=
  G.nodes.foldl (searchLoopBody G capability equipment specialty region
    facility_type min_capacity near_lat near_lng radius_km dist) []

/-- `search_facilities_multi(G, ...)` of `graph/queries.py`: filter, sort by
the requested order, return `(total_matches, facilities[:limit])`. -/
def search_facilities_multi (G : Graph)
    (capability equipment specialty region facility_type : Option String)
    (min_capacity : Option ℤ) (near_lat near_lng radius_km : Option ℚ)
    (limit : ℕ) (sort_by : String) (dist : ℚ → ℚ → ℚ → ℚ → ℚ) :
    ℕ × List SearchEntry :=
  let results := searchResults G capability equipment specialty region facility_type
    min_capacity near_lat near_lng radius_km dist
  let sorted :=
    if sort_by = "distance" ∧ near_lat ≠ none then
      results.mergeSort fun a b =>
        decide ((a.distance_km).getD 99999 ≤ (b.distance_km).getD 99999)
    else if sort_by = "capacity" then
      results.mergeSort fun a b =>
        decide ((b.capacity).getD 0 ≤ (a.capacity).getD 0)
    else
      results.mergeSort fun a b =>
        decide (b.matched_criteria.length ≤ a.matched_criteria.length)
  (results.length, sorted.take limit)

/-! ### Lemmas: first-seen deduplication and the list-merge law -/

theorem dedupFSAux_cons [DecidableEq α] (seen : List α) (x : α) (xs : List α) :
    dedupFSAux seen (x :: xs) =
      if x ∈ seen then dedupFSAux seen xs else x :: dedupFSAux (x :: seen) xs := rfl

theorem dedupFSAux_sublist [DecidableEq α] (l : List α) :
    ∀ seen, List.Sublist (dedupFSAux seen l) l := by
  induction l with
  | nil => intro seen; simp [dedupFSAux]
  | cons x xs ih =>
      intro seen
      by_cases h : x ∈ seen
      · simpa [dedupFSAux, h] using (ih seen).cons x
      · simpa [dedupFSAux, h] using (ih (x :: seen)).cons₂ x

theorem dedupFSAux_nodup [DecidableEq α] (l : List α) :
    ∀ seen, (dedupFSAux seen l).Nodup ∧ ∀ x ∈ dedupFSAux seen l, x ∉ seen := by
  induction l with
  | nil => intro seen; simp [dedupFSAux]
  | cons x xs ih =>
      intro seen
      by_cases h : x ∈ seen
      · simpa [dedupFSAux, h] using ih seen
      · have ih' := ih (x :: seen)
        refine ⟨?_, ?_⟩
        · simp only [dedupFSAux, if_neg h, List.nodup_cons]
          exact ⟨fun hx => (ih'.2 x hx) (by simp), ih'.1⟩
        · intro y hy
          simp only [dedupFSAux, if_neg h, List.mem_cons] at hy
          rcases hy with rfl | hy
          · exact h
          · exact fun hmem => (ih'.2 y hy) (by simp [hmem])

theorem dedupFSAux_congr_seen [DecidableEq α] (l : List α) :
    ∀ s₁ s₂ : List α, (∀ x, x ∈ s₁ ↔ x ∈ s₂) → dedupFSAux s₁ l = dedupFSAux s₂ l := by
  induction l with
  | nil => intro _ _ _; rfl
  | cons x xs ih =>
      intro s₁ s₂ hs
      by_cases h : x ∈ s₁
      · simp [dedupFSAux, h, (hs x).mp h, ih s₁ s₂ hs]
      · have h₂ : x ∉ s₂ := fun hx => h ((hs x).mpr hx)
        simp only [dedupFSAux, if_neg h, if_neg h₂]
        refine congrArg (x :: ·) (ih _ _ ?_)
        intro y; simp [hs y]

theorem mergeListAux_map_pyLower (l : List String) :
    ∀ seen, (mergeListAux seen l).map pyLower = dedupFSAux seen (l.map pyLower) := by
  induction l with
  | nil => intro seen; rfl
  | cons x xs ih =>
      intro seen
      by_cases h : pyLower x ∈ seen
      · simp [mergeListAux, dedupFSAux, h, ih seen]
      · simp [mergeListAux, dedupFSAux, h, ih (pyLower x :: seen)]

theorem mergeListAux_sublist (l : List String) :
    ∀ seen, List.Sublist (mergeListAux seen l) l := by
  induction l with
  | nil => intro seen; simp [mergeListAux]
  | cons x xs ih =>
      intro seen
      by_cases h : pyLower x ∈ seen
      · simpa [mergeListAux, h] using (ih seen).cons x
      · simpa [mergeListAux, h] using (ih (pyLower x :: seen)).cons₂ x

/-- C5.  `deduplicate_rows` merges list-valued fields by the case-insensitive
first-seen-order union of `_merge_list_fields`: (i) the merged list is an
order-preserving selection from `existing ++ new`; (ii) its lower-cased image
is exactly the first-seen deduplication of the lower-cased concatenation (so
each case-insensitive value class keeps exactly its first occurrence, in
first-appearance order); (iii) no two kept items agree case-insensitively;
and (iv) merging two source rows of one `pk_unique_id` with equipment lists
`["MRI"]` and `["mri", "X-ray"]` yields the single entity equipment list
`["MRI", "X-ray"]`. -/
theorem dedup_union_law :
    (∀ existing new : List String,
      List.Sublist (mergeListFields existing new) (existing ++ new)) ∧
    (∀ existing new : List String,
      (mergeListFields existing new).map pyLower =
        dedupFS ((existing ++ new).map pyLower)) ∧
    (∀ existing new : List String,
      ((mergeListFields existing new).map pyLower).Nodup) ∧
    (deduplicate_rows
        [{ pk_unique_id := some "fac-1", equipment := ["MRI"] },
         { pk_unique_id := some "fac-1", equipment := ["mri", "X-ray"] }]).map
      (fun p => p.1.equipment) = [["MRI", "X-ray"]] := by
  refine ⟨?_, ?_, ?_, ?_⟩
  · intro e n; exact mergeListAux_sublist (e ++ n) []
  · intro e n
    simpa [dedupFS, mergeListFields] using mergeListAux_map_pyLower (e ++ n) []
  · intro e n
    rw [mergeListFields, mergeListAux_map_pyLower (e ++ n) []]
    exact (dedupFSAux_nodup ((e ++ n).map pyLower) []).1
  · decide

/-! ### Lemmas: deduplication keys -/

/-- Keys of the `by_pk` dict model. -/
def pkKeys (acc : List PkEntry) : List String := acc.map Prod.fst

theorem find?_key_none_iff (acc : List PkEntry) (pk : String) :
    (acc.find? fun p => p.1 = pk) = none ↔ pk ∉ pkKeys acc := by
  induction acc with
  | nil => simp [pkKeys]
  | cons a as ih =>
      by_cases h : a.1 = pk
      · simp [List.find?, h, pkKeys, eq_comm]
      · simp only [List.find?, decide_eq_true_eq, h, decide_False, pkKeys,
          List.map_cons, List.mem_cons] at ih ⊢
        rw [ih]
        constructor
        · intro hn hor
          rcases hor with heq | hmem
          · exact h heq.symm
          · exact hn hmem
        · intro hn hmem
          exact hn (Or.inr hmem)

theorem pkKeys_update (acc : List PkEntry) (pk : String) (r : Row) :
    pkKeys (acc.map fun p =>
      if p.1 = pk then (pk, mergeRow p.2.1 r, setAdd p.2.2 (sourceUrlOf r)) else p) =
    pkKeys acc := by
  induction acc with
  | nil => rfl
  | cons a as ih =>
      by_cases h : a.1 = pk <;>
        (simp [pkKeys, h] at ih ⊢; simpa [pkKeys] using ih)

theorem dedup_fold_keys (rows : List Row) :
    ∀ acc, pkKeys (rows.foldl dedupStep acc) =
      pkKeys acc ++ dedupFSAux (pkKeys acc) (rows.filterMap truthyPk) := by
  induction rows with
  | nil => intro acc; simp [dedupFSAux]
  | cons r rest ih =>
      intro acc
      match htr : truthyPk r with
      | none => simp [dedupStep, htr, ih acc]
      | some pk =>
          by_cases hmem : pk ∈ pkKeys acc
          · have hfind : (acc.find? fun p => p.1 = pk) ≠ none := by
              rw [Ne, find?_key_none_iff]; simp [hmem]
            match hf : acc.find? fun p => p.1 = pk with
            | none => exact absurd hf hfind
            | some q =>
                have hfm : List.filterMap truthyPk (r :: rest) =
                    pk :: List.filterMap truthyPk rest := by
                  simp [List.filterMap_cons, htr]
                simp only [List.foldl_cons, dedupStep, htr, hf]
                rw [ih _, pkKeys_update, hfm, dedupFSAux_cons, if_pos hmem]
          · have hf : (acc.find? fun p => p.1 = pk) = none :=
              (find?_key_none_iff acc pk).mpr hmem
            have hfm : List.filterMap truthyPk (r :: rest) =
                pk :: List.filterMap truthyPk rest := by
              simp [List.filterMap_cons, htr]
            simp only [List.foldl_cons, dedupStep, htr, hf]
            rw [ih _, hfm, dedupFSAux_cons, if_neg hmem]
            have hkeys : pkKeys (acc ++ [(pk, r,
                if sourceUrlOf r ≠ "" then [sourceUrlOf r] else [])]) =
                pkKeys acc ++ [pk] := by simp [pkKeys]
            rw [hkeys, List.append_assoc]
            refine congrArg (pkKeys acc ++ ·) (congrArg (pk :: ·) ?_)
            refine dedupFSAux_congr_seen _ _ _ fun x => ?_
            simp [or_comm]

theorem dedup_fold_entry_pk (rows : List Row) :
    ∀ acc, (∀ p ∈ acc, p.2.1.pk_unique_id = some p.1) →
      ∀ p ∈ rows.foldl dedupStep acc, p.2.1.pk_unique_id = some p.1 := by
  induction rows with
  | nil => intro acc h; simpa using h
  | cons r rest ih =>
      intro acc h
      refine ih (dedupStep acc r) ?_
      intro p hp
      match htr : truthyPk r with
      | none => rw [dedupStep, htr] at hp; exact h p hp
      | some pk =>
          have hrpk : r.pk_unique_id = some pk := by
            unfold truthyPk at htr
            match hr : r.pk_unique_id with
            | none => rw [hr] at htr; exact absurd htr (by simp)
            | some s =>
                rw [hr] at htr
                by_cases hs : s = ""
                · simp [hs] at htr
                · simp [hs] at htr; simp [hr, htr]
          match hf : acc.find? fun q => q.1 = pk with
          | none =>
              simp only [dedupStep, htr, hf] at hp
              rcases List.mem_append.mp hp with hmem | hmem
              · exact h p hmem
              · simp at hmem; subst hmem; simpa using hrpk
          | some q =>
              simp only [dedupStep, htr, hf] at hp
              rcases List.mem_map.mp hp with ⟨q', hq', heq⟩
              by_cases hq1 : q'.1 = pk
              · rw [if_pos hq1] at heq
                subst heq; simpa [mergeRow] using (h q' hq').trans (by rw [hq1])
              · rw [if_neg hq1] at heq; subst heq; exact h q' hq'

/-- C10.  `deduplicate_rows` drops rows with a missing, `None`, or empty
`pk_unique_id` — removing such rows from the input leaves its output
unchanged — and returns exactly one entity per distinct non-empty key, in
first-appearance order, each entity carrying its key. -/
theorem dedup_discards_keyless_and_is_one_per_pk :
    (∀ rows : List Row,
      deduplicate_rows (rows.filter fun r => (truthyPk r).isSome) =
        deduplicate_rows rows) ∧
    (∀ rows : List Row,
      (deduplicate_rows rows).map (fun p => p.1.pk_unique_id) =
        (dedupFS (rows.filterMap truthyPk)).map some) := by
  constructor
  · intro rows
    unfold deduplicate_rows
    refine congrArg _ ?_
    have key : ∀ acc, (rows.filter fun r => (truthyPk r).isSome).foldl dedupStep acc =
        rows.foldl dedupStep acc := by
      induction rows with
      | nil => intro acc; rfl
      | cons r rest ih =>
          intro acc
          match htr : truthyPk r with
          | none =>
              have : dedupStep acc r = acc := by rw [dedupStep, htr]
              simp [List.filter_cons, htr, ih, this]
          | some pk => simp [List.filter_cons, htr, ih]
    exact key []
  · intro rows
    have h1 := dedup_fold_keys rows []
    have h2 := dedup_fold_entry_pk rows [] (by simp)
    unfold deduplicate_rows
    rw [List.map_map]
    have hcongr : ((rows.foldl dedupStep []).map
        ((fun p : Row × ℕ => p.1.pk_unique_id) ∘ fun p : PkEntry => (p.2.1, p.2.2.length))) =
        (rows.foldl dedupStep []).map (fun p => some p.1) :=
      List.map_congr_left fun p hp => h2 p hp
    have hsplit : (rows.foldl dedupStep []).map (fun p : PkEntry => some p.1) =
        (pkKeys (rows.foldl dedupStep [])).map some := by
      simp [pkKeys, List.map_map, Function.comp]
    rw [hcongr, hsplit, h1]
    simp [pkKeys, dedupFS]

/-! ### C7: the mismatch ratio -/

/-- Number of `LACKS` out-edge instances of a facility. -/
def lacksCount (G : Graph) (fid : NodeId) : ℕ :=
  (G.edges.filter fun e => decide (e.src = fid) && e.data.isLacks).length

/-- Number of `HAS_EQUIPMENT` (confirmed) out-edge instances of a facility. -/
def confirmedCount (G : Graph) (fid : NodeId) : ℕ :=
  (G.edges.filter fun e => decide (e.src = fid) && e.data.isHasEquipment).length

theorem length_filterMap_eq_length_filter (f : α → Option β) (p : α → Bool)
    (hf : ∀ a, (f a).isSome = p a) : ∀ l : List α,
    (l.filterMap f).length = (l.filter p).length := by
  intro l
  induction l with
  | nil => rfl
  | cons a as ih =>
      have := hf a
      match hfa : f a with
      | some b =>
          rw [hfa] at this
          simp [List.filterMap_cons, List.filter_cons, hfa, ← this, ih]
      | none =>
          rw [hfa] at this
          simp [List.filterMap_cons, List.filter_cons, hfa, ← this, ih]

theorem filter_filter_bool (p q : α → Bool) : ∀ l : List α,
    (l.filter p).filter q = l.filter fun a => p a && q a := by
  intro l
  induction l with
  | nil => rfl
  | cons a as ih =>
      by_cases hp : p a
      · by_cases hq : q a <;> simp [List.filter_cons, hp, hq, ih]
      · simp [List.filter_cons, hp, ih]

/-- Used by C7: the graph of a facility with one `LACKS` edge and two
confirmed equipment edges. -/
def mismatchCounterGraph : Graph :=
  { nodes := [(.facility "m1", { node_type := "Facility" }),
              (.equipment "ct_scanner", { node_type := "Equipment" }),
              (.equipment "ultrasound", { node_type := "Equipment" }),
              (.equipment "xray_machine", { node_type := "Equipment" })],
    edges := [⟨.facility "m1", .equipment "ct_scanner", .lacks "r" ["ct_imaging"] "no_evidence"⟩,
              ⟨.facility "m1", .equipment "ultrasound", .hasEquipment (Rat.divInt 4 5) "us"⟩,
              ⟨.facility "m1", .equipment "xray_machine", .hasEquipment (Rat.divInt 4 5) "xr"⟩] }

/-- C7, counterexample.  With 1 `LACKS` edge and 2 confirmed equipment edges
the source reports `round(1/3, 3) = 0.333`, which is not the exact quotient
1/3 the claim asserts for every facility. -/
theorem mismatch_ratio_not_exact :
    (get_facility_mismatches mismatchCounterGraph (.facility "m1")).map
        (fun r => r.mismatch_value) = some (Rat.divInt 333 1000) ∧
    (Rat.divInt 333 1000 : ℚ) ≠ Rat.divInt 1 3 := by
  constructor
  · decide
  · decide

/-- C7, amended.  For every facility node present in the graph,
`get_facility_mismatches` reports `mismatch_ratio` equal to
lacks / (lacks + confirmed) **rounded to 3 decimal places** (and 0 when the
facility has neither kind of edge); in particular 3 `LACKS` and 1 confirmed
edge give exactly 0.75. -/
theorem mismatch_ratio_rounded (G : Graph) (fid : NodeId)
    (h : G.hasNode fid = true) :
    (get_facility_mismatches G fid).map (fun r => r.mismatch_value) =
      some (pyRound
        (if 0 < lacksCount G fid + confirmedCount G fid then
          Rat.divInt (lacksCount G fid)
            ((lacksCount G fid + confirmedCount G fid : ℕ) : ℤ)
        else 0) 3) := by
  have hL : ((G.edges.filter fun e => decide (e.src = fid)).filterMap
      (lacksItemOf G)).length = lacksCount G fid := by
    rw [length_filterMap_eq_length_filter (lacksItemOf G) (fun e => e.data.isLacks)
        (fun e => by cases hd : e.data <;> simp [lacksItemOf, hd, EdgeData.isLacks]),
      filter_filter_bool]
    rfl
  have hC : ((G.edges.filter fun e => decide (e.src = fid)).filterMap
      confirmedKeyOf).length = confirmedCount G fid := by
    rw [length_filterMap_eq_length_filter confirmedKeyOf (fun e => e.data.isHasEquipment)
        (fun e => by cases hd : e.data <;> simp [confirmedKeyOf, hd, EdgeData.isHasEquipment]),
      filter_filter_bool]
    rfl
  unfold get_facility_mismatches
  rw [if_neg (by simp [h])]
  simp only [Option.map_some']
  rw [hL, hC]

/-- Used by C7's witness: 3 `LACKS` edges and 1 confirmed equipment edge. -/
def mismatchWitnessGraph : Graph :=
  { nodes := [(.facility "m2", { node_type := "Facility" }),
              (.equipment "operating_theatre", { node_type := "Equipment" }),
              (.equipment "autoclave", { node_type := "Equipment" }),
              (.equipment "blood_bank", { node_type := "Equipment" }),
              (.equipment "patient_monitor", { node_type := "Equipment" })],
    edges := [⟨.facility "m2", .equipment "operating_theatre", .lacks "r" ["cesarean_section"] "no_evidence"⟩,
              ⟨.facility "m2", .equipment "autoclave", .lacks "r" ["cesarean_section"] "no_evidence"⟩,
              ⟨.facility "m2", .equipment "blood_bank", .lacks "r" ["cesarean_section"] "no_evidence"⟩,
              ⟨.facility "m2", .equipment "patient_monitor", .hasEquipment (Rat.divInt 4 5) "monitor"⟩] }

/-- Witness for `mismatch_ratio_rounded`: 3 `LACKS` + 1 confirmed reports
exactly 0.75. -/
theorem mismatch_ratio_rounded_witness :
    mismatchWitnessGraph.hasNode (.facility "m2") = true ∧
    (get_facility_mismatches mismatchWitnessGraph (.facility "m2")).map
      (fun r => r.mismatch_value) = some (Rat.divInt 3 4) := by
  refine ⟨by decide, ?_⟩
  rw [mismatch_ratio_rounded mismatchWitnessGraph (.facility "m2") (by decide)]
  decide

/-! ### C3: the COULD_SUPPORT threshold -/

/-- Recognizer for an `equipment::` node id. -/
def NodeId.isEquipmentId : NodeId → Bool
  | .equipment _ => true
  | _ => false

/-- The `COULD_SUPPORT` edge `couldStep` appends for one requirements entry
when every guard passes. -/
def couldEdgeFor (fid : NodeId) (owned : List String) (en : String × Reqs) : Edge :=
  ⟨fid, capability_id en.1,
   .couldSupport (en.2.required.filter (· ∈ owned)) (en.2.required.filter (· ∉ owned))
     (pyRound (Rat.divInt (en.2.required.filter (· ∈ owned)).length en.2.required.length) 2)⟩

/-- The guard of `couldStep`, collected into one predicate. -/
def couldCond (min_readiness : ℚ) (owned claimed : List String) (hasCapNode : Bool)
    (en : String × Reqs) : Prop :=
  en.1 ∉ claimed ∧ en.2.required ≠ [] ∧
    min_readiness ≤ Rat.divInt (en.2.required.filter (· ∈ owned)).length en.2.required.length ∧
    hasCapNode = true

instance (μ : ℚ) (o c : List String) (b : Bool) (en : String × Reqs) :
    Decidable (couldCond μ o c b en) := by unfold couldCond; infer_instance

theorem couldStep_characterization (μ : ℚ) (fid : NodeId) (owned claimed : List String)
    (g : Graph) (en : String × Reqs) :
    couldStep μ fid owned claimed g en =
      if couldCond μ owned claimed (g.hasNode (capability_id en.1)) en then
        { g with edges := g.edges ++ [couldEdgeFor fid owned en] }
      else g := by
  unfold couldStep couldCond couldEdgeFor
  split_ifs <;> simp_all

/-- Used by C3's counterexample: a facility holding 4 of the 6 items
`cardiac_surgery` requires; only that capability's node exists. -/
def couldCounterGraph : Graph :=
  { nodes := [(.facility "c1", { node_type := "Facility" }),
              (.capability "cardiac_surgery", { node_type := "Capability" })],
    edges := [⟨.facility "c1", .equipment "operating_theatre", .hasEquipment (Rat.divInt 4 5) "ot"⟩,
              ⟨.facility "c1", .equipment "anesthesia_machine", .hasEquipment (Rat.divInt 4 5) "am"⟩,
              ⟨.facility "c1", .equipment "ventilator", .hasEquipment (Rat.divInt 4 5) "v"⟩,
              ⟨.facility "c1", .equipment "patient_monitor", .hasEquipment (Rat.divInt 4 5) "pm"⟩] }

/-- C3, counterexample.  A facility holding 4 of the 6 required items of
`cardiac_surgery` (readiness 4/6 ≥ 0.6) receives a `COULD_SUPPORT` edge, but
the edge carries `round(4/6, 2) = 0.67`, not the fraction 4/6 the claim
asserts. -/
theorem could_support_readiness_not_exact :
    (add_could_support_edges couldCounterGraph defaultMinReadiness).edges =
      couldCounterGraph.edges ++
        [⟨.facility "c1", .capability "cardiac_surgery",
          .couldSupport
            ["operating_theatre", "anesthesia_machine", "ventilator", "patient_monitor"]
            ["blood_bank", "defibrillator"] (Rat.divInt 67 100)⟩] ∧
    (Rat.divInt 67 100 : ℚ) ≠ Rat.divInt 4 6 := by
  constructor
  · decide
  · decide

theorem couldStep_nodes (μ : ℚ) (fid : NodeId) (o c : List String) (g : Graph)
    (en : String × Reqs) : (couldStep μ fid o c g en).nodes = g.nodes := by
  rw [couldStep_characterization]; split_ifs <;> rfl

theorem couldStep_hasNode (μ : ℚ) (fid : NodeId) (o c : List String) (g : Graph)
    (en : String × Reqs) (n : NodeId) :
    (couldStep μ fid o c g en).hasNode n = g.hasNode n := by
  unfold Graph.hasNode; rw [couldStep_nodes]

theorem mem_fold_couldStep (μ : ℚ) (fid : NodeId) (o c : List String) :
    ∀ (l : List (String × Reqs)) (g : Graph) (x : Edge),
    x ∈ (l.foldl (couldStep μ fid o c) g).edges ↔
      x ∈ g.edges ∨ ∃ en ∈ l,
        couldCond μ o c (g.hasNode (capability_id en.1)) en ∧
        x = couldEdgeFor fid o en := by
  intro l
  induction l with
  | nil => intro g x; simp
  | cons en rest ih =>
      intro g x
      rw [List.foldl_cons, couldStep_characterization]
      by_cases h : couldCond μ o c (g.hasNode (capability_id en.1)) en
      · rw [if_pos h, ih]
        simp only [List.mem_append, List.mem_singleton, List.exists_mem_cons_iff,
          Graph.hasNode]
        constructor
        · rintro ((hx | hx) | hx)
          · exact Or.inl hx
          · exact Or.inr (Or.inl ⟨h, hx⟩)
          · exact Or.inr (Or.inr hx)
        · rintro (hx | ⟨_, hx⟩ | hx)
          · exact Or.inl (Or.inl hx)
          · exact Or.inl (Or.inr hx)
          · exact Or.inr hx
      · rw [if_neg h, ih]
        simp only [List.exists_mem_cons_iff]
        constructor
        · rintro (hx | hx)
          · exact Or.inl hx
          · exact Or.inr (Or.inr hx)
        · rintro (hx | ⟨hc, hx⟩ | hx)
          · exact Or.inl hx
          · exact absurd hc h
          · exact Or.inr hx

theorem fold_couldStep_nodes (μ : ℚ) (fid : NodeId) (o c : List String) :
    ∀ (l : List (String × Reqs)) (g : Graph),
    (l.foldl (couldStep μ fid o c) g).nodes = g.nodes := by
  intro l
  induction l with
  | nil => intro g; rfl
  | cons en rest ih => intro g; rw [List.foldl_cons, ih, couldStep_nodes]

theorem fold_couldStep_extension (μ : ℚ) (fid : NodeId) (o c : List String) :
    ∀ (l : List (String × Reqs)) (g : Graph),
    ∃ extra, (l.foldl (couldStep μ fid o c) g).edges = g.edges ++ extra ∧
      ∀ e ∈ extra, e.data.isCouldSupport = true ∧ e.src = fid := by
  intro l
  induction l with
  | nil => intro g; exact ⟨[], by simp, by simp⟩
  | cons en rest ih =>
      intro g
      rw [List.foldl_cons, couldStep_characterization]
      by_cases h : couldCond μ o c (g.hasNode (capability_id en.1)) en
      · rw [if_pos h]
        obtain ⟨extra, heq, hall⟩ := ih { g with edges := g.edges ++ [couldEdgeFor fid o en] }
        refine ⟨couldEdgeFor fid o en :: extra, by simpa using heq, ?_⟩
        intro e he
        rcases List.mem_cons.mp he with rfl | he
        · exact ⟨rfl, rfl⟩
        · exact hall e he
      · rw [if_neg h]; exact ih g

theorem couldForFacility_nodes (μ : ℚ) (g : Graph) (fid : NodeId) :
    (couldForFacility μ g fid).nodes = g.nodes := by
  unfold couldForFacility
  dsimp only
  split_ifs with h
  · rfl
  · rw [fold_couldStep_nodes]

theorem couldForFacility_extension (μ : ℚ) (g : Graph) (fid : NodeId) :
    ∃ extra, (couldForFacility μ g fid).edges = g.edges ++ extra ∧
      ∀ e ∈ extra, e.data.isCouldSupport = true ∧ e.src = fid := by
  unfold couldForFacility
  dsimp only
  split_ifs with h
  · exact ⟨[], by simp, by simp⟩
  · exact fold_couldStep_extension μ fid _ _ CAPABILITY_REQUIREMENTS g

theorem eqProj_none_of_couldSupport (fid : NodeId) (e : Edge)
    (h : e.data.isCouldSupport = true) : eqProj fid e = none := by
  unfold eqProj
  by_cases hsrc : e.src = fid
  · cases hd : e.data <;> simp_all [EdgeData.isCouldSupport]
  · simp [hsrc]

theorem capProj_none_of_couldSupport (fid : NodeId) (e : Edge)
    (h : e.data.isCouldSupport = true) : capProj fid e = none := by
  unfold capProj
  by_cases hsrc : e.src = fid
  · cases hd : e.data <;> simp_all [EdgeData.isCouldSupport]
  · simp [hsrc]

theorem facilityEquipment_couldForFacility (μ : ℚ) (g : Graph) (f' fid : NodeId) :
    facilityEquipment (couldForFacility μ g f') fid = facilityEquipment g fid := by
  obtain ⟨extra, heq, hall⟩ := couldForFacility_extension μ g f'
  unfold facilityEquipment
  rw [heq, List.filterMap_append]
  have : extra.filterMap (eqProj fid) = [] :=
    List.filterMap_eq_nil_iff.mpr fun e he => eqProj_none_of_couldSupport fid e (hall e he).1
  rw [this, List.append_nil]

theorem facilityCapabilities_couldForFacility (μ : ℚ) (g : Graph) (f' fid : NodeId) :
    facilityCapabilities (couldForFacility μ g f') fid = facilityCapabilities g fid := by
  obtain ⟨extra, heq, hall⟩ := couldForFacility_extension μ g f'
  unfold facilityCapabilities
  rw [heq, List.filterMap_append]
  have : extra.filterMap (capProj fid) = [] :=
    List.filterMap_eq_nil_iff.mpr fun e he => capProj_none_of_couldSupport fid e (hall e he).1
  rw [this, List.append_nil]

theorem mem_couldForFacility (μ : ℚ) (g : Graph) (fid : NodeId) (x : Edge) :
    x ∈ (couldForFacility μ g fid).edges ↔
      x ∈ g.edges ∨ (facilityEquipment g fid ≠ [] ∧
        ∃ en ∈ CAPABILITY_REQUIREMENTS,
          couldCond μ (facilityEquipment g fid) (facilityCapabilities g fid)
            (g.hasNode (capability_id en.1)) en ∧
          x = couldEdgeFor fid (facilityEquipment g fid) en) := by
  unfold couldForFacility
  dsimp only
  split_ifs with h
  · simp [h]
  · rw [mem_fold_couldStep]
    constructor
    · rintro (hx | hx)
      · exact Or.inl hx
      · exact Or.inr ⟨h, hx⟩
    · rintro (hx | ⟨_, hx⟩)
      · exact Or.inl hx
      · exact Or.inr hx

theorem mem_add_could_support (μ : ℚ) (G : Graph) (x : Edge) :
    x ∈ (add_could_support_edges G μ).edges ↔
      x ∈ G.edges ∨ ∃ f' ∈ facilityNodes G, facilityEquipment G f' ≠ [] ∧
        ∃ en ∈ CAPABILITY_REQUIREMENTS,
          couldCond μ (facilityEquipment G f') (facilityCapabilities G f')
            (G.hasNode (capability_id en.1)) en ∧
          x = couldEdgeFor f' (facilityEquipment G f') en := by
  unfold add_could_support_edges
  suffices key : ∀ (l : List NodeId) (g : Graph),
      (∀ fid, facilityEquipment g fid = facilityEquipment G fid) →
      (∀ fid, facilityCapabilities g fid = facilityCapabilities G fid) →
      (∀ n, g.hasNode n = G.hasNode n) →
      (x ∈ (l.foldl (couldForFacility μ) g).edges ↔
        x ∈ g.edges ∨ ∃ f' ∈ l, facilityEquipment G f' ≠ [] ∧
          ∃ en ∈ CAPABILITY_REQUIREMENTS,
            couldCond μ (facilityEquipment G f') (facilityCapabilities G f')
              (G.hasNode (capability_id en.1)) en ∧
            x = couldEdgeFor f' (facilityEquipment G f') en) by
    exact key (facilityNodes G) G (fun _ => rfl) (fun _ => rfl) (fun _ => rfl)
  intro l
  induction l with
  | nil => intro g _ _ _; simp
  | cons f' rest ih =>
      intro g hE hC hN
      rw [List.foldl_cons]
      have hE' : ∀ fid, facilityEquipment (couldForFacility μ g f') fid =
          facilityEquipment G fid := fun fid => by
        rw [facilityEquipment_couldForFacility, hE]
      have hC' : ∀ fid, facilityCapabilities (couldForFacility μ g f') fid =
          facilityCapabilities G fid := fun fid => by
        rw [facilityCapabilities_couldForFacility, hC]
      have hN' : ∀ n, (couldForFacility μ g f').hasNode n = G.hasNode n := fun n => by
        unfold Graph.hasNode; rw [couldForFacility_nodes]; exact hN n
      rw [ih _ hE' hC' hN']
      rw [mem_couldForFacility]
      simp only [List.exists_mem_cons_iff, hE, hC, hN]
      exact or_assoc

theorem eq_of_mem_nodup_keys {l : List (String × Reqs)} (hnd : (l.map Prod.fst).Nodup)
    {p q : String × Reqs} (hp : p ∈ l) (hq : q ∈ l) (h : p.1 = q.1) : p = q := by
  induction l with
  | nil => cases hp
  | cons a as ih =>
      rw [List.map_cons, List.nodup_cons] at hnd
      rcases List.mem_cons.mp hp with rfl | hp' <;>
        rcases List.mem_cons.mp hq with h2 | hq'
      · rw [h2]
      · exact absurd (h ▸ List.mem_map_of_mem Prod.fst hq') hnd.1
      · subst h2; exact absurd (h ▸ List.mem_map_of_mem Prod.fst hp') hnd.1
      · exact ih hnd.2 hp' hq'

theorem capReq_entry_unique (cap : String) (r : Reqs) (hcap : reqsGet? cap = some r) :
    (cap, r) ∈ CAPABILITY_REQUIREMENTS ∧
      ∀ en ∈ CAPABILITY_REQUIREMENTS, en.1 = cap → en = (cap, r) := by
  have hnd : (CAPABILITY_REQUIREMENTS.map Prod.fst).Nodup := by decide
  unfold reqsGet? at hcap
  match hf : CAPABILITY_REQUIREMENTS.find? fun p => p.1 = cap with
  | none => rw [hf] at hcap; cases hcap
  | some p =>
      rw [hf] at hcap
      have hp2 : p.2 = r := by simpa using hcap
      have hpmem : p ∈ CAPABILITY_REQUIREMENTS := List.mem_of_find?_eq_some hf
      have hp1 : p.1 = cap := by simpa using List.find?_some hf
      have hpeq : p = (cap, r) := by
        cases p; simp only [Prod.mk.injEq]; exact ⟨hp1, hp2⟩
      refine ⟨hpeq ▸ hpmem, fun en hen h1 => ?_⟩
      exact (eq_of_mem_nodup_keys hnd hen hpmem (h1.trans hp1.symm)).trans hpeq

theorem dedupFS_eq_nil_iff [DecidableEq α] (l : List α) : dedupFS l = [] ↔ l = [] := by
  cases l <;> simp [dedupFS, dedupFSAux]

theorem mem_dedupFSAux [DecidableEq α] (l : List α) :
    ∀ seen (x : α), x ∈ dedupFSAux seen l ↔ x ∈ l ∧ x ∉ seen := by
  induction l with
  | nil => intro seen x; simp [dedupFSAux]
  | cons a as ih =>
      intro seen x
      by_cases h : a ∈ seen
      · rw [dedupFSAux_cons, if_pos h, ih]
        constructor
        · rintro ⟨hx, hs⟩; exact ⟨List.mem_cons_of_mem a hx, hs⟩
        · rintro ⟨hx, hs⟩
          rcases List.mem_cons.mp hx with rfl | hx
          · exact absurd h hs
          · exact ⟨hx, hs⟩
      · rw [dedupFSAux_cons, if_neg h]
        constructor
        · intro hx
          rcases List.mem_cons.mp hx with rfl | hx
          · exact ⟨List.mem_cons_self x as, h⟩
          · obtain ⟨h1, h2⟩ := (ih (a :: seen) x).mp hx
            exact ⟨List.mem_cons_of_mem a h1,
              fun hs => h2 (List.mem_cons_of_mem a hs)⟩
        · rintro ⟨hx, hs⟩
          rcases List.mem_cons.mp hx with rfl | hx
          · exact List.mem_cons_self x _
          · by_cases hxa : x = a
            · subst hxa; exact List.mem_cons_self x _
            · exact List.mem_cons_of_mem a ((ih (a :: seen) x).mpr
                ⟨hx, by simp [hxa, hs]⟩)

theorem mem_dedupFS [DecidableEq α] (l : List α) (x : α) :
    x ∈ dedupFS l ↔ x ∈ l := by
  rw [dedupFS, mem_dedupFSAux]; simp

theorem eqProj_eq_some_iff (fid : NodeId) (e : Edge) (k : String) :
    eqProj fid e = some k ↔
      e.src = fid ∧ e.data.isHasEquipment = true ∧ e.tgt = .equipment k := by
  unfold eqProj
  by_cases hsrc : e.src = fid
  · cases hd : e.data <;> cases ht : e.tgt <;>
      simp [hsrc, EdgeData.isHasEquipment]
  · simp [hsrc]

theorem capProj_eq_some_iff (fid : NodeId) (e : Edge) (k : String) :
    capProj fid e = some k ↔
      e.src = fid ∧ e.data.isHasCapability = true ∧ e.tgt = .capability k := by
  unfold capProj
  by_cases hsrc : e.src = fid
  · cases hd : e.data <;> cases ht : e.tgt <;>
      simp [hsrc, EdgeData.isHasCapability]
  · simp [hsrc]

theorem mem_facilityCapabilities_iff (G : Graph) (f : NodeId) (cap : String) :
    cap ∈ facilityCapabilities G f ↔
      ∃ e ∈ G.edges, e.src = f ∧ e.data.isHasCapability = true ∧
        e.tgt = capability_id cap := by
  unfold facilityCapabilities
  rw [mem_dedupFS, List.mem_filterMap]
  constructor
  · rintro ⟨e, he, hp⟩
    exact ⟨e, he, (capProj_eq_some_iff f e cap).mp hp⟩
  · rintro ⟨e, he, h1, h2, h3⟩
    exact ⟨e, he, (capProj_eq_some_iff f e cap).mpr ⟨h1, h2, h3⟩⟩

theorem facilityEquipment_ne_nil_iff (G : Graph) (f : NodeId)
    (hwt : ∀ e ∈ G.edges, e.src = f → e.data.isHasEquipment = true →
      e.tgt.isEquipmentId = true) :
    facilityEquipment G f ≠ [] ↔
      ∃ e ∈ G.edges, e.src = f ∧ e.data.isHasEquipment = true := by
  unfold facilityEquipment
  rw [Ne, dedupFS_eq_nil_iff, List.filterMap_eq_nil_iff]
  push_neg
  constructor
  · rintro ⟨e, he, hne⟩
    match hp : eqProj f e with
    | none => exact absurd hp hne
    | some k =>
        obtain ⟨h1, h2, _⟩ := (eqProj_eq_some_iff f e k).mp hp
        exact ⟨e, he, h1, h2⟩
  · rintro ⟨e, he, h1, h2⟩
    refine ⟨e, he, ?_⟩
    have hid := hwt e he h1 h2
    match ht : e.tgt with
    | .equipment k =>
        rw [(eqProj_eq_some_iff f e k).mpr ⟨h1, h2, ht⟩]; simp
    | .region _ => rw [ht] at hid; simp [NodeId.isEquipmentId] at hid
    | .facility _ => rw [ht] at hid; simp [NodeId.isEquipmentId] at hid
    | .ngo _ => rw [ht] at hid; simp [NodeId.isEquipmentId] at hid
    | .capability _ => rw [ht] at hid; simp [NodeId.isEquipmentId] at hid
    | .specialty _ => rw [ht] at hid; simp [NodeId.isEquipmentId] at hid

/-- C3, amended.  For a facility node `f` and a capability `cap` with
requirements entry `r` whose Capability node exists in the graph (absent
target nodes are skipped — §C8) and with no pre-existing `COULD_SUPPORT`
edge `f → cap`, `add_could_support_edges` at the default threshold adds a
`COULD_SUPPORT` edge from `f` to `cap` **iff** `f` has at least one
`HAS_EQUIPMENT` edge, does not claim `cap` via `HAS_CAPABILITY`, `cap`'s
required-equipment list is non-empty, and the fraction of required equipment
held is ≥ 0.6; the edge carries that fraction **rounded to 2 decimal
places** as `readiness_score` (not the exact fraction — see the
counterexample), together with the held/missing equipment lists.  In
particular a facility holding exactly 60% receives an edge with readiness
0.6 and one holding a fraction below 0.6 receives none. -/
theorem could_support_threshold (G : Graph) (f : NodeId) (cap : String) (r : Reqs)
    (hf : f ∈ facilityNodes G)
    (hcap : reqsGet? cap = some r)
    (hnode : G.hasNode (capability_id cap) = true)
    (hpre : ∀ e ∈ G.edges,
      ¬(e.src = f ∧ e.tgt = capability_id cap ∧ e.data.isCouldSupport = true))
    (hwt : ∀ e ∈ G.edges, e.src = f → e.data.isHasEquipment = true →
      e.tgt.isEquipmentId = true) :
    ((∃ e ∈ (add_could_support_edges G defaultMinReadiness).edges,
        e.src = f ∧ e.tgt = capability_id cap ∧ e.data.isCouldSupport = true) ↔
      ((∃ e ∈ G.edges, e.src = f ∧ e.data.isHasEquipment = true) ∧
       ¬(∃ e ∈ G.edges, e.src = f ∧ e.data.isHasCapability = true ∧
          e.tgt = capability_id cap) ∧
       r.required ≠ [] ∧
       defaultMinReadiness ≤ Rat.divInt
         (r.required.filter (· ∈ facilityEquipment G f)).length r.required.length)) ∧
    (∀ e ∈ (add_could_support_edges G defaultMinReadiness).edges,
      e.src = f → e.tgt = capability_id cap → e.data.isCouldSupport = true →
      e.data = .couldSupport (r.required.filter (· ∈ facilityEquipment G f))
        (r.required.filter (· ∉ facilityEquipment G f))
        (pyRound (Rat.divInt
          (r.required.filter (· ∈ facilityEquipment G f)).length r.required.length) 2)) := by
  obtain ⟨hmemTab, huniq⟩ := capReq_entry_unique cap r hcap
  have main : ∀ e ∈ (add_could_support_edges G defaultMinReadiness).edges,
      e.src = f → e.tgt = capability_id cap → e.data.isCouldSupport = true →
      e = couldEdgeFor f (facilityEquipment G f) (cap, r) ∧
        couldCond defaultMinReadiness (facilityEquipment G f) (facilityCapabilities G f)
          (G.hasNode (capability_id cap)) (cap, r) := by
    intro e he hsrc htgt hcs
    rcases (mem_add_could_support defaultMinReadiness G e).mp he with hin | hnew
    · exact absurd ⟨hsrc, htgt, hcs⟩ (hpre e hin)
    · obtain ⟨f', _, _, en, henmem, hcond, hx⟩ := hnew
      have hsrc' : f' = f := by
        have : e.src = f' := by rw [hx]; rfl
        rw [← this, hsrc]
      have hcap' : en.1 = cap := by
        have : e.tgt = capability_id en.1 := by rw [hx]; rfl
        rw [htgt] at this
        exact (NodeId.capability.injEq _ _ ▸ this.symm : en.1 = cap)
      have hen : en = (cap, r) := huniq en henmem hcap'
      subst hsrc'; rw [hen] at hx hcond
      exact ⟨hx, hcond⟩
  constructor
  · constructor
    · rintro ⟨e, he, hsrc, htgt, hcs⟩
      rcases (mem_add_could_support defaultMinReadiness G e).mp he with hin | hnew
      · exact absurd ⟨hsrc, htgt, hcs⟩ (hpre e hin)
      · obtain ⟨f', hf'mem, hNE, en, henmem, hcond, hx⟩ := hnew
        have hsrc' : f' = f := by
          have hh : e.src = f' := by rw [hx]; rfl
          rw [← hh, hsrc]
        have hcap' : en.1 = cap := by
          have hh : e.tgt = capability_id en.1 := by rw [hx]; rfl
          have hcc : capability_id cap = capability_id en.1 := by rw [← htgt, hh]
          have hcc' : cap = en.1 := by simpa [capability_id] using hcc
          exact hcc'.symm
        have hen : en = (cap, r) := huniq en henmem hcap'
        rw [hen, hsrc'] at hcond
        rw [hsrc'] at hNE
        obtain ⟨hnc, hne, hready, _⟩ := hcond
        refine ⟨(facilityEquipment_ne_nil_iff G f hwt).mp hNE, ?_, hne, hready⟩
        rw [← mem_facilityCapabilities_iff]; exact hnc
    · rintro ⟨hEq, hNotClaim, hReqNE, hReady⟩
      refine ⟨couldEdgeFor f (facilityEquipment G f) (cap, r), ?_, rfl, rfl, rfl⟩
      refine (mem_add_could_support defaultMinReadiness G _).mpr (Or.inr ?_)
      refine ⟨f, hf, (facilityEquipment_ne_nil_iff G f hwt).mpr hEq, (cap, r),
        hmemTab, ?_, rfl⟩
      refine ⟨?_, hReqNE, hReady, hnode⟩
      rw [mem_facilityCapabilities_iff]; exact hNotClaim
  · intro e he hsrc htgt hcs
    obtain ⟨hx, _⟩ := main e he hsrc htgt hcs
    rw [hx]; rfl

/-- The requirements entry of `cesarean_section`, for C3's witness. -/
def cesareanReqs : Reqs :=
  ⟨["operating_theatre", "anesthesia_machine", "autoclave", "blood_bank", "patient_monitor"],
   ["ventilator", "oxygen_supply", "incubator", "suction_machine"]⟩

/-- Used by C3's witness: a facility holding exactly 3 of the 5 items
`cesarean_section` requires (readiness exactly 0.6). -/
def couldWitnessGraph : Graph :=
  { nodes := [(.facility "w3", { node_type := "Facility" }),
              (.capability "cesarean_section", { node_type := "Capability" })],
    edges := [⟨.facility "w3", .equipment "operating_theatre", .hasEquipment (Rat.divInt 4 5) "ot"⟩,
              ⟨.facility "w3", .equipment "anesthesia_machine", .hasEquipment (Rat.divInt 4 5) "am"⟩,
              ⟨.facility "w3", .equipment "autoclave", .hasEquipment (Rat.divInt 4 5) "ac"⟩] }

/-- Witness for `could_support_threshold`: a facility holding exactly 60% of
the required equipment of `cesarean_section` receives the edge. -/
theorem could_support_threshold_witness :
    ∃ e ∈ (add_could_support_edges couldWitnessGraph defaultMinReadiness).edges,
      e.src = .facility "w3" ∧ e.tgt = .capability "cesarean_section" ∧
      e.data.isCouldSupport = true := by
  have h := could_support_threshold couldWitnessGraph (.facility "w3")
    "cesarean_section" cesareanReqs (by decide) (by decide) (by decide)
    (by decide) (by decide)
  exact h.1.mpr (by decide)

/-! ### C1: inference idempotence

The LACKS pass is idempotent; the key invariant is `DonePair`: a
(facility, capability, required-equipment) triple is *done* when re-processing
it would change nothing. -/

/-- A (facility, capability, required-equipment) triple that the inner loop
of `add_lacks_edges` would leave unchanged: the equipment is held, or its
node is missing, or the first `LACKS` edge to it already lists the
capability. -/
def DonePair (G : Graph) (fid : NodeId) (cap req : String) : Prop :=
  req ∈ facilityEquipment G fid ∨ G.hasNode (equipment_id req) = false ∨
    ∃ e, findLacks G.edges fid (equipment_id req) = some e ∧ cap ∈ e.data.requiredBy

theorem lacksStep_nodes (fid : NodeId) (owned : List String) (cap : String)
    (G : Graph) (req : String) : (lacksStep fid owned cap G req).nodes = G.nodes := by
  unfold lacksStep
  by_cases h1 : req ∈ owned
  · rw [if_pos h1]
  · rw [if_neg h1]
    dsimp only
    by_cases h2 : G.hasNode (equipment_id req) = false
    · rw [if_pos h2]
    · rw [if_neg h2]
      cases findLacks G.edges fid (equipment_id req) <;> rfl

theorem lacksStep_hasNode (fid : NodeId) (owned : List String) (cap : String)
    (G : Graph) (req : String) (n : NodeId) :
    (lacksStep fid owned cap G req).hasNode n = G.hasNode n := by
  unfold Graph.hasNode; rw [lacksStep_nodes]

theorem updateLacks_proj_eq (proj : Edge → Option β)
    (hproj : ∀ e e', e.src = e'.src → e.tgt = e'.tgt →
      e.data.isLacks = true → e'.data.isLacks = true → proj e = proj e') :
    ∀ (es : List Edge) (f t : NodeId) (c : String),
    (updateLacks es f t c).filterMap proj = es.filterMap proj := by
  intro es
  induction es with
  | nil => intro f t c; rfl
  | cons e es' ih =>
      intro f t c
      by_cases hp : e.src = f ∧ e.tgt = t ∧ e.data.isLacks
      · rw [updateLacks, if_pos hp]
        have hL : (e.data.appendRequiredBy c).isLacks = true := by
          rcases hp with ⟨_, _, hl⟩
          cases hd : e.data <;> simp_all [EdgeData.isLacks, EdgeData.appendRequiredBy]
        have : proj { e with data := e.data.appendRequiredBy c } = proj e :=
          hproj _ e rfl rfl hL hp.2.2
        simp [List.filterMap_cons, this]
      · rw [updateLacks, if_neg hp]
        simp [List.filterMap_cons, ih]

theorem eqProj_updateLacks (es : List Edge) (f t : NodeId) (c : String) (fid : NodeId) :
    (updateLacks es f t c).filterMap (eqProj fid) = es.filterMap (eqProj fid) := by
  refine updateLacks_proj_eq (eqProj fid) ?_ es f t c
  intro e e' hs ht hl hl'
  have h1 : eqProj fid e = none := by
    unfold eqProj
    by_cases hsrc : e.src = fid
    · cases hd : e.data <;> simp_all [EdgeData.isLacks]
    · simp [hsrc]
  have h2 : eqProj fid e' = none := by
    unfold eqProj
    by_cases hsrc : e'.src = fid
    · cases hd : e'.data <;> simp_all [EdgeData.isLacks]
    · simp [hsrc]
  rw [h1, h2]

theorem capProj_updateLacks (es : List Edge) (f t : NodeId) (c : String) (fid : NodeId) :
    (updateLacks es f t c).filterMap (capProj fid) = es.filterMap (capProj fid) := by
  refine updateLacks_proj_eq (capProj fid) ?_ es f t c
  intro e e' hs ht hl hl'
  have h1 : capProj fid e = none := by
    unfold capProj
    by_cases hsrc : e.src = fid
    · cases hd : e.data <;> simp_all [EdgeData.isLacks]
    · simp [hsrc]
  have h2 : capProj fid e' = none := by
    unfold capProj
    by_cases hsrc : e'.src = fid
    · cases hd : e'.data <;> simp_all [EdgeData.isLacks]
    · simp [hsrc]
  rw [h1, h2]

theorem eqProj_none_of_lacks (fid : NodeId) (e : Edge)
    (h : e.data.isLacks = true) : eqProj fid e = none := by
  unfold eqProj
  by_cases hsrc : e.src = fid
  · cases hd : e.data <;> simp_all [EdgeData.isLacks]
  · simp [hsrc]

theorem capProj_none_of_lacks (fid : NodeId) (e : Edge)
    (h : e.data.isLacks = true) : capProj fid e = none := by
  unfold capProj
  by_cases hsrc : e.src = fid
  · cases hd : e.data <;> simp_all [EdgeData.isLacks]
  · simp [hsrc]

theorem findLacks_append_of_some (es l : List Edge) (f t : NodeId) (e : Edge)
    (h : findLacks es f t = some e) : findLacks (es ++ l) f t = some e := by
  unfold findLacks at *
  induction es with
  | nil => cases h
  | cons a as ih =>
      rw [List.cons_append]
      rw [List.find?_cons] at h ⊢
      cases hp : decide (a.src = f ∧ a.tgt = t ∧ a.data.isLacks = true) with
      | true => rw [hp] at h; simpa [hp] using h
      | false => rw [hp] at h; simpa [hp] using ih h

theorem findLacks_append_of_none (es l : List Edge) (f t : NodeId)
    (h : findLacks es f t = none) : findLacks (es ++ l) f t = findLacks l f t := by
  unfold findLacks at *
  induction es with
  | nil => rfl
  | cons a as ih =>
      rw [List.cons_append, List.find?_cons] at *
      cases hp : decide (a.src = f ∧ a.tgt = t ∧ a.data.isLacks = true) with
      | true => rw [hp] at h; cases h
      | false => rw [hp] at h; exact ih h

theorem findLacks_updateLacks_self (es : List Edge) (f t : NodeId) (c : String)
    (e : Edge) (h : findLacks es f t = some e) :
    findLacks (updateLacks es f t c) f t =
      some { e with data := e.data.appendRequiredBy c } := by
  unfold findLacks at *
  induction es with
  | nil => cases h
  | cons a as ih =>
      rw [List.find?_cons] at h
      by_cases hp : a.src = f ∧ a.tgt = t ∧ a.data.isLacks
      · have hp' : decide (a.src = f ∧ a.tgt = t ∧ a.data.isLacks = true) = true := by
          simpa using hp
        rw [hp'] at h
        have ha : a = e := by simpa using h
        subst ha
        rw [updateLacks, if_pos hp, List.find?_cons]
        have hL : (a.data.appendRequiredBy c).isLacks = true := by
          rcases hp with ⟨_, _, hl⟩
          cases hd : a.data <;> simp_all [EdgeData.isLacks, EdgeData.appendRequiredBy]
        have : decide (({ a with data := a.data.appendRequiredBy c } : Edge).src = f ∧
            ({ a with data := a.data.appendRequiredBy c } : Edge).tgt = t ∧
            ({ a with data := a.data.appendRequiredBy c } : Edge).data.isLacks = true) = true := by
          simp only [decide_eq_true_eq]
          exact ⟨hp.1, hp.2.1, hL⟩
        rw [this]
      · have hp' : decide (a.src = f ∧ a.tgt = t ∧ a.data.isLacks = true) = false := by
          simpa using hp
        rw [hp'] at h
        rw [updateLacks, if_neg hp, List.find?_cons, hp']
        exact ih h

theorem findLacks_updateLacks_other (es : List Edge) (f₀ t₀ : NodeId) (c : String)
    (f t : NodeId) (e : Edge) (h : findLacks es f t = some e) :
    (findLacks (updateLacks es f₀ t₀ c) f t = some e ∧ (f₀ ≠ f ∨ t₀ ≠ t)) ∨
    ((f₀ = f ∧ t₀ = t) ∧ findLacks (updateLacks es f₀ t₀ c) f t =
      some { e with data := e.data.appendRequiredBy c }) := by
  by_cases hft : f₀ = f ∧ t₀ = t
  · right
    refine ⟨hft, ?_⟩
    rw [hft.1, hft.2]
    exact findLacks_updateLacks_self es f t c e h
  · left
    refine ⟨?_, by tauto⟩
    unfold findLacks at *
    induction es with
    | nil => cases h
    | cons a as ih =>
        rw [List.find?_cons] at h
        by_cases hp0 : a.src = f₀ ∧ a.tgt = t₀ ∧ a.data.isLacks
        · rw [updateLacks, if_pos hp0, List.find?_cons]
          have hpf : decide (a.src = f ∧ a.tgt = t ∧ a.data.isLacks = true) = false := by
            simp only [decide_eq_false_iff_not]
            rintro ⟨h1, h2, _⟩
            exact hft ⟨hp0.1 ▸ h1 ▸ rfl, hp0.2.1 ▸ h2 ▸ rfl⟩
          rw [hpf] at h
          have hL : (a.data.appendRequiredBy c).isLacks = true := by
            rcases hp0 with ⟨_, _, hl⟩
            cases hd : a.data <;> simp_all [EdgeData.isLacks, EdgeData.appendRequiredBy]
          have hpf' : decide (({ a with data := a.data.appendRequiredBy c } : Edge).src = f ∧
              ({ a with data := a.data.appendRequiredBy c } : Edge).tgt = t ∧
              ({ a with data := a.data.appendRequiredBy c } : Edge).data.isLacks = true) = false := by
            simp only [decide_eq_false_iff_not]
            rintro ⟨h1, h2, _⟩
            exact hft ⟨hp0.1 ▸ h1 ▸ rfl, hp0.2.1 ▸ h2 ▸ rfl⟩
          rw [hpf']
          exact h
        · rw [updateLacks, if_neg hp0, List.find?_cons]
          cases hpf : decide (a.src = f ∧ a.tgt = t ∧ a.data.isLacks = true) with
          | true => rw [hpf] at h; exact h
          | false => rw [hpf] at h; exact ih h

theorem lacksStep_shape (fid : NodeId) (owned : List String) (cap : String)
    (G : Graph) (req : String) :
    (req ∈ owned ∧ lacksStep fid owned cap G req = G) ∨
    (req ∉ owned ∧ G.hasNode (equipment_id req) = false ∧
      lacksStep fid owned cap G req = G) ∨
    (req ∉ owned ∧ G.hasNode (equipment_id req) = true ∧
      (∃ e, findLacks G.edges fid (equipment_id req) = some e) ∧
      lacksStep fid owned cap G req =
        { G with edges := updateLacks G.edges fid (equipment_id req) cap }) ∨
    (req ∉ owned ∧ G.hasNode (equipment_id req) = true ∧
      findLacks G.edges fid (equipment_id req) = none ∧
      lacksStep fid owned cap G req =
        { G with edges := G.edges ++ [newLacksEdge fid cap req] }) := by
  unfold lacksStep
  by_cases h1 : req ∈ owned
  · exact Or.inl ⟨h1, by rw [if_pos h1]⟩
  · rw [if_neg h1]
    dsimp only
    by_cases h2 : G.hasNode (equipment_id req) = false
    · exact Or.inr (Or.inl ⟨h1, h2, by rw [if_pos h2]⟩)
    · have h2' : G.hasNode (equipment_id req) = true := by
        cases hh : G.hasNode (equipment_id req)
        · exact absurd hh h2
        · rfl
      rw [if_neg h2]
      match hf : findLacks G.edges fid (equipment_id req) with
      | some e => exact Or.inr (Or.inr (Or.inl ⟨h1, h2', ⟨e, rfl⟩, rfl⟩))
      | none => exact Or.inr (Or.inr (Or.inr ⟨h1, h2', rfl, rfl⟩))

theorem facilityEquipment_lacksStep (fid : NodeId) (owned : List String) (cap : String)
    (G : Graph) (req : String) (fid' : NodeId) :
    facilityEquipment (lacksStep fid owned cap G req) fid' = facilityEquipment G fid' := by
  rcases lacksStep_shape fid owned cap G req with ⟨_, he⟩ | ⟨_, _, he⟩ |
    ⟨_, _, _, he⟩ | ⟨_, _, _, he⟩ <;> rw [he]
  · unfold facilityEquipment
    rw [eqProj_updateLacks]
  · unfold facilityEquipment
    rw [List.filterMap_append]
    have : [newLacksEdge fid cap req].filterMap (eqProj fid') = [] := by
      simp [List.filterMap, eqProj_none_of_lacks fid' (newLacksEdge fid cap req) rfl]
    rw [this, List.append_nil]

theorem facilityCapabilities_lacksStep (fid : NodeId) (owned : List String) (cap : String)
    (G : Graph) (req : String) (fid' : NodeId) :
    facilityCapabilities (lacksStep fid owned cap G req) fid' =
      facilityCapabilities G fid' := by
  rcases lacksStep_shape fid owned cap G req with ⟨_, he⟩ | ⟨_, _, he⟩ |
    ⟨_, _, _, he⟩ | ⟨_, _, _, he⟩ <;> rw [he]
  · unfold facilityCapabilities
    rw [capProj_updateLacks]
  · unfold facilityCapabilities
    rw [List.filterMap_append]
    have : [newLacksEdge fid cap req].filterMap (capProj fid') = [] := by
      simp [List.filterMap, capProj_none_of_lacks fid' (newLacksEdge fid cap req) rfl]
    rw [this, List.append_nil]

theorem requiredBy_appendRequiredBy_mono (d : EdgeData) (c x : String)
    (h : x ∈ d.requiredBy) : x ∈ (d.appendRequiredBy c).requiredBy := by
  cases d <;> simp_all [EdgeData.requiredBy, EdgeData.appendRequiredBy]
  split_ifs <;> simp_all

theorem lacksStep_preserves_DonePair (fid : NodeId) (owned : List String) (cap : String)
    (G : Graph) (req : String) (f' : NodeId) (c' r' : String)
    (h : DonePair G f' c' r') : DonePair (lacksStep fid owned cap G req) f' c' r' := by
  rcases h with h | h | ⟨e, hfind, hcap⟩
  · exact Or.inl (by rw [facilityEquipment_lacksStep]; exact h)
  · exact Or.inr (Or.inl (by rw [lacksStep_hasNode]; exact h))
  · refine Or.inr (Or.inr ?_)
    rcases lacksStep_shape fid owned cap G req with ⟨_, he⟩ | ⟨_, _, he⟩ |
      ⟨_, _, _, he⟩ | ⟨_, _, _, he⟩ <;> rw [he]
    · exact ⟨e, hfind, hcap⟩
    · exact ⟨e, hfind, hcap⟩
    · rcases findLacks_updateLacks_other G.edges fid (equipment_id req) cap f'
        (equipment_id r') e hfind with ⟨hf2, _⟩ | ⟨_, hf2⟩
      · exact ⟨e, hf2, hcap⟩
      · exact ⟨_, hf2, requiredBy_appendRequiredBy_mono e.data cap c' hcap⟩
    · exact ⟨e, findLacks_append_of_some _ _ _ _ e hfind, hcap⟩

theorem lacksStep_establishes (fid : NodeId) (owned : List String) (cap : String)
    (G : Graph) (req : String) (howned : owned = facilityEquipment G fid) :
    DonePair (lacksStep fid owned cap G req) fid cap req := by
  rcases lacksStep_shape fid owned cap G req with ⟨hin, he⟩ | ⟨_, hn, he⟩ |
    ⟨_, _, ⟨e, hf⟩, he⟩ | ⟨_, _, hf, he⟩
  · rw [he]; exact Or.inl (howned ▸ hin)
  · rw [he]; exact Or.inr (Or.inl hn)
  · rw [he]
    refine Or.inr (Or.inr ⟨{ e with data := e.data.appendRequiredBy cap }, ?_, ?_⟩)
    · exact findLacks_updateLacks_self G.edges fid (equipment_id req) cap e hf
    · have hL : e.data.isLacks = true := by
        unfold findLacks at hf
        have := List.find?_some hf
        simp only [decide_eq_true_eq] at this
        exact this.2.2
      cases hd : e.data <;> simp_all [EdgeData.isLacks, EdgeData.appendRequiredBy,
        EdgeData.requiredBy]
      split_ifs with hmem <;> simp_all
  · rw [he]
    refine Or.inr (Or.inr ⟨newLacksEdge fid cap req, ?_, by
      simp [newLacksEdge, EdgeData.requiredBy]⟩)
    rw [findLacks_append_of_none _ _ _ _ hf]
    unfold findLacks newLacksEdge
    rw [List.find?_cons]
    have : decide ((⟨fid, equipment_id req,
        .lacks ("Required for " ++ cap ++ " but no evidence found") [cap]
          "no_evidence"⟩ : Edge).src = fid ∧
        (⟨fid, equipment_id req, .lacks ("Required for " ++ cap ++ " but no evidence found")
          [cap] "no_evidence"⟩ : Edge).tgt = equipment_id req ∧
        (⟨fid, equipment_id req, .lacks ("Required for " ++ cap ++ " but no evidence found")
          [cap] "no_evidence"⟩ : Edge).data.isLacks = true) = true := by
      simp [EdgeData.isLacks]
    rw [this]

theorem updateLacks_eq_self (es : List Edge) (f t : NodeId) (c : String)
    (h : ∀ e, findLacks es f t = some e → c ∈ e.data.requiredBy) :
    updateLacks es f t c = es := by
  induction es with
  | nil => rfl
  | cons a as ih =>
      by_cases hp : a.src = f ∧ a.tgt = t ∧ a.data.isLacks
      · rw [updateLacks, if_pos hp]
        have hfind : findLacks (a :: as) f t = some a := by
          unfold findLacks
          rw [List.find?_cons]
          have : decide (a.src = f ∧ a.tgt = t ∧ a.data.isLacks = true) = true := by
            simpa using hp
          rw [this]
        have hc := h a hfind
        have : a.data.appendRequiredBy c = a.data := by
          rcases hp with ⟨_, _, hl⟩
          cases hd : a.data <;> simp_all [EdgeData.isLacks, EdgeData.appendRequiredBy,
            EdgeData.requiredBy]
        rw [this]
      · rw [updateLacks, if_neg hp]
        refine congrArg (a :: ·) (ih ?_)
        intro e hfind
        refine h e ?_
        unfold findLacks at hfind ⊢
        rw [List.find?_cons]
        have : decide (a.src = f ∧ a.tgt = t ∧ a.data.isLacks = true) = false := by
          simpa using hp
        rw [this]
        exact hfind

theorem done_lacksStep_id (fid : NodeId) (owned : List String) (cap : String)
    (G : Graph) (req : String) (howned : owned = facilityEquipment G fid)
    (h : DonePair G fid cap req) : lacksStep fid owned cap G req = G := by
  unfold lacksStep
  by_cases h1 : req ∈ owned
  · rw [if_pos h1]
  · rw [if_neg h1]
    dsimp only
    by_cases h2 : G.hasNode (equipment_id req) = false
    · rw [if_pos h2]
    · rw [if_neg h2]
      rcases h with hin | hn | ⟨e, hfind, hcap⟩
      · exact absurd (howned ▸ hin) h1
      · exact absurd hn h2
      · rw [hfind]
        have : updateLacks G.edges fid (equipment_id req) cap = G.edges :=
          updateLacks_eq_self _ _ _ _ fun e' hf' => by
            rw [hfind] at hf'
            cases hf'
            exact hcap
        rw [this]

theorem foldl_graph_id {α : Type} (f : Graph → α → Graph) :
    ∀ (l : List α) (G : Graph), (∀ x ∈ l, f G x = G) → l.foldl f G = G := by
  intro l
  induction l with
  | nil => intro G _; rfl
  | cons x xs ih =>
      intro G h
      rw [List.foldl_cons, h x (List.mem_cons_self x xs)]
      exact ih G fun y hy => h y (List.mem_cons_of_mem x hy)

theorem foldl_graph_preserves {α : Type} (P : Graph → Prop) (f : Graph → α → Graph)
    (hstep : ∀ g x, P g → P (f g x)) :
    ∀ (l : List α) (g : Graph), P g → P (l.foldl f g) := by
  intro l
  induction l with
  | nil => intro g h; exact h
  | cons x xs ih => intro g h; exact ih (f g x) (hstep g x h)

/-- State read by the LACKS pass: per-facility equipment and capability sets
and the node list. -/
def SameLacksState (g G : Graph) : Prop :=
  (∀ fid, facilityEquipment g fid = facilityEquipment G fid) ∧
  (∀ fid, facilityCapabilities g fid = facilityCapabilities G fid) ∧
  g.nodes = G.nodes

theorem sameLacksState_refl (G : Graph) : SameLacksState G G :=
  ⟨fun _ => rfl, fun _ => rfl, rfl⟩

theorem sameLacksState_trans {g₁ g₂ g₃ : Graph} (h₁ : SameLacksState g₁ g₂)
    (h₂ : SameLacksState g₂ g₃) : SameLacksState g₁ g₃ :=
  ⟨fun fid => (h₁.1 fid).trans (h₂.1 fid),
   fun fid => (h₁.2.1 fid).trans (h₂.2.1 fid), h₁.2.2.trans h₂.2.2⟩

theorem lacksStep_state (fid : NodeId) (owned : List String) (cap : String)
    (G : Graph) (req : String) : SameLacksState (lacksStep fid owned cap G req) G :=
  ⟨fun fid' => facilityEquipment_lacksStep fid owned cap G req fid',
   fun fid' => facilityCapabilities_lacksStep fid owned cap G req fid',
   lacksStep_nodes fid owned cap G req⟩

theorem foldl_state {α : Type} (f : Graph → α → Graph)
    (hstep : ∀ g x, SameLacksState (f g x) g) :
    ∀ (l : List α) (g : Graph), SameLacksState (l.foldl f g) g := by
  intro l
  induction l with
  | nil => intro g; exact sameLacksState_refl g
  | cons x xs ih =>
      intro g
      exact sameLacksState_trans (ih (f g x)) (hstep g x)

theorem lacksForCap_state (fid : NodeId) (owned : List String) (G : Graph)
    (cap : String) : SameLacksState (lacksForCap fid owned G cap) G := by
  unfold lacksForCap
  match reqsGet? cap with
  | none => exact sameLacksState_refl G
  | some r => exact foldl_state _ (lacksStep_state fid owned cap) r.required G

theorem lacksForCap_preserves_DonePair (fid : NodeId) (owned : List String)
    (G : Graph) (cap : String) (f' : NodeId) (c' r' : String)
    (h : DonePair G f' c' r') : DonePair (lacksForCap fid owned G cap) f' c' r' := by
  unfold lacksForCap
  match reqsGet? cap with
  | none => exact h
  | some r =>
      exact foldl_graph_preserves (fun g => DonePair g f' c' r') _
        (fun g x hg => lacksStep_preserves_DonePair fid owned cap g x f' c' r' hg)
        r.required G h

theorem lacksFold_establishes (fid : NodeId) (owned : List String) (cap : String) :
    ∀ (l : List String) (G : Graph), owned = facilityEquipment G fid →
    ∀ req ∈ l, DonePair (l.foldl (lacksStep fid owned cap) G) fid cap req := by
  intro l
  induction l with
  | nil => intro G _ req h; cases h
  | cons req rest ih =>
      intro G howned req' hreq'
      rw [List.foldl_cons]
      have hG' : owned = facilityEquipment (lacksStep fid owned cap G req) fid := by
        rw [facilityEquipment_lacksStep]; exact howned
      rcases List.mem_cons.mp hreq' with rfl | hmem
      · exact foldl_graph_preserves (fun g => DonePair g fid cap req') _
          (fun g x hg => lacksStep_preserves_DonePair fid owned cap g x fid cap req' hg)
          rest _ (lacksStep_establishes fid owned cap G req' howned)
      · exact ih (lacksStep fid owned cap G req) hG' req' hmem

theorem lacksForCap_establishes (fid : NodeId) (owned : List String) (G : Graph)
    (cap : String) (howned : owned = facilityEquipment G fid) (r : Reqs)
    (hcap : reqsGet? cap = some r) :
    ∀ req ∈ r.required, DonePair (lacksForCap fid owned G cap) fid cap req := by
  unfold lacksForCap
  rw [hcap]
  exact lacksFold_establishes fid owned cap r.required G howned

theorem capFold_establishes (fid : NodeId) (owned : List String) :
    ∀ (l : List String) (G : Graph), owned = facilityEquipment G fid →
    ∀ cap ∈ l, ∀ r, reqsGet? cap = some r →
    ∀ req ∈ r.required, DonePair (l.foldl (lacksForCap fid owned) G) fid cap req := by
  intro l
  induction l with
  | nil => intro G _ cap h; cases h
  | cons cap rest ih =>
      intro G howned cap' hcap' r hr req hreq
      rw [List.foldl_cons]
      have hG' : owned = facilityEquipment (lacksForCap fid owned G cap) fid := by
        rw [(lacksForCap_state fid owned G cap).1]; exact howned
      rcases List.mem_cons.mp hcap' with rfl | hmem
      · exact foldl_graph_preserves (fun g => DonePair g fid cap' req) _
          (fun g x hg => lacksForCap_preserves_DonePair fid owned g x fid cap' req hg)
          rest _ (lacksForCap_establishes fid owned G cap' howned r hr req hreq)
      · exact ih (lacksForCap fid owned G cap) hG' cap' hmem r hr req hreq

theorem lacksForFacility_establishes (G : Graph) (fid : NodeId) :
    ∀ cap ∈ facilityCapabilities G fid, ∀ r, reqsGet? cap = some r →
    ∀ req ∈ r.required, DonePair (lacksForFacility G fid) fid cap req := by
  intro cap hcap r hr req hreq
  unfold lacksForFacility
  exact capFold_establishes fid (facilityEquipment G fid) (facilityCapabilities G fid)
    G rfl cap hcap r hr req hreq

theorem lacksForFacility_state (G : Graph) (fid : NodeId) :
    SameLacksState (lacksForFacility G fid) G := by
  unfold lacksForFacility
  exact foldl_state _ (lacksForCap_state fid (facilityEquipment G fid))
    (facilityCapabilities G fid) G

theorem lacksForFacility_preserves_DonePair (G : Graph) (fid f' : NodeId)
    (c' r' : String) (h : DonePair G f' c' r') :
    DonePair (lacksForFacility G fid) f' c' r' := by
  unfold lacksForFacility
  exact foldl_graph_preserves (fun g => DonePair g f' c' r') _
    (fun g x hg => lacksForCap_preserves_DonePair fid (facilityEquipment G fid) g x
      f' c' r' hg) (facilityCapabilities G fid) G h

theorem add_lacks_state (G : Graph) : SameLacksState (add_lacks_edges G) G := by
  unfold add_lacks_edges
  exact foldl_state _ lacksForFacility_state (facilityNodes G) G

theorem add_lacks_establishes (G : Graph) :
    ∀ f ∈ facilityNodes G, ∀ cap ∈ facilityCapabilities G f, ∀ r,
      reqsGet? cap = some r → ∀ req ∈ r.required,
      DonePair (add_lacks_edges G) f cap req := by
  unfold add_lacks_edges
  suffices key : ∀ (l : List NodeId) (g : Graph), SameLacksState g G →
      ∀ f ∈ l, ∀ cap ∈ facilityCapabilities G f, ∀ r, reqsGet? cap = some r →
      ∀ req ∈ r.required, DonePair (l.foldl lacksForFacility g) f cap req by
    exact key (facilityNodes G) G (sameLacksState_refl G)
  intro l
  induction l with
  | nil => intro g _ f h; cases h
  | cons f rest ih =>
      intro g hstate f' hf' cap hcap r hr req hreq
      rw [List.foldl_cons]
      have hstate' : SameLacksState (lacksForFacility g f) G :=
        sameLacksState_trans (lacksForFacility_state g f) hstate
      rcases List.mem_cons.mp hf' with rfl | hmem
      · have hcap' : cap ∈ facilityCapabilities g f' := by
          rw [hstate.2.1]; exact hcap
        exact foldl_graph_preserves (fun g2 => DonePair g2 f' cap req) _
          (fun g2 x hg => lacksForFacility_preserves_DonePair g2 x f' cap req hg)
          rest _ (lacksForFacility_establishes g f' cap hcap' r hr req hreq)
      · exact ih (lacksForFacility g f) hstate' f' hmem cap hcap r hr req hreq

theorem done_lacksForFacility_id (G : Graph) (fid : NodeId)
    (h : ∀ cap ∈ facilityCapabilities G fid, ∀ r, reqsGet? cap = some r →
      ∀ req ∈ r.required, DonePair G fid cap req) :
    lacksForFacility G fid = G := by
  unfold lacksForFacility
  refine foldl_graph_id _ _ G fun cap hcap => ?_
  unfold lacksForCap
  match hr : reqsGet? cap with
  | none => rfl
  | some r =>
      refine foldl_graph_id _ _ G fun req hreq => ?_
      exact done_lacksStep_id fid (facilityEquipment G fid) cap G req rfl
        (h cap hcap r hr req hreq)

/-! The COULD_SUPPORT pass only appends `COULD_SUPPORT` edges, so it
preserves `DonePair`. -/

theorem add_could_support_nodes (G : Graph) (μ : ℚ) :
    (add_could_support_edges G μ).nodes = G.nodes := by
  unfold add_could_support_edges
  suffices key : ∀ (l : List NodeId) (g : Graph),
      (l.foldl (couldForFacility μ) g).nodes = g.nodes by
    exact key (facilityNodes G) G
  intro l
  induction l with
  | nil => intro g; rfl
  | cons f rest ih =>
      intro g
      rw [List.foldl_cons, ih, couldForFacility_nodes]

theorem add_could_support_extension (G : Graph) (μ : ℚ) :
    ∃ extra, (add_could_support_edges G μ).edges = G.edges ++ extra ∧
      ∀ e ∈ extra, e.data.isCouldSupport = true := by
  unfold add_could_support_edges
  suffices key : ∀ (l : List NodeId) (g : Graph),
      ∃ extra, (l.foldl (couldForFacility μ) g).edges = g.edges ++ extra ∧
        ∀ e ∈ extra, e.data.isCouldSupport = true by
    exact key (facilityNodes G) G
  intro l
  induction l with
  | nil => intro g; exact ⟨[], by simp, by simp⟩
  | cons f rest ih =>
      intro g
      obtain ⟨e1, he1, ha1⟩ := couldForFacility_extension μ g f
      obtain ⟨e2, he2, ha2⟩ := ih (couldForFacility μ g f)
      refine ⟨e1 ++ e2, ?_, ?_⟩
      · rw [List.foldl_cons, he2, he1, List.append_assoc]
      · intro e he
        rcases List.mem_append.mp he with h | h
        · exact (ha1 e h).1
        · exact ha2 e h

theorem could_pass_preserves_DonePair (G : Graph) (μ : ℚ) (f : NodeId)
    (c r : String) (h : DonePair G f c r) :
    DonePair (add_could_support_edges G μ) f c r := by
  obtain ⟨extra, hext, hall⟩ := add_could_support_extension G μ
  rcases h with h | h | ⟨e, hfind, hcap⟩
  · refine Or.inl ?_
    unfold facilityEquipment at h ⊢
    rw [hext, List.filterMap_append]
    have : extra.filterMap (eqProj f) = [] :=
      List.filterMap_eq_nil_iff.mpr fun e he =>
        eqProj_none_of_couldSupport f e (hall e he)
    rw [this, List.append_nil]
    exact h
  · refine Or.inr (Or.inl ?_)
    unfold Graph.hasNode at h ⊢
    rw [add_could_support_nodes]
    exact h
  · exact Or.inr (Or.inr ⟨e, by
      rw [hext]
      exact findLacks_append_of_some _ _ _ _ e hfind, hcap⟩)

theorem facilityCapabilities_could_pass (G : Graph) (μ : ℚ) (fid : NodeId) :
    facilityCapabilities (add_could_support_edges G μ) fid =
      facilityCapabilities G fid := by
  obtain ⟨extra, hext, hall⟩ := add_could_support_extension G μ
  unfold facilityCapabilities
  rw [hext, List.filterMap_append]
  have : extra.filterMap (capProj fid) = [] :=
    List.filterMap_eq_nil_iff.mpr fun e he =>
      capProj_none_of_couldSupport fid e (hall e he)
  rw [this, List.append_nil]

theorem facilityNodes_eq_of_nodes_eq {g G : Graph} (h : g.nodes = G.nodes) :
    facilityNodes g = facilityNodes G := by
  unfold facilityNodes; rw [h]

/-- C1, amended.  The LACKS half of the Inference Engine is idempotent:
running `add_lacks_edges` again on the already-inferred graph
(`add_lacks_edges` then `add_could_support_edges`) returns that graph
unchanged — no duplicate `LACKS` edge is added and every `required_by` list
stays exactly as the first run left it (a duplicate-free union of the
triggering capabilities).  The COULD_SUPPORT half is **not** idempotent: a
second run duplicates qualifying edges (see the counterexample). -/
theorem lacks_pass_idempotent_after_inference (G : Graph) :
    add_lacks_edges (inferenceOnce G) = inferenceOnce G := by
  unfold inferenceOnce
  set G1 := add_lacks_edges G with hG1
  set G2 := add_could_support_edges G1 defaultMinReadiness with hG2
  have hstate1 : SameLacksState G1 G := add_lacks_state G
  have hnodes2 : G2.nodes = G1.nodes := add_could_support_nodes G1 defaultMinReadiness
  have hfn2 : facilityNodes G2 = facilityNodes G :=
    (facilityNodes_eq_of_nodes_eq hnodes2).trans
      (facilityNodes_eq_of_nodes_eq hstate1.2.2)
  have hcaps2 : ∀ fid, facilityCapabilities G2 fid = facilityCapabilities G fid :=
    fun fid => (facilityCapabilities_could_pass G1 defaultMinReadiness fid).trans
      (hstate1.2.1 fid)
  have hdone : ∀ f ∈ facilityNodes G2, ∀ cap ∈ facilityCapabilities G2 f, ∀ r,
      reqsGet? cap = some r → ∀ req ∈ r.required, DonePair G2 f cap req := by
    intro f hf cap hcap r hr req hreq
    have hf' : f ∈ facilityNodes G := hfn2 ▸ hf
    have hcap' : cap ∈ facilityCapabilities G f := hcaps2 f ▸ hcap
    exact could_pass_preserves_DonePair G1 defaultMinReadiness f cap req
      (add_lacks_establishes G f hf' cap hcap' r hr req hreq)
  unfold add_lacks_edges
  refine foldl_graph_id _ _ G2 fun f hf => ?_
  exact done_lacksForFacility_id G2 f fun cap hcap r hr req hreq =>
    hdone f hf cap hcap r hr req hreq

/-- Used by C1's counterexample: a facility with one equipment item that
fully covers `dental_services`' requirements, and that capability's node. -/
def inferenceCounterGraph : Graph :=
  { nodes := [(.facility "f1", { node_type := "Facility" }),
              (.capability "dental_services", { node_type := "Capability" })],
    edges := [⟨.facility "f1", .equipment "dental_chair",
               .hasEquipment (Rat.divInt 4 5) "dental chair"⟩] }

/-- C1, counterexample.  Running the Inference Engine (`add_lacks_edges`
then `add_could_support_edges`) twice does **not** leave the edge set
unchanged: `add_could_support_edges` never checks for an existing
`COULD_SUPPORT` edge, so the second run appends a duplicate parallel edge
(2 edges after one run, 3 after two). -/
theorem inference_not_idempotent :
    inferenceOnce (inferenceOnce inferenceCounterGraph) ≠
      inferenceOnce inferenceCounterGraph ∧
    (inferenceOnce inferenceCounterGraph).edges.length = 2 ∧
    (inferenceOnce (inferenceOnce inferenceCounterGraph)).edges.length = 3 := by
  refine ⟨by decide, by decide, by decide⟩

/-! ### C2: LACKS correctness for `cesarean_section` -/

/-- The `LACKS` out-edges of one facility, in insertion order. -/
def lacksEdgesFrom (G : Graph) (f : NodeId) : List Edge :=
  G.edges.filter fun e => decide (e.src = f) && e.data.isLacks

theorem count_one_split {α : Type} [DecidableEq α] :
    ∀ (l : List α) (f : α), l.count f = 1 →
    ∃ A B, l = A ++ f :: B ∧ f ∉ A ∧ f ∉ B := by
  intro l
  induction l with
  | nil => intro f h; simp at h
  | cons a as ih =>
      intro f h
      by_cases ha : a = f
      · subst ha
        have : as.count a = 0 := by
          rw [List.count_cons_self] at h
          omega
        exact ⟨[], as, rfl, by simp, List.count_eq_zero.mp this⟩
      · have : as.count f = 1 := by
          rwa [List.count_cons_of_ne (fun hh => ha hh.symm)] at h
        obtain ⟨A, B, heq, hA, hB⟩ := ih f this
        exact ⟨a :: A, B, by rw [heq, List.cons_append], by
          simp only [List.mem_cons]
          rintro (rfl | hm)
          · exact ha rfl
          · exact hA hm, hB⟩

theorem filter_updateLacks_other (f fid' : NodeId) (hne : fid' ≠ f) :
    ∀ (es : List Edge) (t : NodeId) (c : String),
    (updateLacks es fid' t c).filter (fun e => decide (e.src = f) && e.data.isLacks) =
      es.filter fun e => decide (e.src = f) && e.data.isLacks := by
  intro es
  induction es with
  | nil => intro t c; rfl
  | cons a as ih =>
      intro t c
      by_cases hp : a.src = fid' ∧ a.tgt = t ∧ a.data.isLacks
      · rw [updateLacks, if_pos hp]
        have hsrc : decide (a.src = f) = false := by
          simp only [decide_eq_false_iff_not]
          rw [hp.1]; exact hne
        simp [List.filter_cons, hsrc]
      · rw [updateLacks, if_neg hp]
        simp [List.filter_cons, ih]

theorem lacksEdgesFrom_lacksStep_other (f fid' : NodeId) (hne : fid' ≠ f)
    (owned : List String) (cap : String) (G : Graph) (req : String) :
    lacksEdgesFrom (lacksStep fid' owned cap G req) f = lacksEdgesFrom G f := by
  rcases lacksStep_shape fid' owned cap G req with ⟨_, he⟩ | ⟨_, _, he⟩ |
    ⟨_, _, _, he⟩ | ⟨_, _, _, he⟩ <;> rw [he]
  · exact filter_updateLacks_other f fid' hne G.edges _ cap
  · unfold lacksEdgesFrom
    rw [List.filter_append]
    have : [newLacksEdge fid' cap req].filter
        (fun e => decide (e.src = f) && e.data.isLacks) = [] := by
      simp [List.filter, newLacksEdge, hne]
    rw [this, List.append_nil]

theorem lacksEdgesFrom_lacksForFacility_other (f fid' : NodeId) (hne : fid' ≠ f)
    (G : Graph) : lacksEdgesFrom (lacksForFacility G fid') f = lacksEdgesFrom G f := by
  unfold lacksForFacility
  suffices keyCap : ∀ (l : List String) (g : Graph),
      lacksEdgesFrom (l.foldl (lacksForCap fid' (facilityEquipment G fid')) g) f =
        lacksEdgesFrom g f by
    exact keyCap (facilityCapabilities G fid') G
  intro l
  induction l with
  | nil => intro g; rfl
  | cons cap rest ihc =>
      intro g
      rw [List.foldl_cons, ihc]
      unfold lacksForCap
      match reqsGet? cap with
      | none => rfl
      | some r =>
          suffices keyReq : ∀ (lr : List String) (g2 : Graph),
              lacksEdgesFrom (lr.foldl (lacksStep fid' (facilityEquipment G fid') cap) g2)
                f = lacksEdgesFrom g2 f by
            exact keyReq r.required g
          intro lr
          induction lr with
          | nil => intro g2; rfl
          | cons req rrest ihr =>
              intro g2
              rw [List.foldl_cons, ihr, lacksEdgesFrom_lacksStep_other f fid' hne]

theorem lacksFold_empty_owned (f : NodeId) (cap : String) :
    ∀ (l : List String) (g : Graph), l.Nodup →
    (∀ x ∈ l, g.hasNode (equipment_id x) = true) →
    (∀ e ∈ g.edges, e.src = f → e.data.isLacks = true → e.tgt ∉ l.map equipment_id) →
    (l.foldl (lacksStep f [] cap) g).edges = g.edges ++ l.map (newLacksEdge f cap) := by
  intro l
  induction l with
  | nil => intro g _ _ _; simp
  | cons req rest ih =>
      intro g hnd hhn hnl
      rw [List.foldl_cons]
      have hstep : lacksStep f [] cap g req =
          { g with edges := g.edges ++ [newLacksEdge f cap req] } := by
        unfold lacksStep
        rw [if_neg (List.not_mem_nil req)]
        dsimp only
        rw [if_neg (by rw [hhn req (List.mem_cons_self req rest)]; simp)]
        have hfind : findLacks g.edges f (equipment_id req) = none := by
          unfold findLacks
          rw [List.find?_eq_none]
          intro e he
          simp only [decide_eq_true_eq, not_and]
          intro h1 h2 h3
          exact absurd (h2 ▸ List.mem_map_of_mem equipment_id
            (List.mem_cons_self req rest) : e.tgt ∈ (req :: rest).map equipment_id)
            (hnl e he h1 h3)
        rw [hfind]
      rw [hstep]
      have hrest := ih { g with edges := g.edges ++ [newLacksEdge f cap req] }
        (List.Nodup.of_cons hnd)
        (fun x hx => by
          have : ({ g with edges := g.edges ++ [newLacksEdge f cap req] } : Graph).hasNode
              (equipment_id x) = g.hasNode (equipment_id x) := rfl
          rw [this]
          exact hhn x (List.mem_cons_of_mem req hx))
        (fun e he h1 h3 => by
          rcases List.mem_append.mp he with hold | hnew
          · intro hmem
            exact hnl e hold h1 h3
              (List.mem_map.mpr (by
                obtain ⟨x, hx, hxe⟩ := List.mem_map.mp hmem
                exact ⟨x, List.mem_cons_of_mem req hx, hxe⟩))
          · have : e = newLacksEdge f cap req := by simpa using hnew
            subst this
            intro hmem
            obtain ⟨x, hx, hxe⟩ := List.mem_map.mp hmem
            have : x = req := by simpa [newLacksEdge, equipment_id] using hxe
            subst this
            exact (List.nodup_cons.mp hnd).1 hx)
      rw [hrest]
      simp [List.append_assoc]

theorem facilityEquipment_eq_nil_of_no_edges (G : Graph) (f : NodeId)
    (h : ∀ e ∈ G.edges, e.src = f → e.data.isHasEquipment = false) :
    facilityEquipment G f = [] := by
  unfold facilityEquipment
  rw [dedupFS_eq_nil_iff, List.filterMap_eq_nil_iff]
  intro e he
  match hp : eqProj f e with
  | none => rfl
  | some k =>
      obtain ⟨h1, h2, _⟩ := (eqProj_eq_some_iff f e k).mp hp
      rw [h e he h1] at h2
      cases h2

theorem lacksEdgesFrom_foldl_other (f : NodeId) :
    ∀ (l : List NodeId) (g : Graph), f ∉ l →
    lacksEdgesFrom (l.foldl lacksForFacility g) f = lacksEdgesFrom g f := by
  intro l
  induction l with
  | nil => intro g _; rfl
  | cons a as ih =>
      intro g hf
      rw [List.foldl_cons, ih _ (fun h => hf (List.mem_cons_of_mem a h)),
        lacksEdgesFrom_lacksForFacility_other f a
          (fun h => hf (h ▸ List.mem_cons_self a as)) g]

theorem lacksEdgesFrom_eq_nil (G : Graph) (f : NodeId)
    (h : ∀ e ∈ G.edges, e.src = f → e.data.isLacks = false) :
    lacksEdgesFrom G f = [] := by
  unfold lacksEdgesFrom
  rw [List.filter_eq_nil_iff]
  intro e he
  simp only [Bool.and_eq_true, decide_eq_true_eq, not_and]
  intro h1 h2
  rw [h e he h1] at h2
  cases h2

/-- C2.  A facility that claims `cesarean_section` (and no other capability)
through `HAS_CAPABILITY` edges, has no `HAS_EQUIPMENT` edge and no
pre-existing `LACKS` edge, and whose graph contains the five Equipment nodes
required by `cesarean_section`, ends up after `add_lacks_edges` with exactly
one `LACKS` edge per required item — `operating_theatre`,
`anesthesia_machine`, `autoclave`, `blood_bank`, `patient_monitor`, each
carrying `required_by = ["cesarean_section"]` — and no other `LACKS`
edge. -/
theorem lacks_correct_for_cesarean (G : Graph) (f : NodeId)
    (hcount : (facilityNodes G).count f = 1)
    (hclaim : facilityCapabilities G f = ["cesarean_section"])
    (hnoeq : ∀ e ∈ G.edges, e.src = f → e.data.isHasEquipment = false)
    (hnolacks : ∀ e ∈ G.edges, e.src = f → e.data.isLacks = false)
    (hnodes : ∀ x ∈ cesareanReqs.required, G.hasNode (equipment_id x) = true) :
    lacksEdgesFrom (add_lacks_edges G) f =
      cesareanReqs.required.map (newLacksEdge f "cesarean_section") := by
  obtain ⟨A, B, hsplit, hfA, hfB⟩ := count_one_split (facilityNodes G) f hcount
  unfold add_lacks_edges
  rw [hsplit, List.foldl_append, List.foldl_cons]
  set g1 := A.foldl lacksForFacility G with hg1
  have hstate1 : SameLacksState g1 G := foldl_state _ lacksForFacility_state A G
  have hlf1 : lacksEdgesFrom g1 f = lacksEdgesFrom G f :=
    lacksEdgesFrom_foldl_other f A G hfA
  have hlacks1 : lacksEdgesFrom g1 f = [] := by
    rw [hlf1]; exact lacksEdgesFrom_eq_nil G f hnolacks
  rw [lacksEdgesFrom_foldl_other f B _ hfB]
  have howned : facilityEquipment g1 f = [] := by
    rw [hstate1.1 f]; exact facilityEquipment_eq_nil_of_no_edges G f hnoeq
  have hclaimed : facilityCapabilities g1 f = ["cesarean_section"] := by
    rw [hstate1.2.1 f]; exact hclaim
  unfold lacksForFacility
  rw [hclaimed, howned, List.foldl_cons, List.foldl_nil]
  unfold lacksForCap
  have hreqs : reqsGet? "cesarean_section" = some cesareanReqs := by decide
  rw [hreqs]
  have hedges := lacksFold_empty_owned f "cesarean_section" cesareanReqs.required g1
    (by decide)
    (fun x hx => by
      have hn : g1.hasNode (equipment_id x) = G.hasNode (equipment_id x) := by
        unfold Graph.hasNode; rw [hstate1.2.2]
      rw [hn]; exact hnodes x hx)
    (fun e he h1 h3 => by
      have hmem : e ∈ lacksEdgesFrom g1 f :=
        List.mem_filter.mpr ⟨he, by simp [h1, h3]⟩
      rw [hlacks1] at hmem
      cases hmem)
  unfold lacksEdgesFrom
  rw [hedges, List.filter_append]
  have hpart1 : (g1.edges.filter fun e => decide (e.src = f) && e.data.isLacks) = [] :=
    hlacks1
  have hpart2 : ((cesareanReqs.required.map (newLacksEdge f "cesarean_section")).filter
      fun e => decide (e.src = f) && e.data.isLacks) =
      cesareanReqs.required.map (newLacksEdge f "cesarean_section") := by
    rw [List.filter_eq_self]
    intro e he
    obtain ⟨x, _, hxe⟩ := List.mem_map.mp he
    subst hxe
    simp [newLacksEdge, EdgeData.isLacks]
  rw [hpart1, hpart2, List.nil_append]

/-- Used by C2's witness: a facility claiming only `cesarean_section` with
no equipment, the five required Equipment nodes present. -/
def lacksWitnessGraph : Graph :=
  { nodes := [(.facility "w2", { node_type := "Facility" }),
              (.capability "cesarean_section", { node_type := "Capability" }),
              (.equipment "operating_theatre", { node_type := "Equipment" }),
              (.equipment "anesthesia_machine", { node_type := "Equipment" }),
              (.equipment "autoclave", { node_type := "Equipment" }),
              (.equipment "blood_bank", { node_type := "Equipment" }),
              (.equipment "patient_monitor", { node_type := "Equipment" })],
    edges := [⟨.facility "w2", .capability "cesarean_section",
               .hasCapability (Rat.divInt 4 5) "c-section" "procedure"⟩] }

/-- Witness for `lacks_correct_for_cesarean`. -/
theorem lacks_correct_for_cesarean_witness :
    (facilityNodes lacksWitnessGraph).count (.facility "w2") = 1 ∧
    lacksEdgesFrom (add_lacks_edges lacksWitnessGraph) (.facility "w2") =
      cesareanReqs.required.map (newLacksEdge (.facility "w2") "cesarean_section") := by
  refine ⟨by decide, ?_⟩
  exact lacks_correct_for_cesarean lacksWitnessGraph (.facility "w2")
    (by decide) (by decide) (by decide) (by decide) (by decide)

/-! ### C4: desert BFS

`bfsLoop` carries fuel to make the recursion structural;
`bfsLoop_fuel_stable` shows any fuel at least `bfsMeasure` gives the same
result, so `findNearestWithService` (which runs at exactly that fuel) is the
unbounded Python `while` loop. -/

theorem sumAdj_le_of_subset (adj : List (String × List String)) :
    ∀ (v v' : List String), (∀ x, x ∈ v → x ∈ v') →
    sumAdj adj v' ≤ sumAdj adj v := by
  induction adj with
  | nil => intro v v' _; exact le_refl 0
  | cons en rest ih =>
      intro v v' hsub
      by_cases hk : en.1 ∈ v'
      · by_cases hk2 : en.1 ∈ v
        · simp only [sumAdj, List.filter_cons, hk, hk2]
          simpa [sumAdj] using ih v v' hsub
        · simp only [sumAdj, List.filter_cons, hk, hk2]
          simp only [not_true_eq_false, not_false_eq_true, decide_True, decide_False,
            Bool.false_eq_true, if_false, if_true, List.map_cons, List.sum_cons]
          have := ih v v' hsub
          simp only [sumAdj] at this
          omega
      · have hk2 : en.1 ∉ v := fun h => hk (hsub en.1 h)
        simp only [sumAdj, List.filter_cons, hk, hk2]
        simp only [not_false_eq_true, decide_True, if_true, List.map_cons, List.sum_cons]
        have := ih v v' hsub
        simp only [sumAdj] at this
        omega

theorem sumAdj_cons_adjGet (adj : List (String × List String)) :
    ∀ (v : List String) (c : String), c ∉ v →
    sumAdj adj (c :: v) + (adjGet adj c).length ≤ sumAdj adj v := by
  induction adj with
  | nil => intro v c _; simp [sumAdj, adjGet]
  | cons en rest ih =>
      intro v c hc
      by_cases hk : en.1 = c
      · have h1 : en.1 ∈ c :: v := by rw [hk]; exact List.mem_cons_self c v
        have h2 : en.1 ∉ v := hk ▸ hc
        simp only [sumAdj, List.filter_cons, h1, h2, adjGet, List.find?_cons]
        have hd : decide (en.1 = c) = true := by simpa using hk
        rw [hd]
        simp only [not_true_eq_false, decide_False, Bool.false_eq_true, if_false,
          not_false_eq_true, decide_True, if_true, List.map_cons, List.sum_cons,
          Option.map_some', Option.getD_some]
        have hmono := sumAdj_le_of_subset rest v (c :: v)
          (fun x hx => List.mem_cons_of_mem c hx)
        simp only [sumAdj] at hmono
        omega
      · have hiff : (en.1 ∈ c :: v) ↔ (en.1 ∈ v) := by
          constructor
          · intro h
            rcases List.mem_cons.mp h with h | h
            · exact absurd h hk
            · exact h
          · exact List.mem_cons_of_mem c
        have hadj : adjGet (en :: rest) c = adjGet rest c := by
          unfold adjGet
          rw [List.find?_cons]
          have hd : decide (en.1 = c) = false := by simpa using hk
          rw [hd]
        rw [hadj]
        by_cases hv : en.1 ∈ v
        · have hcv : en.1 ∈ c :: v := List.mem_cons_of_mem c hv
          simp only [sumAdj, List.filter_cons, hv, hcv]
          have := ih v c hc
          simp only [sumAdj] at this
          simpa [sumAdj] using this
        · have hcv : en.1 ∉ c :: v := fun h => hv (hiff.mp h)
          simp only [sumAdj, List.filter_cons, hv, hcv]
          simp only [not_false_eq_true, decide_True, if_true, List.map_cons,
            List.sum_cons]
          have := ih v c hc
          simp only [sumAdj] at this
          omega

theorem bfsLoop_nil (adj : List (String × List String)) (service : List String) :
    ∀ (fuel : ℕ) (visited : List String),
    bfsLoop adj service fuel visited [] = none := by
  intro fuel
  cases fuel <;> intro visited <;> rfl

theorem bfsLoop_fuel_stable (adj : List (String × List String)) (service : List String) :
    ∀ (f₁ f₂ : ℕ) (visited queue : List String),
    bfsMeasure adj visited queue ≤ f₁ → f₁ ≤ f₂ →
    bfsLoop adj service f₁ visited queue = bfsLoop adj service f₂ visited queue := by
  intro f₁
  induction f₁ with
  | zero =>
      intro f₂ visited queue hm _
      have hq : queue = [] := by
        unfold bfsMeasure at hm
        cases queue with
        | nil => rfl
        | cons c rest => simp at hm
      subst hq
      rw [bfsLoop_nil, bfsLoop_nil]
  | succ f ih =>
      intro f₂ visited queue hm hle
      cases queue with
      | nil => rw [bfsLoop_nil, bfsLoop_nil]
      | cons c rest =>
          match f₂, hle with
          | g + 1, hle =>
              have hfg : f ≤ g := by omega
              show bfsLoop adj service (f + 1) visited (c :: rest) =
                bfsLoop adj service (g + 1) visited (c :: rest)
              rw [bfsLoop, bfsLoop]
              by_cases hv : c ∈ visited
              · rw [if_pos hv, if_pos hv]
                refine ih g visited rest ?_ hfg
                unfold bfsMeasure at hm ⊢
                simp only [List.length_cons] at hm
                omega
              · rw [if_neg hv, if_neg hv]
                dsimp only
                by_cases hs : c ∈ service
                · rw [if_pos hs, if_pos hs]
                · rw [if_neg hs, if_neg hs]
                  refine ih g (c :: visited)
                    (rest ++ (adjGet adj c).filter (· ∉ c :: visited)) ?_ hfg
                  unfold bfsMeasure at hm ⊢
                  simp only [List.length_cons, List.length_append] at hm ⊢
                  have h1 : ((adjGet adj c).filter (· ∉ c :: visited)).length ≤
                      (adjGet adj c).length := List.length_filter_le _ _
                  have h2 := sumAdj_cons_adjGet adj visited c hv
                  omega

/-- The `nearest_region_with_service` attribute of a `DESERT_FOR` edge. -/
def EdgeData.nearestRegion : EdgeData → Option String
  | .desertFor _ _ n _ => n
  | _ => none

theorem foldl_extension_of_step {α : Type} (f : Graph → α → Graph) (P : Edge → Prop)
    (hstep : ∀ g x, ∃ extra, (f g x).edges = g.edges ++ extra ∧ ∀ e ∈ extra, P e) :
    ∀ (l : List α) (g : Graph),
    ∃ extra, (l.foldl f g).edges = g.edges ++ extra ∧ ∀ e ∈ extra, P e := by
  intro l
  induction l with
  | nil => intro g; exact ⟨[], by simp, by simp⟩
  | cons x xs ih =>
      intro g
      obtain ⟨e1, he1, ha1⟩ := hstep g x
      obtain ⟨e2, he2, ha2⟩ := ih (f g x)
      refine ⟨e1 ++ e2, ?_, ?_⟩
      · rw [List.foldl_cons, he2, he1, List.append_assoc]
      · intro e he
        rcases List.mem_append.mp he with h | h
        · exact ha1 e h
        · exact ha2 e h

/-- The example adjacency of the claim: `{A:[B], B:[A,C], C:[B]}`. -/
def abcAdjacency : List (String × List String) :=
  [("A", ["B"]), ("B", ["A", "C"]), ("C", ["B"])]

/-- C4.  Desert nearest-alternative lookup is the breadth-first search of
`_find_nearest_with_service`: (i) every `DESERT_FOR` edge `add_desert_edges`
appends is a `desertEdge`, whose `nearest_region_with_service` is the output
of `findNearestWithService` on the static adjacency map for that region and
the set of regions clearing the coverage threshold; (ii) a region that
itself qualifies is returned directly; (iii) on adjacency
`{A:[B], B:[A,C], C:[B]}` with only `C` qualifying, a desert in `A` reports
`C` (two hops); (iv) with `B` and `C` qualifying it reports the first region
encountered level-by-level, `B`; (v) when the connected component is
exhausted it reports `none`. -/
theorem desert_nearest_is_bfs :
    (∀ (G : Graph) (conf : CountryConfig) (mf : ℕ) (thr : ℚ),
      ∃ extra, (add_desert_edges G conf mf thr).edges = G.edges ++ extra ∧
        ∀ e ∈ extra, ∃ rkey pop spec, e = desertEdge G conf mf thr rkey pop spec ∧
          e.data.nearestRegion =
            findNearestWithService rkey (regionsWithService G thr mf spec)
              conf.REGION_ADJACENCY) ∧
    (∀ (r : String) (service : List String) (adj : List (String × List String)),
      r ∈ service → findNearestWithService r service adj = some r) ∧
    findNearestWithService "A" ["C"] abcAdjacency = some "C" ∧
    findNearestWithService "A" ["B", "C"] abcAdjacency = some "B" ∧
    findNearestWithService "A" ["D"] abcAdjacency = none := by
  refine ⟨?_, ?_, by decide, by decide, by decide⟩
  · intro G conf mf thr
    unfold add_desert_edges
    refine foldl_extension_of_step _ _ ?_ conf.REGION_METADATA G
    intro g entry
    by_cases hn : g.hasNode (region_id entry.1) = false
    · exact ⟨[], by rw [if_pos hn]; simp, by simp⟩
    · rw [if_neg hn]
      refine foldl_extension_of_step _ _ ?_ (allSpecialties G) g
      intro g2 spec
      by_cases h1 : mf ≤ specialtyCount G thr entry.1 spec
      · exact ⟨[], by rw [if_pos h1]; simp, by simp⟩
      · rw [if_neg h1]
        by_cases h2 : g2.hasNode (specialty_id spec) = false
        · exact ⟨[], by rw [if_pos h2]; simp, by simp⟩
        · rw [if_neg h2]
          exact ⟨[desertEdge G conf mf thr entry.1 entry.2.population spec], rfl,
            fun e he => by
              have : e = desertEdge G conf mf thr entry.1 entry.2.population spec := by
                simpa using he
              exact ⟨entry.1, entry.2.population, spec, this, by rw [this]; rfl⟩⟩
  · intro r service adj h
    unfold findNearestWithService
    rw [if_pos h]

/-- Witness for `desert_nearest_is_bfs` (its second conjunct carries the
membership hypothesis). -/
theorem desert_nearest_is_bfs_witness :
    ("A" ∈ ["A", "C"]) ∧
    findNearestWithService "A" ["A", "C"] abcAdjacency = some "A" :=
  ⟨by decide, desert_nearest_is_bfs.2.1 "A" ["A", "C"] abcAdjacency (by decide)⟩

/-! ### C6: search filter conjunction -/

/-- The geospatial filter of `search_facilities_multi` as a pass predicate:
applied only when both `near_lat` and `near_lng` are given; facilities
without coordinates are dropped; with a radius, kept iff the rounded
distance does not exceed it. -/
def geoPass (d : NodeData) (near_lat near_lng radius_km : Option ℚ)
    (dist : ℚ → ℚ → ℚ → ℚ → ℚ) : Bool :=
  match near_lat, near_lng with
  | some la, some ln =>
      (match d.lat, d.lng with
       | some fla, some fln =>
           (match radius_km with
            | some rk => decide (pyRound (dist la ln fla fln) 2 ≤ rk)
            | none => true)
       | _, _ => false)
  | _, _ => true

/-- Whether one graph node enters the result list of
`search_facilities_multi`. -/
def searchPass (G : Graph)
    (capability equipment specialty region facility_type : Option String)
    (min_capacity : Option ℤ) (near_lat near_lng radius_km : Option ℚ)
    (dist : ℚ → ℚ → ℚ → ℚ → ℚ) (p : NodeId × NodeData) : Bool :=
  decide (p.2.node_type = "Facility") &&
  (facility_matches_filters G p.1 p.2 capability equipment specialty region
    facility_type min_capacity).1 &&
  geoPass p.2 near_lat near_lng radius_km dist

/-- The entry `search_facilities_multi` builds for a passing node. -/
def searchEntryOf (G : Graph)
    (capability equipment specialty region facility_type : Option String)
    (min_capacity : Option ℤ) (near_lat near_lng : Option ℚ)
    (dist : ℚ → ℚ → ℚ → ℚ → ℚ) (p : NodeId × NodeData) : SearchEntry :=
  { facility_id := p.1, name := p.2.name, region := p.2.region, city := p.2.city,
    facility_type := p.2.facility_type, capacity := p.2.capacity,
    matched_criteria := (facility_matches_filters G p.1 p.2 capability equipment
      specialty region facility_type min_capacity).2,
    distance_km :=
      match near_lat, near_lng with
      | some la, some ln =>
          (match p.2.lat, p.2.lng with
           | some fla, some fln => some (pyRound (dist la ln fla fln) 2)
           | _, _ => none)
      | _, _ => none }

theorem searchResults_step_shape (G : Graph)
    (capability equipment specialty region facility_type : Option String)
    (min_capacity : Option ℤ) (near_lat near_lng radius_km : Option ℚ)
    (dist : ℚ → ℚ → ℚ → ℚ → ℚ) (acc : List SearchEntry) (p : NodeId × NodeData) :
    searchLoopBody G capability equipment specialty region facility_type
      min_capacity near_lat near_lng radius_km dist acc p =
    acc ++ (if searchPass G capability equipment specialty region facility_type
        min_capacity near_lat near_lng radius_km dist p = true then
      [searchEntryOf G capability equipment specialty region facility_type
        min_capacity near_lat near_lng dist p]
    else []) := by
  unfold searchLoopBody searchPass searchEntryOf geoPass
  by_cases ht : p.2.node_type = "Facility"
  · rw [if_neg (by simpa using ht)]
    dsimp only
    by_cases hm : (facility_matches_filters G p.1 p.2 capability equipment specialty
        region facility_type min_capacity).1
    · rw [if_neg (by simp [hm])]
      match near_lat, near_lng with
      | some la, some ln =>
          match hc : p.2.lat, p.2.lng with
          | some fla, some fln =>
              match radius_km with
              | some rk =>
                  by_cases hr : rk < pyRound (dist la ln fla fln) 2
                  · have hd : decide (pyRound (dist la ln fla fln) 2 ≤ rk) = false := by
                      simp; linarith
                    simp [ht, hm, hr, hd]
                  · have hd : decide (pyRound (dist la ln fla fln) 2 ≤ rk) = true := by
                      simp; linarith [not_lt.mp hr]
                    simp [ht, hm, hr, hd]
              | none => simp [ht, hm]
          | some fla, none => simp [ht, hm]
          | none, some fln => simp [ht, hm]
          | none, none => simp [ht, hm]
      | some la, none => simp [ht, hm]
      | none, some ln => simp [ht, hm]
      | none, none => simp [ht, hm]
    · have hm' : (facility_matches_filters G p.1 p.2 capability equipment specialty
          region facility_type min_capacity).1 = false := by
        simpa using hm
      rw [if_pos hm']
      simp [ht, hm']
  · rw [if_pos (by simpa using ht)]
    simp [ht]

theorem mem_searchResults (G : Graph)
    (capability equipment specialty region facility_type : Option String)
    (min_capacity : Option ℤ) (near_lat near_lng radius_km : Option ℚ)
    (dist : ℚ → ℚ → ℚ → ℚ → ℚ) (en : SearchEntry) :
    en ∈ searchResults G capability equipment specialty region facility_type
      min_capacity near_lat near_lng radius_km dist ↔
    ∃ p ∈ G.nodes, searchPass G capability equipment specialty region facility_type
      min_capacity near_lat near_lng radius_km dist p = true ∧
      en = searchEntryOf G capability equipment specialty region facility_type
        min_capacity near_lat near_lng dist p := by
  unfold searchResults
  suffices key : ∀ (l : List (NodeId × NodeData)) (acc : List SearchEntry),
      en ∈ l.foldl (searchLoopBody G capability equipment specialty region
        facility_type min_capacity near_lat near_lng radius_km dist) acc ↔
      en ∈ acc ∨ ∃ p ∈ l, searchPass G capability equipment specialty region
        facility_type min_capacity near_lat near_lng radius_km dist p = true ∧
        en = searchEntryOf G capability equipment specialty region facility_type
          min_capacity near_lat near_lng dist p by
    rw [key G.nodes []]
    simp
  intro l
  induction l with
  | nil => intro acc; simp
  | cons p ps ih =>
      intro acc
      rw [List.foldl_cons, searchResults_step_shape, ih, List.exists_mem_cons_iff]
      by_cases hp : searchPass G capability equipment specialty region facility_type
          min_capacity near_lat near_lng radius_km dist p = true
      · rw [if_pos hp]
        simp only [List.mem_append, List.mem_singleton, hp, true_and]
        tauto
      · rw [if_neg hp]
        simp only [List.append_nil, hp, false_and]
        tauto

theorem facility_matches_filters_fst (G : Graph) (fid : NodeId) (d : NodeData)
    (capability equipment specialty region facility_type : Option String)
    (min_capacity : Option ℤ) :
    (facility_matches_filters G fid d capability equipment specialty region
      facility_type min_capacity).1 =
    (regionPass d region && facilityTypePass d facility_type &&
     minCapacityPass d min_capacity && capabilityPass G fid capability &&
     equipmentPass G fid equipment && specialtyPass G fid specialty) := by
  unfold facility_matches_filters
  cases h1 : regionPass d region <;>
    cases h2 : facilityTypePass d facility_type <;>
    cases h3 : minCapacityPass d min_capacity <;>
    cases h4 : capabilityPass G fid capability <;>
    cases h5 : equipmentPass G fid equipment <;>
    cases h6 : specialtyPass G fid specialty <;>
    simp [h1, h2, h3, h4, h5, h6]

theorem regionPass_none (d : NodeData) : regionPass d none = true := rfl

theorem facilityTypePass_none (d : NodeData) : facilityTypePass d none = true := rfl

theorem minCapacityPass_none (d : NodeData) : minCapacityPass d none = true := rfl

theorem capabilityPass_none (G : Graph) (fid : NodeId) :
    capabilityPass G fid none = true := rfl

theorem equipmentPass_none (G : Graph) (fid : NodeId) :
    equipmentPass G fid none = true := rfl

theorem specialtyPass_none (G : Graph) (fid : NodeId) :
    specialtyPass G fid none = true := rfl

theorem geoPass_none (d : NodeData) (radius_km : Option ℚ)
    (dist : ℚ → ℚ → ℚ → ℚ → ℚ) : geoPass d none none radius_km dist = true := rfl

/-- The matched facility ids of `search_facilities_multi`, before sorting
and truncation. -/
def searchIds (G : Graph)
    (capability equipment specialty region facility_type : Option String)
    (min_capacity : Option ℤ) (near_lat near_lng radius_km : Option ℚ)
    (dist : ℚ → ℚ → ℚ → ℚ → ℚ) : List NodeId :=
  (searchResults G capability equipment specialty region facility_type
    min_capacity near_lat near_lng radius_km dist).map fun en => en.facility_id

theorem mem_searchIds (G : Graph)
    (capability equipment specialty region facility_type : Option String)
    (min_capacity : Option ℤ) (near_lat near_lng radius_km : Option ℚ)
    (dist : ℚ → ℚ → ℚ → ℚ → ℚ) (x : NodeId) :
    x ∈ searchIds G capability equipment specialty region facility_type
      min_capacity near_lat near_lng radius_km dist ↔
    ∃ p ∈ G.nodes, searchPass G capability equipment specialty region facility_type
      min_capacity near_lat near_lng radius_km dist p = true ∧ x = p.1 := by
  unfold searchIds
  rw [List.mem_map]
  constructor
  · rintro ⟨en, hen, hx⟩
    obtain ⟨p, hp, hpass, heq⟩ := (mem_searchResults G capability equipment specialty
      region facility_type min_capacity near_lat near_lng radius_km dist en).mp hen
    exact ⟨p, hp, hpass, by rw [← hx, heq]; rfl⟩
  · rintro ⟨p, hp, hpass, rfl⟩
    exact ⟨searchEntryOf G capability equipment specialty region facility_type
      min_capacity near_lat near_lng dist p,
      (mem_searchResults G capability equipment specialty region facility_type
        min_capacity near_lat near_lng radius_km dist _).mpr ⟨p, hp, hpass, rfl⟩, rfl⟩

theorem searchPass_mono (G : Graph)
    (capability equipment specialty region facility_type : Option String)
    (min_capacity : Option ℤ) (near_lat near_lng radius_km : Option ℚ)
    (dist : ℚ → ℚ → ℚ → ℚ → ℚ)
    (capability' equipment' specialty' region' facility_type' : Option String)
    (min_capacity' : Option ℤ) (near_lat' near_lng' radius_km' : Option ℚ)
    (hcap : capability' = capability ∨ capability' = none)
    (heq : equipment' = equipment ∨ equipment' = none)
    (hspec : specialty' = specialty ∨ specialty' = none)
    (hreg : region' = region ∨ region' = none)
    (hft : facility_type' = facility_type ∨ facility_type' = none)
    (hmc : min_capacity' = min_capacity ∨ min_capacity' = none)
    (hgeo : (near_lat' = near_lat ∧ near_lng' = near_lng ∧ radius_km' = radius_km) ∨
      (near_lat' = none ∧ near_lng' = none ∧ radius_km' = none))
    (p : NodeId × NodeData)
    (h : searchPass G capability equipment specialty region facility_type
      min_capacity near_lat near_lng radius_km dist p = true) :
    searchPass G capability' equipment' specialty' region' facility_type'
      min_capacity' near_lat' near_lng' radius_km' dist p = true := by
  unfold searchPass at h ⊢
  rw [facility_matches_filters_fst] at h ⊢
  simp only [Bool.and_eq_true] at h ⊢
  obtain ⟨⟨hT, ⟨⟨⟨⟨⟨hR, hF⟩, hM⟩, hC⟩, hE⟩, hS⟩⟩, hG⟩ := h
  refine ⟨⟨hT, ⟨⟨⟨⟨⟨?_, ?_⟩, ?_⟩, ?_⟩, ?_⟩, ?_⟩⟩, ?_⟩
  · rcases hreg with rfl | rfl
    · exact hR
    · exact regionPass_none p.2
  · rcases hft with rfl | rfl
    · exact hF
    · exact facilityTypePass_none p.2
  · rcases hmc with rfl | rfl
    · exact hM
    · exact minCapacityPass_none p.2
  · rcases hcap with rfl | rfl
    · exact hC
    · exact capabilityPass_none G p.1
  · rcases heq with rfl | rfl
    · exact hE
    · exact equipmentPass_none G p.1
  · rcases hspec with rfl | rfl
    · exact hS
    · exact specialtyPass_none G p.1
  · rcases hgeo with ⟨rfl, rfl, rfl⟩ | ⟨rfl, rfl, rfl⟩
    · exact hG
    · exact geoPass_none p.2 none dist

theorem search_returned_subset (G : Graph)
    (capability equipment specialty region facility_type : Option String)
    (min_capacity : Option ℤ) (near_lat near_lng radius_km : Option ℚ)
    (limit : ℕ) (sort_by : String) (dist : ℚ → ℚ → ℚ → ℚ → ℚ) (en : SearchEntry)
    (h : en ∈ (search_facilities_multi G capability equipment specialty region
      facility_type min_capacity near_lat near_lng radius_km limit sort_by dist).2) :
    en ∈ searchResults G capability equipment specialty region facility_type
      min_capacity near_lat near_lng radius_km dist := by
  unfold search_facilities_multi at h
  dsimp only at h
  split_ifs at h <;>
    exact (List.mergeSort_perm _ _).subset (List.take_subset _ _ h)

/-- C6.  (i) Soundness: every facility entry `search_facilities_multi`
returns comes from a facility node that passes each provided filter — the
region, facility-type, minimum-capacity, capability, equipment, specialty
and geospatial predicates of `_facility_matches_filters` all hold for it
(filters left at `None`/empty pass trivially).  (ii) Monotonicity: weakening
any combination of the seven filters (capability, equipment, specialty,
region, facility type, minimum capacity, geospatial
near-point-plus-radius) to "omitted" only ever enlarges the set of matching
facility ids — omitting a filter never narrows the results. -/
theorem search_filter_conjunction :
    (∀ (G : Graph) (capability equipment specialty region facility_type : Option String)
       (min_capacity : Option ℤ) (near_lat near_lng radius_km : Option ℚ)
       (limit : ℕ) (sort_by : String) (dist : ℚ → ℚ → ℚ → ℚ → ℚ),
      ∀ en ∈ (search_facilities_multi G capability equipment specialty region
        facility_type min_capacity near_lat near_lng radius_km limit sort_by dist).2,
      ∃ p ∈ G.nodes, p.1 = en.facility_id ∧ p.2.node_type = "Facility" ∧
        regionPass p.2 region = true ∧ facilityTypePass p.2 facility_type = true ∧
        minCapacityPass p.2 min_capacity = true ∧
        capabilityPass G p.1 capability = true ∧
        equipmentPass G p.1 equipment = true ∧
        specialtyPass G p.1 specialty = true ∧
        geoPass p.2 near_lat near_lng radius_km dist = true) ∧
    (∀ (G : Graph) (capability equipment specialty region facility_type : Option String)
       (min_capacity : Option ℤ) (near_lat near_lng radius_km : Option ℚ)
       (dist : ℚ → ℚ → ℚ → ℚ → ℚ)
       (capability' equipment' specialty' region' facility_type' : Option String)
       (min_capacity' : Option ℤ) (near_lat' near_lng' radius_km' : Option ℚ),
      (capability' = capability ∨ capability' = none) →
      (equipment' = equipment ∨ equipment' = none) →
      (specialty' = specialty ∨ specialty' = none) →
      (region' = region ∨ region' = none) →
      (facility_type' = facility_type ∨ facility_type' = none) →
      (min_capacity' = min_capacity ∨ min_capacity' = none) →
      ((near_lat' = near_lat ∧ near_lng' = near_lng ∧ radius_km' = radius_km) ∨
        (near_lat' = none ∧ near_lng' = none ∧ radius_km' = none)) →
      searchIds G capability equipment specialty region facility_type
        min_capacity near_lat near_lng radius_km dist ⊆
      searchIds G capability' equipment' specialty' region' facility_type'
        min_capacity' near_lat' near_lng' radius_km' dist) := by
  constructor
  · intro G capability equipment specialty region facility_type min_capacity
      near_lat near_lng radius_km limit sort_by dist en hen
    have hres := search_returned_subset G capability equipment specialty region
      facility_type min_capacity near_lat near_lng radius_km limit sort_by dist en hen
    obtain ⟨p, hp, hpass, heq⟩ := (mem_searchResults G capability equipment specialty
      region facility_type min_capacity near_lat near_lng radius_km dist en).mp hres
    unfold searchPass at hpass
    rw [facility_matches_filters_fst] at hpass
    simp only [Bool.and_eq_true, decide_eq_true_eq] at hpass
    obtain ⟨⟨hT, ⟨⟨⟨⟨⟨hR, hF⟩, hM⟩, hC⟩, hE⟩, hS⟩⟩, hG⟩ := hpass
    exact ⟨p, hp, by rw [heq]; rfl, hT, hR, hF, hM, hC, hE, hS, hG⟩
  · intro G capability equipment specialty region facility_type min_capacity
      near_lat near_lng radius_km dist capability' equipment' specialty' region'
      facility_type' min_capacity' near_lat' near_lng' radius_km'
      hcap heq hspec hreg hft hmc hgeo x hx
    rw [mem_searchIds] at hx ⊢
    obtain ⟨p, hp, hpass, rfl⟩ := hx
    exact ⟨p, hp, searchPass_mono G capability equipment specialty region facility_type
      min_capacity near_lat near_lng radius_km dist capability' equipment' specialty'
      region' facility_type' min_capacity' near_lat' near_lng' radius_km'
      hcap heq hspec hreg hft hmc hgeo p hpass, rfl⟩

/-- Used by C6's witness: one facility in region `northern` claiming
`dialysis`. -/
def searchWitnessGraph : Graph :=
  { nodes := [(.facility "s1",
      { node_type := "Facility", name := some "Tamale Clinic", region := some "northern" })],
    edges := [⟨.facility "s1", .capability "dialysis",
      .hasCapability (Rat.divInt 4 5) "dialysis" "capability"⟩] }

/-- The entry the witness search returns. -/
def searchWitnessEntry : SearchEntry :=
  { facility_id := .facility "s1", name := some "Tamale Clinic",
    region := some "northern", city := none, facility_type := none, capacity := none,
    matched_criteria := ["region=northern", "capability=dialysis"],
    distance_km := none }

/-- Witness for `search_filter_conjunction`: searching
`region="northern", capability="dialysis"` returns the facility satisfying
both, and its node passes each filter predicate. -/
theorem search_filter_conjunction_witness :
    ∃ p ∈ searchWitnessGraph.nodes, p.1 = searchWitnessEntry.facility_id ∧
      p.2.node_type = "Facility" ∧
      regionPass p.2 (some "northern") = true ∧
      facilityTypePass p.2 none = true ∧
      minCapacityPass p.2 none = true ∧
      capabilityPass searchWitnessGraph p.1 (some "dialysis") = true ∧
      equipmentPass searchWitnessGraph p.1 none = true ∧
      specialtyPass searchWitnessGraph p.1 none = true ∧
      geoPass p.2 none none none (fun _ _ _ _ => 0) = true := by
  refine search_filter_conjunction.1 searchWitnessGraph (some "dialysis") none none
    (some "northern") none none none none none 25 "relevance" (fun _ _ _ _ => 0)
    searchWitnessEntry ?_
  have hres : searchResults searchWitnessGraph (some "dialysis") none none
      (some "northern") none none none none none (fun _ _ _ _ => 0) =
      [searchWitnessEntry] := by decide
  unfold search_facilities_multi
  rw [hres]
  simp

/-! ### Edge-target existence (C8) -/

/-- Recognizer for `DESERT_FOR` edge payloads. -/
def EdgeData.isDesertFor : EdgeData → Bool
  | .desertFor _ _ _ _ => true
  | _ => false

theorem hasNode_eq_of_nodes_eq {g G : Graph} (h : g.nodes = G.nodes) (n : NodeId) :
    g.hasNode n = G.hasNode n := by
  unfold Graph.hasNode
  rw [h]

theorem hasNode_of_nodes_append {g g' : Graph} {l : List (NodeId × NodeData)}
    (h : g'.nodes = g.nodes ++ l) {n : NodeId} (hn : g.hasNode n = true) :
    g'.hasNode n = true := by
  unfold Graph.hasNode at hn ⊢
  rw [h, List.any_append, hn, Bool.true_or]

/-- When both endpoints already exist, `networkx` `add_edge` is a plain
append of the edge instance. -/
theorem addEdge_of_hasNode (G : Graph) (u v : NodeId) (d : EdgeData)
    (hu : G.hasNode u = true) (hv : G.hasNode v = true) :
    G.addEdge u v d = { nodes := G.nodes, edges := G.edges ++ [⟨u, v, d⟩] } := by
  unfold Graph.addEdge
  dsimp only
  rw [if_pos hu]
  rw [if_pos (show Graph.hasNode { nodes := G.nodes, edges := G.edges } v = true from hv)]

theorem addNode_of_not_hasNode (G : Graph) (n : NodeId) (d : NodeData)
    (h : G.hasNode n = false) :
    G.addNode n d = { nodes := G.nodes ++ [(n, d)], edges := G.edges } := by
  unfold Graph.addNode
  rw [if_neg (by rw [h]; exact Bool.false_ne_true)]

theorem isLacks_appendRequiredBy (d : EdgeData) (c : String) :
    (d.appendRequiredBy c).isLacks = d.isLacks := by
  cases d <;> rfl

/-- `updateLacks` rewrites edge payloads in place: every output edge keeps
the endpoints (and `LACKS`-ness) of an input edge. -/
theorem mem_updateLacks (f t : NodeId) (c : String) :
    ∀ (es : List Edge), ∀ e' ∈ updateLacks es f t c,
      ∃ e ∈ es, e'.src = e.src ∧ e'.tgt = e.tgt ∧ e'.data.isLacks = e.data.isLacks := by
  intro es
  induction es with
  | nil => intro e' h; cases h
  | cons e es ih =>
      intro e' h
      simp only [updateLacks] at h
      by_cases hc : e.src = f ∧ e.tgt = t ∧ e.data.isLacks = true
      · rw [if_pos hc] at h
        rcases List.mem_cons.mp h with rfl | hmem
        · exact ⟨e, List.mem_cons_self e es, rfl, rfl, isLacks_appendRequiredBy e.data c⟩
        · exact ⟨e', List.mem_cons_of_mem e hmem, rfl, rfl, rfl⟩
      · rw [if_neg hc] at h
        rcases List.mem_cons.mp h with hm | hmem
        · exact ⟨e', by rw [hm]; exact List.mem_cons_self e es, rfl, rfl, rfl⟩
        · obtain ⟨e₀, he₀, h1, h2, h3⟩ := ih e' hmem
          exact ⟨e₀, List.mem_cons_of_mem e he₀, h1, h2, h3⟩

/-- Invariant threaded through the LACKS pass: nodes are untouched, and
every edge either keeps the endpoints of an original edge or is a `LACKS`
edge whose equipment target already existed in the input graph. -/
def LacksTargOk (G g : Graph) : Prop :=
  g.nodes = G.nodes ∧
  ∀ e ∈ g.edges, (∃ e₀ ∈ G.edges, e.src = e₀.src ∧ e.tgt = e₀.tgt) ∨
    (e.data.isLacks = true ∧ G.hasNode e.tgt = true ∧ ∃ k, e.tgt = equipment_id k)

theorem lacksStep_targOk (G : Graph) (fid : NodeId) (owned : List String)
    (cap : String) (g : Graph) (req : String) (h : LacksTargOk G g) :
    LacksTargOk G (lacksStep fid owned cap g req) := by
  obtain ⟨hn, he⟩ := h
  refine ⟨(lacksStep_nodes fid owned cap g req).trans hn, ?_⟩
  unfold lacksStep
  dsimp only
  by_cases h1 : req ∈ owned
  · rw [if_pos h1]; exact he
  rw [if_neg h1]
  by_cases h2 : g.hasNode (equipment_id req) = false
  · rw [if_pos h2]; exact he
  rw [if_neg h2]
  match hfnd : findLacks g.edges fid (equipment_id req) with
  | some e0 =>
      intro e' hmem
      have hmem' : e' ∈ updateLacks g.edges fid (equipment_id req) cap := hmem
      obtain ⟨e, hme, ha, hb, hl⟩ :=
        mem_updateLacks fid (equipment_id req) cap g.edges e' hmem'
      rcases he e hme with ⟨e₀, he₀, hsa, hsb⟩ | ⟨hlk, hhn, k, hk⟩
      · exact Or.inl ⟨e₀, he₀, ha.trans hsa, hb.trans hsb⟩
      · refine Or.inr ⟨hl.trans hlk, ?_, k, hb.trans hk⟩
        rw [hb]
        exact hhn
  | none =>
      intro e' hmem
      have hmem' : e' ∈ g.edges ++ [newLacksEdge fid cap req] := hmem
      rcases List.mem_append.mp hmem' with hin | hin
      · exact he e' hin
      · rcases List.mem_singleton.mp hin with rfl
        refine Or.inr ⟨rfl, ?_, req, rfl⟩
        show G.hasNode (equipment_id req) = true
        rw [← hasNode_eq_of_nodes_eq hn (equipment_id req)]
        cases hgg : g.hasNode (equipment_id req)
        · exact absurd hgg h2
        · rfl

theorem add_lacks_targOk (G : Graph) : LacksTargOk G (add_lacks_edges G) := by
  unfold add_lacks_edges
  refine foldl_graph_preserves (LacksTargOk G) lacksForFacility ?_ (facilityNodes G) G
    ⟨rfl, fun e he => Or.inl ⟨e, he, rfl, rfl⟩⟩
  intro g fid hg
  unfold lacksForFacility
  dsimp only
  refine foldl_graph_preserves (LacksTargOk G) _ ?_ (facilityCapabilities g fid) g hg
  intro g2 cap hg2
  unfold lacksForCap
  match reqsGet? cap with
  | none => exact hg2
  | some r =>
      exact foldl_graph_preserves (LacksTargOk G) _
        (fun g3 req hg3 => lacksStep_targOk G fid _ cap g3 req hg3) r.required g2 hg2

/-- Invariant threaded through the COULD_SUPPORT pass. -/
def CouldTargOk (G g : Graph) : Prop :=
  g.nodes = G.nodes ∧
  ∀ e ∈ g.edges, e ∈ G.edges ∨
    (e.data.isCouldSupport = true ∧ G.hasNode e.tgt = true ∧ ∃ k, e.tgt = capability_id k)

theorem couldStep_targOk (G : Graph) (μ : ℚ) (fid : NodeId) (o c : List String)
    (g : Graph) (en : String × Reqs) (h : CouldTargOk G g) :
    CouldTargOk G (couldStep μ fid o c g en) := by
  obtain ⟨hn, he⟩ := h
  refine ⟨(couldStep_nodes μ fid o c g en).trans hn, ?_⟩
  rw [couldStep_characterization]
  by_cases hcond : couldCond μ o c (g.hasNode (capability_id en.1)) en
  · rw [if_pos hcond]
    intro e' hmem
    rcases List.mem_append.mp hmem with hmem | hmem
    · exact he e' hmem
    · rcases List.mem_singleton.mp hmem with rfl
      refine Or.inr ⟨rfl, ?_, en.1, rfl⟩
      show G.hasNode (capability_id en.1) = true
      rw [← hasNode_eq_of_nodes_eq hn (capability_id en.1)]
      exact hcond.2.2.2
  · rw [if_neg hcond]
    exact he

theorem add_could_support_targOk (G : Graph) (μ : ℚ) :
    CouldTargOk G (add_could_support_edges G μ) := by
  unfold add_could_support_edges
  refine foldl_graph_preserves (CouldTargOk G) (couldForFacility μ) ?_ (facilityNodes G) G
    ⟨rfl, fun e he => Or.inl he⟩
  intro g fid hg
  unfold couldForFacility
  dsimp only
  by_cases ho : facilityEquipment g fid = []
  · rw [if_pos ho]; exact hg
  · rw [if_neg ho]
    exact foldl_graph_preserves (CouldTargOk G) _
      (fun g2 en hg2 => couldStep_targOk G μ fid _ _ g2 en hg2)
      CAPABILITY_REQUIREMENTS g hg

/-- Invariant threaded through the desert pass. -/
def DesertTargOk (G g : Graph) : Prop :=
  g.nodes = G.nodes ∧
  ∀ e ∈ g.edges, e ∈ G.edges ∨
    (e.data.isDesertFor = true ∧ G.hasNode e.tgt = true ∧ ∃ k, e.tgt = specialty_id k)

theorem add_desert_targOk (G : Graph) (conf : CountryConfig) (mf : ℕ) (thr : ℚ) :
    DesertTargOk G (add_desert_edges G conf mf thr) := by
  unfold add_desert_edges
  refine foldl_graph_preserves (DesertTargOk G) _ ?_ conf.REGION_METADATA G
    ⟨rfl, fun e he => Or.inl he⟩
  intro g entry hg
  by_cases h1 : g.hasNode (region_id entry.1) = false
  · rw [if_pos h1]; exact hg
  rw [if_neg h1]
  refine foldl_graph_preserves (DesertTargOk G) _ ?_ (allSpecialties G) g hg
  intro g2 spec hg2
  obtain ⟨hn2, he2⟩ := hg2
  by_cases h2 : mf ≤ specialtyCount G thr entry.1 spec
  · rw [if_pos h2]; exact ⟨hn2, he2⟩
  rw [if_neg h2]
  by_cases h3 : g2.hasNode (specialty_id spec) = false
  · rw [if_pos h3]; exact ⟨hn2, he2⟩
  rw [if_neg h3]
  refine ⟨hn2, ?_⟩
  intro e' hmem
  rcases List.mem_append.mp hmem with hmem | hmem
  · exact he2 e' hmem
  · rcases List.mem_singleton.mp hmem with rfl
    refine Or.inr ⟨rfl, ?_, spec, rfl⟩
    show G.hasNode (specialty_id spec) = true
    rw [← hasNode_eq_of_nodes_eq hn2 (specialty_id spec)]
    cases hgg : g2.hasNode (specialty_id spec)
    · exact absurd hgg h3
    · rfl

/-- Invariant through the `HAS_SPECIALTY` block of `_add_facility`: the
source facility stays a node, every node the block adds is an explicitly
typed Specialty node, and every edge it adds links to a Specialty id that is
a node of the current graph. -/
def SpecialtyTargOk (G : Graph) (fid : NodeId) (g : Graph) : Prop :=
  g.hasNode fid = true ∧
  (∃ ns, g.nodes = G.nodes ++ ns ∧ ∀ p ∈ ns, ∃ s, p.1 = specialty_id s ∧
    p.2 = { node_type := "Specialty", display_name := some s }) ∧
  ∀ e ∈ g.edges, e ∈ G.edges ∨ ∃ s,
    e = ⟨fid, specialty_id s, .hasSpecialty "structured" (Rat.divInt 9 10)⟩ ∧
    g.hasNode (specialty_id s) = true

theorem addSpecialtyEdges_targOk (G : Graph) (fid : NodeId) (specs : List String)
    (hfid : G.hasNode fid = true) :
    SpecialtyTargOk G fid (addSpecialtyEdges G fid specs) := by
  unfold addSpecialtyEdges
  refine foldl_graph_preserves (SpecialtyTargOk G fid) _ ?_ specs G
    ⟨hfid, ⟨[], (List.append_nil _).symm, fun p hp => absurd hp (List.not_mem_nil p)⟩,
     fun e he => Or.inl he⟩
  intro g spec hg
  obtain ⟨hf, ⟨ns, hns, hty⟩, hed⟩ := hg
  dsimp only
  by_cases hs : spec = ""
  · rw [if_pos hs]; exact ⟨hf, ⟨ns, hns, hty⟩, hed⟩
  rw [if_neg hs]
  by_cases hnode : g.hasNode (specialty_id spec) = false
  · rw [if_pos hnode]
    rw [addNode_of_not_hasNode g (specialty_id spec) _ hnode]
    have hu : Graph.hasNode
        { nodes := g.nodes ++
            [(specialty_id spec, { node_type := "Specialty", display_name := some spec })],
          edges := g.edges } fid = true :=
      hasNode_of_nodes_append rfl hf
    have hv : Graph.hasNode
        { nodes := g.nodes ++
            [(specialty_id spec, { node_type := "Specialty", display_name := some spec })],
          edges := g.edges } (specialty_id spec) = true := by
      unfold Graph.hasNode
      dsimp only
      rw [List.any_append]
      simp
    rw [addEdge_of_hasNode _ _ _ _ hu hv]
    refine ⟨hu, ⟨ns ++
      [(specialty_id spec, { node_type := "Specialty", display_name := some spec })],
      ?_, ?_⟩, ?_⟩
    · dsimp only
      rw [hns, List.append_assoc]
    · intro p hp
      rcases List.mem_append.mp hp with hp | hp
      · exact hty p hp
      · rcases List.mem_singleton.mp hp with rfl
        exact ⟨spec, rfl, rfl⟩
    · intro e' hmem
      rcases List.mem_append.mp hmem with hmem | hmem
      · rcases hed e' hmem with hin | ⟨s, hse, hsn⟩
        · exact Or.inl hin
        · exact Or.inr ⟨s, hse, hasNode_of_nodes_append rfl hsn⟩
      · rcases List.mem_singleton.mp hmem with rfl
        exact Or.inr ⟨spec, rfl, hv⟩
  · rw [if_neg hnode]
    have hvg : g.hasNode (specialty_id spec) = true := by
      cases hgg : g.hasNode (specialty_id spec)
      · exact absurd hgg hnode
      · rfl
    rw [addEdge_of_hasNode g _ _ _ hf hvg]
    refine ⟨hf, ⟨ns, hns, hty⟩, ?_⟩
    intro e' hmem
    rcases List.mem_append.mp hmem with hmem | hmem
    · rcases hed e' hmem with hin | ⟨s, hse, hsn⟩
      · exact Or.inl hin
      · exact Or.inr ⟨s, hse, hsn⟩
    · rcases List.mem_singleton.mp hmem with rfl
      exact Or.inr ⟨spec, rfl, hvg⟩

/-- C8.  Edge targets exist before the edge is added.  (i) The
`HAS_SPECIALTY` block of `_add_facility` creates each Specialty node on
first sight before linking it: starting from a graph containing the
facility, every node the block adds is an explicitly typed Specialty node
and every edge it adds points at a Specialty id present in the resulting
graph.  (ii) `add_lacks_edges` adds no node, and every edge of its output
either keeps the endpoints of an input edge or is a `LACKS` edge whose
Equipment target was already a node of the input graph.  (iii)
`add_could_support_edges` adds no node, and every new edge is a
`COULD_SUPPORT` edge whose Capability target was already a node.  (iv)
`add_desert_edges` adds no node, and every new edge is a `DESERT_FOR` edge
whose Specialty target was already a node. -/
theorem edge_targets_preexist :
    (∀ (G : Graph) (fid : NodeId) (specs : List String), G.hasNode fid = true →
      (∃ ns, (addSpecialtyEdges G fid specs).nodes = G.nodes ++ ns ∧
        ∀ p ∈ ns, ∃ s, p.1 = specialty_id s ∧
          p.2 = { node_type := "Specialty", display_name := some s }) ∧
      ∀ e ∈ (addSpecialtyEdges G fid specs).edges, e ∈ G.edges ∨ ∃ s,
        e = ⟨fid, specialty_id s, .hasSpecialty "structured" (Rat.divInt 9 10)⟩ ∧
        (addSpecialtyEdges G fid specs).hasNode (specialty_id s) = true) ∧
    (∀ G : Graph, (add_lacks_edges G).nodes = G.nodes ∧
      ∀ e ∈ (add_lacks_edges G).edges,
        (∃ e₀ ∈ G.edges, e.src = e₀.src ∧ e.tgt = e₀.tgt) ∨
        (e.data.isLacks = true ∧ G.hasNode e.tgt = true ∧ ∃ k, e.tgt = equipment_id k)) ∧
    (∀ (G : Graph) (μ : ℚ), (add_could_support_edges G μ).nodes = G.nodes ∧
      ∀ e ∈ (add_could_support_edges G μ).edges, e ∈ G.edges ∨
        (e.data.isCouldSupport = true ∧ G.hasNode e.tgt = true ∧
          ∃ k, e.tgt = capability_id k)) ∧
    (∀ (G : Graph) (conf : CountryConfig) (mf : ℕ) (thr : ℚ),
      (add_desert_edges G conf mf thr).nodes = G.nodes ∧
      ∀ e ∈ (add_desert_edges G conf mf thr).edges, e ∈ G.edges ∨
        (e.data.isDesertFor = true ∧ G.hasNode e.tgt = true ∧
          ∃ k, e.tgt = specialty_id k)) := by
  refine ⟨?_, ?_, ?_, ?_⟩
  · intro G fid specs hfid
    obtain ⟨_, hnodes, hedges⟩ := addSpecialtyEdges_targOk G fid specs hfid
    exact ⟨hnodes, hedges⟩
  · intro G
    exact add_lacks_targOk G
  · intro G μ
    exact add_could_support_targOk G μ
  · intro G conf mf thr
    exact add_desert_targOk G conf mf thr

/-- Used by C8's witness: a lone facility node about to receive a
specialty. -/
def specialtyWitnessGraph : Graph :=
  { nodes := [(.facility "w8", { node_type := "Facility" })], edges := [] }

/-- Witness for `edge_targets_preexist`: linking specialty `cardiology` to
the lone facility creates a typed Specialty node first and the resulting
`HAS_SPECIALTY` edge points at an existing node. -/
theorem edge_targets_preexist_witness :
    (∃ ns, (addSpecialtyEdges specialtyWitnessGraph (facility_id "w8")
        ["cardiology"]).nodes = specialtyWitnessGraph.nodes ++ ns ∧
      ∀ p ∈ ns, ∃ s, p.1 = specialty_id s ∧
        p.2 = { node_type := "Specialty", display_name := some s }) ∧
    ∀ e ∈ (addSpecialtyEdges specialtyWitnessGraph (facility_id "w8")
        ["cardiology"]).edges, e ∈ specialtyWitnessGraph.edges ∨ ∃ s,
      e = ⟨facility_id "w8", specialty_id s, .hasSpecialty "structured" (Rat.divInt 9 10)⟩ ∧
      (addSpecialtyEdges specialtyWitnessGraph (facility_id "w8")
        ["cardiology"]).hasNode (specialty_id s) = true :=
  edge_targets_preexist.1 specialtyWitnessGraph (facility_id "w8") ["cardiology"] (by decide)

/-! ### Ingestion error recovery (C9) -/

/-- Whether a JSON value is a list. -/
def Json.isArr : Json → Bool
  | .arr _ => true
  | _ => false

theorem parseJsonList_of_no_parse (v : String) : parseJsonList v none = [] := by
  unfold parseJsonList
  split_ifs <;> rfl

theorem parseJsonList_of_non_list (v : String) (j : Json) (h : j.isArr = false) :
    parseJsonList v (some j) = [] := by
  unfold parseJsonList
  split_ifs with hv
  · rfl
  · cases j with
    | arr items => exact absurd h (by simp [Json.isArr])
    | null => rfl
    | bool b => rfl
    | num q => rfl
    | str s => rfl
    | obj fs => rfl

theorem normalizeRegionOf_unmapped (conf : CountryConfig) (rr rc : Option String)
    (h1 : ∀ s, rr = some s →
      tblGet conf.REGION_NORMALIZATION (pyStrip (pyLower s)) = none)
    (h2 : ∀ c, rc = some c →
      tblGet conf.CITY_TO_REGION (pyStrip (pyLower c)) = none) :
    normalizeRegionOf conf rr rc = none := by
  unfold normalizeRegionOf
  rcases rr with _ | s <;> rcases rc with _ | c <;> dsimp only
  · split_ifs <;> rfl
  · split_ifs with hT hc
    · rfl
    · exact h2 c rfl
    · rfl
  · have hn1 : (if s ≠ "" then
        tblGet conf.REGION_NORMALIZATION (pyStrip (pyLower s)) else none) = none := by
      split_ifs with hs
      · exact h1 s rfl
      · rfl
    rw [hn1]
    split_ifs <;> rfl
  · have hn1 : (if s ≠ "" then
        tblGet conf.REGION_NORMALIZATION (pyStrip (pyLower s)) else none) = none := by
      split_ifs with hs
      · exact h1 s rfl
      · rfl
    rw [hn1]
    split_ifs with hT hc
    · rfl
    · exact h2 c rfl
    · rfl

theorem dedup_keeps_truthy (rows : List Row) (r : Row) (pk : String)
    (hr : r ∈ rows) (hpk : truthyPk r = some pk) :
    ∃ er ∈ deduplicate_rows rows, er.1.pk_unique_id = some pk := by
  have hmemf : pk ∈ rows.filterMap truthyPk := List.mem_filterMap.mpr ⟨r, hr, hpk⟩
  have hpkmem : pk ∈ pkKeys (rows.foldl dedupStep []) := by
    rw [dedup_fold_keys rows []]
    simp only [pkKeys, List.map_nil, List.nil_append]
    exact (mem_dedupFS (rows.filterMap truthyPk) pk).mpr hmemf
  obtain ⟨p, hp, hp1⟩ := List.mem_map.mp hpkmem
  have hent := dedup_fold_entry_pk rows [] (by simp) p hp
  refine ⟨(p.2.1, p.2.2.length), ?_, ?_⟩
  · unfold deduplicate_rows
    exact List.mem_map.mpr ⟨p, hp, rfl⟩
  · rw [hent, hp1]

theorem hasNode_addEdge_mono (g : Graph) (u v : NodeId) (d : EdgeData) (n : NodeId)
    (h : g.hasNode n = true) : (g.addEdge u v d).hasNode n = true := by
  unfold Graph.hasNode at h
  unfold Graph.addEdge Graph.hasNode
  dsimp only
  split_ifs <;> simp_all [List.any_append]

theorem hasNode_addNode_mono (g : Graph) (m : NodeId) (d : NodeData) (n : NodeId)
    (h : g.hasNode n = true) : (g.addNode m d).hasNode n = true := by
  unfold Graph.addNode
  split_ifs with hm
  · unfold Graph.hasNode at h ⊢
    dsimp only
    simp only [List.any_eq_true, decide_eq_true_eq] at h ⊢
    obtain ⟨p, hp, hpn⟩ := h
    by_cases hpm : p.1 = m
    · refine ⟨(m, d), List.mem_map.mpr ⟨p, hp, by rw [if_pos hpm]⟩, ?_⟩
      rw [← hpm]
      exact hpn
    · exact ⟨p, List.mem_map.mpr ⟨p, hp, by rw [if_neg hpm]⟩, hpn⟩
  · unfold Graph.hasNode at h ⊢
    dsimp only
    rw [List.any_append, h, Bool.true_or]

theorem hasNode_addNode_self (g : Graph) (m : NodeId) (d : NodeData) :
    (g.addNode m d).hasNode m = true := by
  by_cases hm : g.hasNode m = true
  · exact hasNode_addNode_mono g m d m hm
  · unfold Graph.addNode
    rw [if_neg hm]
    unfold Graph.hasNode
    dsimp only
    rw [List.any_append]
    simp

theorem hasNode_addSpecialtyEdges_mono (G : Graph) (fid : NodeId)
    (specs : List String) (n : NodeId) (h : G.hasNode n = true) :
    (addSpecialtyEdges G fid specs).hasNode n = true := by
  unfold addSpecialtyEdges
  refine foldl_graph_preserves (fun g => g.hasNode n = true) _ ?_ specs G h
  intro g spec hg
  dsimp only
  by_cases hs : spec = ""
  · rw [if_pos hs]; exact hg
  · rw [if_neg hs]
    refine hasNode_addEdge_mono _ _ _ _ n ?_
    by_cases hnode : g.hasNode (specialty_id spec) = false
    · rw [if_pos hnode]; exact hasNode_addNode_mono _ _ _ n hg
    · rw [if_neg hnode]; exact hg

theorem hasNode_addEquipmentEdges_mono (N : Normalizers) (G : Graph) (fid : NodeId)
    (raw : List String) (n : NodeId) (h : G.hasNode n = true) :
    (addEquipmentEdges N G fid raw).hasNode n = true := by
  unfold addEquipmentEdges
  split_ifs with hr
  · exact h
  · exact foldl_graph_preserves (fun g => g.hasNode n = true) _
      (fun g m hg => hasNode_addEdge_mono g _ _ _ n hg) _ G h

theorem hasNode_addTextEquipmentEdges_mono (N : Normalizers) (G : Graph)
    (fid : NodeId) (caps : List String) (desc : Option String) (n : NodeId)
    (h : G.hasNode n = true) :
    (addTextEquipmentEdges N G fid caps desc).hasNode n = true := by
  unfold addTextEquipmentEdges
  dsimp only
  split_ifs with hs
  · exact h
  · refine foldl_graph_preserves (fun g => g.hasNode n = true) _ ?_ _ G h
    intro g m hg
    by_cases hmem : equipment_id m.1 ∈ textPassExistingKeys g fid
    · rw [if_pos hmem]; exact hg
    · rw [if_neg hmem]; exact hasNode_addEdge_mono g _ _ _ n hg

theorem hasNode_addCapabilityEdges_mono (N : Normalizers) (G : Graph) (fid : NodeId)
    (texts : List String) (sf : String) (disc : Option ℚ) (n : NodeId)
    (h : G.hasNode n = true) :
    (addCapabilityEdges N G fid texts sf disc).hasNode n = true := by
  unfold addCapabilityEdges
  split_ifs with ht
  · exact h
  · exact foldl_graph_preserves (fun g => g.hasNode n = true) _
      (fun g m hg => hasNode_addEdge_mono g _ _ _ n hg) _ G h

theorem add_facility_mono (N : Normalizers) (G : Graph) (er : Row × ℕ) (n : NodeId)
    (h : G.hasNode n = true) : (add_facility N G er).hasNode n = true := by
  unfold add_facility
  dsimp only
  have hregion : (match er.1.normalized_region with
      | some reg =>
          if reg ≠ "" ∧ (G.addNode (facility_id (er.1.pk_unique_id.getD ""))
              { node_type := "Facility", name := er.1.name,
                facility_type := er.1.facilityTypeId, capacity := er.1.capacity,
                city := er.1.address_city,
                region := er.1.normalized_region }).hasNode (region_id reg) then
            (G.addNode (facility_id (er.1.pk_unique_id.getD ""))
              { node_type := "Facility", name := er.1.name,
                facility_type := er.1.facilityTypeId, capacity := er.1.capacity,
                city := er.1.address_city,
                region := er.1.normalized_region }).addEdge
              (facility_id (er.1.pk_unique_id.getD "")) (region_id reg)
              (.locatedIn er.1.address_city)
          else G.addNode (facility_id (er.1.pk_unique_id.getD ""))
              { node_type := "Facility", name := er.1.name,
                facility_type := er.1.facilityTypeId, capacity := er.1.capacity,
                city := er.1.address_city, region := er.1.normalized_region }
      | none => G.addNode (facility_id (er.1.pk_unique_id.getD ""))
          { node_type := "Facility", name := er.1.name,
            facility_type := er.1.facilityTypeId, capacity := er.1.capacity,
            city := er.1.address_city,
            region := er.1.normalized_region }).hasNode n = true := by
    split
    · split_ifs with hcond
      · exact hasNode_addEdge_mono _ _ _ _ n (hasNode_addNode_mono _ _ _ n h)
      · exact hasNode_addNode_mono _ _ _ n h
    · exact hasNode_addNode_mono _ _ _ n h
  split
  · split_ifs with hd
    · apply hasNode_addCapabilityEdges_mono
      apply hasNode_addCapabilityEdges_mono
      apply hasNode_addCapabilityEdges_mono
      apply hasNode_addTextEquipmentEdges_mono
      apply hasNode_addEquipmentEdges_mono
      apply hasNode_addSpecialtyEdges_mono
      exact hregion
    · apply hasNode_addCapabilityEdges_mono
      apply hasNode_addCapabilityEdges_mono
      apply hasNode_addTextEquipmentEdges_mono
      apply hasNode_addEquipmentEdges_mono
      apply hasNode_addSpecialtyEdges_mono
      exact hregion
  · apply hasNode_addCapabilityEdges_mono
    apply hasNode_addCapabilityEdges_mono
    apply hasNode_addTextEquipmentEdges_mono
    apply hasNode_addEquipmentEdges_mono
    apply hasNode_addSpecialtyEdges_mono
    exact hregion

theorem add_facility_hasNode_self (N : Normalizers) (G : Graph) (er : Row × ℕ) :
    (add_facility N G er).hasNode (facility_id (er.1.pk_unique_id.getD "")) = true := by
  unfold add_facility
  dsimp only
  have hregion : (match er.1.normalized_region with
      | some reg =>
          if reg ≠ "" ∧ (G.addNode (facility_id (er.1.pk_unique_id.getD ""))
              { node_type := "Facility", name := er.1.name,
                facility_type := er.1.facilityTypeId, capacity := er.1.capacity,
                city := er.1.address_city,
                region := er.1.normalized_region }).hasNode (region_id reg) then
            (G.addNode (facility_id (er.1.pk_unique_id.getD ""))
              { node_type := "Facility", name := er.1.name,
                facility_type := er.1.facilityTypeId, capacity := er.1.capacity,
                city := er.1.address_city,
                region := er.1.normalized_region }).addEdge
              (facility_id (er.1.pk_unique_id.getD "")) (region_id reg)
              (.locatedIn er.1.address_city)
          else G.addNode (facility_id (er.1.pk_unique_id.getD ""))
              { node_type := "Facility", name := er.1.name,
                facility_type := er.1.facilityTypeId, capacity := er.1.capacity,
                city := er.1.address_city, region := er.1.normalized_region }
      | none => G.addNode (facility_id (er.1.pk_unique_id.getD ""))
          { node_type := "Facility", name := er.1.name,
            facility_type := er.1.facilityTypeId, capacity := er.1.capacity,
            city := er.1.address_city,
            region := er.1.normalized_region }).hasNode
        (facility_id (er.1.pk_unique_id.getD "")) = true := by
    split
    · split_ifs with hcond
      · exact hasNode_addEdge_mono _ _ _ _ _ (hasNode_addNode_self _ _ _)
      · exact hasNode_addNode_self _ _ _
    · exact hasNode_addNode_self _ _ _
  split
  · split_ifs with hd
    · apply hasNode_addCapabilityEdges_mono
      apply hasNode_addCapabilityEdges_mono
      apply hasNode_addCapabilityEdges_mono
      apply hasNode_addTextEquipmentEdges_mono
      apply hasNode_addEquipmentEdges_mono
      apply hasNode_addSpecialtyEdges_mono
      exact hregion
    · apply hasNode_addCapabilityEdges_mono
      apply hasNode_addCapabilityEdges_mono
      apply hasNode_addTextEquipmentEdges_mono
      apply hasNode_addEquipmentEdges_mono
      apply hasNode_addSpecialtyEdges_mono
      exact hregion
  · apply hasNode_addCapabilityEdges_mono
    apply hasNode_addCapabilityEdges_mono
    apply hasNode_addTextEquipmentEdges_mono
    apply hasNode_addEquipmentEdges_mono
    apply hasNode_addSpecialtyEdges_mono
    exact hregion

theorem add_ngo_mono (G : Graph) (er : Row × ℕ) (n : NodeId)
    (h : G.hasNode n = true) : (add_ngo G er).hasNode n = true := by
  unfold add_ngo
  dsimp only
  split
  · split_ifs with hcond
    · exact hasNode_addEdge_mono _ _ _ _ n (hasNode_addNode_mono _ _ _ n h)
    · exact hasNode_addNode_mono _ _ _ n h
  · exact hasNode_addNode_mono _ _ _ n h

theorem add_ngo_hasNode_self (G : Graph) (er : Row × ℕ) :
    (add_ngo G er).hasNode (ngo_id (er.1.pk_unique_id.getD "")) = true := by
  unfold add_ngo
  dsimp only
  split
  · split_ifs with hcond
    · exact hasNode_addEdge_mono _ _ _ _ _ (hasNode_addNode_self _ _ _)
    · exact hasNode_addNode_self _ _ _
  · exact hasNode_addNode_self _ _ _

theorem processStep_mono (N : Normalizers) (n : NodeId) (g : Graph) (er : Row × ℕ)
    (h : g.hasNode n = true) :
    (if pyLower (er.1.organization_type.getD "") = "ngo" then add_ngo g er
     else add_facility N g er).hasNode n = true := by
  by_cases ho : pyLower (er.1.organization_type.getD "") = "ngo"
  · rw [if_pos ho]; exact add_ngo_mono g er n h
  · rw [if_neg ho]; exact add_facility_mono N g er n h

theorem processEntities_ingests (N : Normalizers) :
    ∀ (entities : List (Row × ℕ)) (G : Graph) (er : Row × ℕ), er ∈ entities →
      (processEntities N G entities).hasNode
        (facility_id (er.1.pk_unique_id.getD "")) = true ∨
      (processEntities N G entities).hasNode
        (ngo_id (er.1.pk_unique_id.getD "")) = true := by
  intro entities
  induction entities with
  | nil => intro G er h; cases h
  | cons e0 rest ih =>
      intro G er her
      unfold processEntities
      rw [List.foldl_cons]
      rcases List.mem_cons.mp her with rfl | hmem
      · by_cases ho : pyLower (er.1.organization_type.getD "") = "ngo"
        · right
          refine foldl_graph_preserves
            (fun g => g.hasNode (ngo_id (er.1.pk_unique_id.getD "")) = true) _
            (fun g x hg => processStep_mono N _ g x hg) rest _ ?_
          show (if pyLower (er.1.organization_type.getD "") = "ngo" then add_ngo G er
            else add_facility N G er).hasNode (ngo_id (er.1.pk_unique_id.getD "")) = true
          rw [if_pos ho]
          exact add_ngo_hasNode_self G er
        · left
          refine foldl_graph_preserves
            (fun g => g.hasNode (facility_id (er.1.pk_unique_id.getD "")) = true) _
            (fun g x hg => processStep_mono N _ g x hg) rest _ ?_
          show (if pyLower (er.1.organization_type.getD "") = "ngo" then add_ngo G er
            else add_facility N G er).hasNode
              (facility_id (er.1.pk_unique_id.getD "")) = true
          rw [if_neg ho]
          exact add_facility_hasNode_self N G er
      · have hres := ih ((fun g er2 =>
          if pyLower (er2.1.organization_type.getD "") = "ngo" then add_ngo g er2
          else add_facility N g er2) G e0) er hmem
        unfold processEntities at hres
        exact hres

/-- C9.  Ingestion recovers from data-quality errors without raising: a list
cell whose `json.loads` fails parses to `[]`, as do the `""`/`"null"`
encodings and any parse that is not a JSON list; a numeric cell whose
`float()` fails parses to `None`; a row whose region and city both miss the
normalization maps gets no normalized region; and every row with a truthy
`pk_unique_id` is still ingested — it survives deduplication as an entity
carrying its key, and entity processing always creates its Facility or NGO
node in the graph. -/
theorem ingestion_recovers :
    (∀ v, parseJsonList v none = []) ∧
    (∀ p, parseJsonList "null" p = [] ∧ parseJsonList "" p = []) ∧
    (∀ v j, Json.isArr j = false → parseJsonList v (some j) = []) ∧
    (∀ v, parseIntField v none = none ∧ parseFloatField v none = none) ∧
    (∀ (conf : CountryConfig) (rr rc : Option String),
      (∀ s, rr = some s →
        tblGet conf.REGION_NORMALIZATION (pyStrip (pyLower s)) = none) →
      (∀ c, rc = some c →
        tblGet conf.CITY_TO_REGION (pyStrip (pyLower c)) = none) →
      normalizeRegionOf conf rr rc = none) ∧
    (∀ (rows : List Row) (r : Row) (pk : String), r ∈ rows → truthyPk r = some pk →
      ∃ er ∈ deduplicate_rows rows, er.1.pk_unique_id = some pk) ∧
    (∀ (N : Normalizers) (G : Graph) (entities : List (Row × ℕ)) (er : Row × ℕ),
      er ∈ entities →
      (processEntities N G entities).hasNode
        (facility_id (er.1.pk_unique_id.getD "")) = true ∨
      (processEntities N G entities).hasNode
        (ngo_id (er.1.pk_unique_id.getD "")) = true) := by
  refine ⟨parseJsonList_of_no_parse, ?_, parseJsonList_of_non_list, ?_, ?_, ?_, ?_⟩
  · intro p
    constructor
    · unfold parseJsonList
      rw [if_pos (Or.inr (Or.inl rfl))]
    · unfold parseJsonList
      rw [if_pos (Or.inl rfl)]
  · intro v
    constructor
    · unfold parseIntField
      split_ifs <;> rfl
    · unfold parseFloatField
      split_ifs <;> rfl
  · exact normalizeRegionOf_unmapped
  · exact dedup_keeps_truthy
  · intro N G entities er hmem
    exact processEntities_ingests N entities G er hmem

/-- Used by C9's witness: a country configuration whose maps miss the
witness row's region and city. -/
def c9Conf : CountryConfig :=
  { REGION_METADATA := [], REGION_ADJACENCY := [],
    REGION_NORMALIZATION := [("greater accra", "greater_accra")],
    CITY_TO_REGION := [("kumasi", "ashanti")] }

/-- Used by C9's witness: a row with a truthy key and unmapped region. -/
def c9Row : Row :=
  { pk_unique_id := some "77", organization_type := some "NGO",
    address_stateOrRegion := some "Atlantis", address_city := some "Nowhere" }

/-- Used by C9's witness: normalizers that match nothing. -/
def c9Norm : Normalizers :=
  { normalize_equipment_list := fun _ => [],
    match_equipment := fun _ => [],
    normalize_capability_list := fun _ _ => [] }

/-- Witness for `ingestion_recovers`: the unmapped region resolves to
`None`, and the keyed row survives deduplication and entity processing. -/
theorem ingestion_recovers_witness :
    normalizeRegionOf c9Conf (some "Atlantis") (some "Nowhere") = none ∧
    (∃ er ∈ deduplicate_rows [c9Row], er.1.pk_unique_id = some "77") ∧
    ((processEntities c9Norm { nodes := [], edges := [] } [(c9Row, 1)]).hasNode
        (facility_id "77") = true ∨
      (processEntities c9Norm { nodes := [], edges := [] } [(c9Row, 1)]).hasNode
        (ngo_id "77") = true) :=
  ⟨ingestion_recovers.2.2.2.2.1 c9Conf (some "Atlantis") (some "Nowhere")
      (by intro s hs; cases hs; decide) (by intro c hc; cases hc; decide),
   ingestion_recovers.2.2.2.2.2.1 [c9Row] c9Row "77"
      (List.mem_singleton.mpr rfl) (by decide),
   ingestion_recovers.2.2.2.2.2.2 c9Norm { nodes := [], edges := [] }
      [(c9Row, 1)] (c9Row, 1) (List.mem_singleton.mpr rfl)⟩

end NeoCommand
